import Mathlib

/-!
# Swarm netStore and SWAP accounting: a shallow embedding

Part I embeds `common/swap/swap.go` (the per-peer accounting engine `Swap`).
Part II embeds `bzz/netstore.go` (the chunk store front end `netStore`).
Part III embeds `bzz/storage/netstore.go` (the `NetStore` over a cloud back end).

Conventions of the embedding

* Go `int` and `uint` are taken at 64 bits.  An `int` is an `Int` between `-2 ^ 63` and
  `2 ^ 63 - 1`: every `int` operation of the source (`+=`, unary `-`, the conversion
  `int(u)` of a `uint`) is followed by `wrapInt`, the wrap-around of the machine.  A `uint`
  is a `Nat`, read modulo `2 ^ 64`.  `*big.Int` is `Option Int` (`none` is the nil
  pointer), with exact arithmetic.  Balances count units of chunk service.
* A Go pointer that the code dereferences is an `Option`; dereferencing `none` is the
  run-time panic, modelled as the `Except.error` branch carrying the state reached.
* A byte slice is the list of its bytes, `none` when nil.  Where the code takes a slice
  expression of it (`SData[0:8]`), whose bound is the capacity and not the length, the
  bytes of the backing array between length and capacity are kept beside it.
* Collaborators behind interfaces (`OutPayment`, `InPayment`, `Protocol`, the hive, the
  peer sessions) are not code of the embedded files.  Every call made on them is appended
  to a call log kept in the state; what they answer is a function of the log so far and of
  the arguments, so that any deterministic collaborator is covered.
-/

namespace swap

/-- Promise is `interface{}` in the source: an uninterpreted token. -/
abbrev Promise := Nat

/-- Public swap profile (`type Profile struct`). -/
structure Profile where
  BuyAt : Option Int
  SellAt : Option Int
  PayAt : Nat
  DropAt : Nat
  deriving DecidableEq, Repr

/-- Strategy: parameters of automatic deposit and automatic cashing; durations are
nanosecond counts. -/
structure Strategy where
  AutoCashInterval : Int
  AutoCashThreshold : Option Int
  AutoDepositInterval : Int
  AutoDepositThreshold : Option Int
  AutoDepositBuffer : Option Int
  deriving DecidableEq, Repr

/-- Params embeds `*Profile` and `*Strategy`; either embedded pointer may be nil. -/
structure Params where
  Profile : Option Profile
  Strategy : Option Strategy
  deriving DecidableEq, Repr

/-- One call made by a `Swap` on one of its collaborators: `out` (Issue, AutoDeposit,
OutStop), `in` (Receive, AutoCash, InStop) or `proto` (Pay, Drop). -/
inductive Call where
  | Issue (amount : Int)
  | AutoDeposit (interval : Int) (threshold buffer : Option Int)
  | OutStop
  | Receive (promise : Promise)
  | AutoCash (cashInterval : Int) (maxUncashed : Option Int)
  | InStop
  | Pay (units : Int) (promise : Promise)
  | Drop
  deriving DecidableEq, Repr

/-- The outgoing payment handler: `Issue` answers a promise or fails (`none`), given the
calls made so far and the amount. -/
structure OutPayment where
  Issue : List Call → Int → Option Promise

/-- The incoming payment handler: `Receive` answers the verified amount or fails (`none`),
given the calls made so far and the promise. -/
structure InPayment where
  Receive : List Call → Promise → Option Int

/-- The swap instance (`type Swap struct`).  `local_` and `in_` are the source's `local`
and `in`; `calls` is the log of calls made on `out`, `in` and `proto`, oldest first. -/
structure Swap where
  balance : Int
  local_ : Option Params
  remote : Option Profile
  out : OutPayment
  in_ : InPayment
  calls : List Call

/-- Errors returned by `Swap.Receive`. -/
inductive ReceiveError where
  | invalidUnits
  | invalidPromise
  | invalidAmount
  deriving DecidableEq, Repr

/-- The value an `int` expression takes on the machine: the integer wrapped around into
the range from `-2 ^ 63` to `2 ^ 63 - 1`. -/
def wrapInt (x : Int) : Int := (x + 2 ^ 63) % 2 ^ 64 - 2 ^ 63

/-- The conversion `int(u)` of a `uint`. -/
def intOfUint (u : Nat) : Int := wrapInt (u : Int)

/-- Record a call on a collaborator. -/
def Swap.call (self : Swap) (c : Call) : Swap :=
  { self with calls := self.calls ++ [c] }

/-- The method `send`: called when payment is due.  The units owed are the `int`
`-self.balance`; the amount is their product with the sale price, as a big integer. -/
def Swap.send (self : Swap) : Except Swap Swap :=
  match self.local_ with
  | none => Except.error self
  | some l =>
    match l.Profile with
    | none => Except.error self
    | some lp =>
      if lp.BuyAt ≠ none ∧ self.balance < 0 then
        match self.remote with
        | none => Except.error self
        | some r =>
          match r.SellAt with
          | none => Except.error self
          | some sellAt =>
            let amount := wrapInt (-self.balance) * sellAt
            match self.out.Issue self.calls amount with
            | none => Except.ok (self.call (Call.Issue amount))
            | some promise =>
              Except.ok
                { (self.call (Call.Issue amount)).call
                    (Call.Pay (wrapInt (-self.balance)) promise) with
                  balance := 0 }
      else Except.ok self

/-- The method `Add(n)`: `n > 0` when `n` units of service were provided, `n < 0` when
used.  The thresholds are compared as `int(self.local.DropAt)` and
`-int(self.remote.PayAt)`. -/
def Swap.Add (self : Swap) (n : Int) : Except Swap Swap :=
  let s : Swap := { self with balance := wrapInt (self.balance + n) }
  match s.local_ with
  | none => Except.error s
  | some l =>
    match l.Profile with
    | none => Except.error s
    | some lp =>
      if s.balance ≥ intOfUint lp.DropAt then
        Except.ok (s.call Call.Drop)
      else
        match s.remote with
        | none => Except.error s
        | some r =>
          if s.balance ≤ wrapInt (-(intOfUint r.PayAt)) then s.send else Except.ok s

/-- The method `Balance`. -/
def Swap.Balance (self : Swap) : Int := self.balance

/-- The method `Receive(units, promise)`: the state reached and the error returned
(`none` is the nil error).  `units` is an `int`, positive where `-units` is formed, so that
negation does not wrap. -/
def Swap.Receive (self : Swap) (units : Int) (promise : Promise) :
    Except Swap (Swap × Option ReceiveError) :=
  if units ≤ 0 then Except.ok (self, some ReceiveError.invalidUnits)
  else
    match self.local_ with
    | none => Except.error self
    | some l =>
      match l.Profile with
      | none => Except.error self
      | some lp =>
        match lp.SellAt with
        | none => Except.error self
        | some sellAt =>
          let price := units * sellAt
          let s1 := self.call (Call.Receive promise)
          match self.in_.Receive self.calls promise with
          | none => Except.ok (s1, some ReceiveError.invalidPromise)
          | some amount =>
            if price ≠ amount then Except.ok (s1, some ReceiveError.invalidAmount)
            else
              match s1.Add (-units) with
              | Except.error s => Except.error s
              | Except.ok s2 => Except.ok (s2, none)

/-- A run of consecutive `Add` calls, stopping at the first panic. -/
def Swap.AddAll (self : Swap) : List Int → Except Swap Swap
  | [] => Except.ok self
  | n :: ns =>
    match self.Add n with
    | Except.error s => Except.error s
    | Except.ok s => s.AddAll ns

/-- A profile for examples: buys and sells at 7 a unit, pays at 10 units, drops at 100. -/
def testProfile : Profile := { BuyAt := some 7, SellAt := some 7, PayAt := 10, DropAt := 100 }

/-- A swap for examples, with both profiles set and an empty call log: `out.Issue` answers
the amount as the promise, `in.Receive` verifies a promise to the number it carries. -/
def testSwap (balance : Int) (loc rem : Profile) : Swap :=
  { balance := balance
    local_ := some { Profile := some loc, Strategy := none }
    remote := some rem
    out := { Issue := fun _ amount => some amount.toNat }
    in_ := { Receive := fun _ promise => some (promise : Int) }
    calls := [] }

/-- What is observed of the outcome of a call: the balance and the call log, after a normal
return (`ok`) or at a panic (`error`). -/
def observe (r : Except Swap Swap) : Except (Int × List Call) (Int × List Call) :=
  match r with
  | Except.ok s => Except.ok (s.balance, s.calls)
  | Except.error s => Except.error (s.balance, s.calls)

/-- The effect of a call started with call log `before`: the balance reached and the calls
made on the collaborators during it, after a normal return (`ok`) or at a panic
(`error`). -/
def effect (before : List Call) (r : Except Swap Swap) :
    Except (Int × List Call) (Int × List Call) :=
  match r with
  | Except.ok s => Except.ok (s.balance, s.calls.drop before.length)
  | Except.error s => Except.error (s.balance, s.calls.drop before.length)

/-- The method `setParams` (caller holds the lock): sets the schedules of both payment
handlers from the parameters; a nil `local` or a nil embedded `Strategy` is a nil
dereference. -/
def Swap.setParams (self : Swap) (local_ : Option Params) : Except Swap Swap :=
  match local_ with
  | none => Except.error self
  | some l =>
    match l.Strategy with
    | none => Except.error self
    | some st =>
      Except.ok
        ((self.call (Call.AutoCash st.AutoCashInterval st.AutoCashThreshold)).call
          (Call.AutoDeposit st.AutoDepositInterval st.AutoDepositThreshold st.AutoDepositBuffer))

/-- The constructor `New`; the protocol handed in is what the call log records `Pay` and
`Drop` for.  The error it returns is always nil. -/
def New (local_ : Option Params) (out : OutPayment) (in_ : InPayment) : Except Swap Swap :=
  Swap.setParams
    { balance := 0, local_ := local_, remote := none, out := out, in_ := in_, calls := [] }
    local_

/-- The method `SetRemote`: entry point for setting the remote swap profile.  Its log line
reads the fields of the profile first, so a nil profile is a nil dereference. -/
def Swap.SetRemote (self : Swap) (remote : Option Profile) : Except Swap Swap :=
  match remote with
  | none => Except.error self
  | some r => Except.ok { self with remote := some r }

/-- The method `SetParams`: to set strategy dynamically. -/
def Swap.SetParams (self : Swap) (local_ : Option Params) : Swap :=
  { self with local_ := local_ }

/-- The method `Stop`: calls `out.Stop()` and then `in.Stop()`. -/
def Swap.Stop (self : Swap) : Swap :=
  (self.call Call.OutStop).call Call.InStop

/-- One step of a run on a swap: an `Add`, or a `Receive`. -/
inductive Op where
  | add (n : Int)
  | receive (units : Int) (promise : Promise)
  deriving DecidableEq, Repr

/-- One step of a run of `Add` calls and successful `Receive` calls: the swap after it, or
`none` when the call panics or the `Receive` returns an error. -/
def Swap.step (self : Swap) : Op → Option Swap
  | Op.add n =>
    match self.Add n with
    | Except.ok s => some s
    | Except.error _ => none
  | Op.receive units promise =>
    match self.Receive units promise with
    | Except.ok (s, none) => some s
    | _ => none

/-- A run of `Add` calls and successful `Receive` calls. -/
def Swap.steps (self : Swap) : List Op → Option Swap
  | [] => some self
  | op :: ops =>
    match self.step op with
    | some s => s.steps ops
    | none => none

/-- A strategy for examples. -/
def testStrategy : Strategy :=
  { AutoCashInterval := 300, AutoCashThreshold := some 50, AutoDepositInterval := 300,
    AutoDepositThreshold := some 50, AutoDepositBuffer := some 100 }

end swap

namespace bzz

/-- Key is the content hash of a chunk, a byte string (nil and empty coincide). -/
abbrev Key := List Nat

/-- The zero key `zeroKey`: 32 zero bytes. -/
def zeroKey : Key := List.replicate 32 0

/-- Request status values. -/
def reqSearching : Nat := 0

/-- Request status value after the chunk was found. -/
def reqFound : Nat := 1

/-- Maximum number of peers that a retrieved message is delivered to. -/
def requesterCount : Int := 3

/-- Timeout interval before retrieval is timed out: 3 seconds, in nanoseconds. -/
def searchTimeout : Nat := 3 * 1000000000

/-- Modelled from the spec: the peer session of section 4.4, whose declaration is not in
the embedded files.  `addr` is what `Addr()` answers, `remoteAddr` the address record sent
in peers messages; `id` tells sessions apart. -/
structure peer where
  id : Nat
  addr : List Nat
  remoteAddr : List Nat
  deriving DecidableEq, Repr, Inhabited

/-- Modelled from the spec: the RetrieveRequest of section 3 (`retrieveRequestMsgData`,
declared outside the embedded files).  `timeout` is an optional instant in nanoseconds. -/
structure retrieveRequestMsgData where
  Key : Key
  Id : Nat
  MaxSize : Nat
  MaxPeers : Int
  timeout : Option Nat
  peer : peer
  deriving DecidableEq, Repr, Inhabited

/-- Modelled from the spec: the StoreRequest of section 3 (`storeRequestMsgData`, declared
outside the embedded files).  `SData` is a byte slice, `none` when nil: its bytes are the
`len(SData)` bytes of the slice, and `spare` holds the bytes of its backing array between
its length and its capacity (`cap(SData) - len(SData)` of them), which the slice expression
`SData[0:8]` can reach; `spare` is empty for a slice whose capacity is its length, as for a
message built here to be sent. -/
structure storeRequestMsgData where
  Key : Key
  Id : Nat
  SData : Option (List Nat)
  requestTimeout : Option Nat
  peer : peer
  spare : List Nat := []
  deriving DecidableEq, Repr, Inhabited

/-- Modelled from the spec: the PeersMessage of section 6 (`peersMsgData`). -/
structure peersMsgData where
  Peers : List (List Nat)
  Key : Key
  Id : Nat
  timeout : Option Nat
  deriving DecidableEq, Repr

/-- A channel `chan bool` on which only `close` is performed: its identity and whether it
has been closed. -/
structure chan where
  id : Nat
  closed : Bool
  deriving DecidableEq, Repr

/-- The record `requestStatus`.  The Go map `requesters` is a list of (id, requesters)
pairs with distinct ids; the list order stands for the order in which `range` visits the
map, which Go leaves unspecified. -/
structure requestStatus where
  key : Key
  status : Nat
  requesters : List (Nat × List retrieveRequestMsgData)
  C : chan
  deriving DecidableEq, Repr

/-- Modelled from the spec: the Chunk of section 3 (declared outside the embedded files).
`SData` is `none` for a placeholder. -/
structure Chunk where
  Key : Key
  SData : Option (List Nat)
  Size : Int
  source : Option peer
  req : Option requestStatus
  deriving DecidableEq, Repr

/-- The kinds of request queued on a peer's syncer. -/
inductive syncKind where
  | DeliverReq
  | PropagateReq
  deriving DecidableEq, Repr

/-- What `syncer.addRequest` is handed: a store request message or a chunk. -/
inductive syncRequest where
  | store (msg : storeRequestMsgData)
  | chunk (c : Chunk)
  deriving DecidableEq, Repr

/-- One call made by the netStore on a peer session, or one `close` of a completion
channel. -/
inductive Event where
  | addRequest (dest : peer) (req : syncRequest) (ty : syncKind)
  | retrieve (dest : peer) (req : retrieveRequestMsgData)
  | peers (dest : peer) (msg : peersMsgData)
  | swapAdd (target : peer) (n : Int)
  | close (C : Nat)
  deriving DecidableEq, Repr

/-- Modelled from the spec: the LocalStore of section 4.1 (`localStore`, `memStore` and
`dbStore` are declared outside the embedded files): a memory map from key to chunk and a
persistent map from key to bytes.  Capacity bounds and eviction are not modelled. -/
structure localStore where
  memStore : Key → Option Chunk
  dbStore : Key → Option (List Nat)

/-- Modelled from the spec: the Hive of section 6, `getPeers(key, max)`. -/
structure hive where
  getPeers : Key → Int → List peer

/-- The record `netStore`.  `swapAdd` is the environment answering `peer.swap.Add(n)` as
netStore calls it (true when no error comes back), given the events so far; `log` is the
list of events, oldest first; `nextC` numbers the channels made by `newRequestStatus`. -/
structure netStore where
  hashfunc : List Nat → Key
  localStore : localStore
  hive : hive
  swapAdd : List Event → peer → Int → Bool
  log : List Event
  nextC : Nat

/-- The bytes of a slice; nil has none. -/
def bytesOf (b : Option (List Nat)) : List Nat := b.getD []

/-- The function `binary.LittleEndian.Uint64` on a byte list: byte `i` weighs `256 ^ i`. -/
def leUint64 : List Nat → Nat
  | [] => 0
  | b :: bs => b % 256 + 256 * leUint64 bs

/-- The conversion `int64(x)` of an unsigned 64-bit value. -/
def toInt64 (x : Nat) : Int :=
  if x % 2 ^ 64 < 2 ^ 63 then ((x % 2 ^ 64 : Nat) : Int) else ((x % 2 ^ 64 : Nat) : Int) - 2 ^ 64

/-- The expression `int64(binary.LittleEndian.Uint64(data[0:8]))` on a slice `data` whose
backing array goes on with `spare`; `none` when the slice expression is out of range, which
for a slice is when 8 exceeds its capacity (0 for the nil slice). -/
def sizeOf8 (data : Option (List Nat)) (spare : List Nat) : Option Int :=
  match data with
  | none => none
  | some bytes =>
    if 8 ≤ (bytes ++ spare).length then some (toInt64 (leUint64 ((bytes ++ spare).take 8)))
    else none

/-- The capacity `cap(req.SData)` of the data slice of a store request: 0 for the nil slice,
else its length and the spare bytes of its backing array. -/
def storeRequestMsgData.capSData (req : storeRequestMsgData) : Nat :=
  match req.SData with
  | none => 0
  | some bytes => bytes.length + req.spare.length

/-- Modelled from the spec: `isZeroKey`, true of the nil key and of the zero key. -/
def isZeroKey (key : Key) : Bool := key.length == 0 || key == zeroKey

/-- Modelled from the spec: `isLookup`, a request with a nil or zero key is a self-lookup. -/
def retrieveRequestMsgData.isLookup (req : retrieveRequestMsgData) : Bool := isZeroKey req.Key

/-- Modelled from the spec: `setTimeout` stores the instant in the request. -/
def retrieveRequestMsgData.setTimeout (req : retrieveRequestMsgData) (t : Option Nat) :
    retrieveRequestMsgData :=
  { req with timeout := t }

/-- Modelled from the spec: `getTimeout` reads the instant of the request. -/
def retrieveRequestMsgData.getTimeout (req : retrieveRequestMsgData) : Option Nat := req.timeout

/-- Modelled from the spec: `memStore.Put` inserts the chunk under its key. -/
def localStore.memPut (ls : localStore) (chunk : Chunk) : localStore :=
  { ls with memStore := Function.update ls.memStore chunk.Key (some chunk) }

/-- Modelled from the spec: `localStore.Get`, memStore first; on a miss a chunk read from
dbStore is promoted into memStore; `none` on a total miss. -/
def localStore.Get (ls : localStore) (key : Key) : localStore × Option Chunk :=
  match ls.memStore key with
  | some c => (ls, some c)
  | none =>
    match ls.dbStore key with
    | some data =>
      let c : Chunk :=
        { Key := key, SData := some data, Size := toInt64 (leUint64 (data.take 8)),
          source := none, req := none }
      (ls.memPut c, some c)
    | none => (ls, none)

/-- Modelled from the spec: the chunk as `localStore.Put` leaves it, which is the record
memStore holds under its key afterwards: a memStore placeholder (entry without data) is
updated in place, keeping its request status, so the chunk put over it carries that
status. -/
def localStore.putEntry (ls : localStore) (chunk : Chunk) : Chunk :=
  match ls.memStore chunk.Key with
  | some e => if e.SData = none then { chunk with req := e.req } else chunk
  | none => chunk

/-- Modelled from the spec: `localStore.Put` inserts into memStore and persists the data
when present; a memStore placeholder (entry without data) is updated in place, keeping its
request status. -/
def localStore.Put (ls : localStore) (chunk : Chunk) : localStore :=
  { memStore := Function.update ls.memStore chunk.Key (some (ls.putEntry chunk))
    dbStore :=
      match chunk.SData with
      | some data => Function.update ls.dbStore chunk.Key (some data)
      | none => ls.dbStore }

/-- The empty local store. -/
def localStore.empty : localStore := { memStore := fun _ => none, dbStore := fun _ => none }

/-- The function `newRequestStatus`, with the identity given to its fresh channel. -/
def newRequestStatus (c : Nat) : requestStatus :=
  { key := [], status := 0, requesters := [], C := { id := c, closed := false } }

/-- Append events to the log. -/
def netStore.emit (self : netStore) (es : List Event) : netStore :=
  { self with log := self.log ++ es }

/-- Write a chunk through its pointer: the memStore record under its key becomes `chunk`. -/
def netStore.store (self : netStore) (chunk : Chunk) : netStore :=
  { self with localStore := self.localStore.memPut chunk }

/-- Whether a requester is served at instant `now`: its timeout is nil or after `now`
(`req.timeout == nil || req.timeout.After(time.Now())`).  One run of an operation reads the
clock as the single instant `now`. -/
def alive (now : Nat) (req : retrieveRequestMsgData) : Bool :=
  match req.timeout with
  | none => true
  | some t => decide (now < t)

/-- The inner loop of `deliver` over the requesters of one id, `counter` deliveries left:
the `addRequest` calls it makes. -/
def deliverTo (msg : storeRequestMsgData) (now : Nat) :
    Int → List retrieveRequestMsgData → List Event
  | _, [] => []
  | counter, req :: rest =>
    if alive now req then
      Event.addRequest req.peer (syncRequest.store msg) syncKind.DeliverReq ::
        (if counter - 1 ≤ 0 then [] else deliverTo msg now (counter - 1) rest)
    else deliverTo msg now counter rest

/-- The message `deliver` builds for one request id. -/
def deliverMsg (chunk : Chunk) (id : Nat) : storeRequestMsgData :=
  { Key := chunk.Key, SData := chunk.SData, Id := id, requestTimeout := none, peer := default }

/-- The outer loop of `deliver` over the request table. -/
def deliverAll (chunk : Chunk) (now : Nat) :
    List (Nat × List retrieveRequestMsgData) → List Event
  | [] => []
  | (id, requesters) :: rest =>
    deliverTo (deliverMsg chunk id) now requesterCount requesters ++ deliverAll chunk now rest

/-- The method `deliver`: once a chunk is found deliver it to its requesters unless timed
out.  A chunk without request status is a nil dereference. -/
def netStore.deliver (self : netStore) (chunk : Chunk) (now : Nat) : Except netStore netStore :=
  match chunk.req with
  | none => Except.error self
  | some rs => Except.ok (self.emit (deliverAll chunk now rs.requesters))

/-- The loop of `propagate` over the peers given by the hive. -/
def propagateTo (chunk : Chunk) : List peer → List Event
  | [] => []
  | p :: rest =>
    if chunk.source = none ∨ some p.addr ≠ chunk.source.map peer.addr then
      Event.addRequest p (syncRequest.chunk chunk) syncKind.PropagateReq :: propagateTo chunk rest
    else propagateTo chunk rest

/-- The method `propagate`: store requests go to the peers given by the hive, except the
peer the chunk came from. -/
def netStore.propagate (self : netStore) (chunk : Chunk) : netStore :=
  self.emit (propagateTo chunk (self.hive.getPeers chunk.Key 0))

/-- The method `put`: store logic common to local and network chunk store requests.  The
request status is read after `localStore.Put(entry)`, from the chunk as that call leaves
it.  The chunk handed in is the record memStore holds afterwards, so the writes to its
request status are written through; `go propagate` runs where it is started. -/
def netStore.put (self : netStore) (entry : Chunk) (now : Nat) : Except netStore netStore :=
  let s1 : netStore := { self with localStore := self.localStore.Put entry }
  let entry : Chunk := self.localStore.putEntry entry
  match entry.req with
  | some rs =>
    if rs.status = reqSearching then
      let found : Chunk := { entry with req := some { rs with status := reqFound } }
      if rs.C.closed then Except.error (s1.store found)
      else
        let closed : Chunk :=
          { entry with req := some { rs with status := reqFound, C := { rs.C with closed := true } } }
        ((s1.store closed).emit [Event.close rs.C.id]).deliver closed now
    else Except.ok s1
  | none => Except.ok (s1.propagate entry)

/-- The method `Put`: entry point for local chunk store requests. -/
def netStore.Put (self : netStore) (entry : Chunk) (now : Nat) : Except netStore netStore :=
  match self.localStore.Get entry.Key with
  | (ls, none) => netStore.put { self with localStore := ls } entry now
  | (ls, some chunk) =>
    if chunk.SData = none then
      netStore.put { self with localStore := ls }
        { chunk with SData := entry.SData, Size := entry.Size } now
    else Except.ok { self with localStore := ls }

/-- The method `addStoreRequest`: entry point for network store requests. -/
def netStore.addStoreRequest (self : netStore) (req : storeRequestMsgData) (now : Nat) :
    Except netStore netStore :=
  match self.localStore.Get req.Key with
  | (ls, none) =>
    let s : netStore := { self with localStore := ls }
    match sizeOf8 req.SData req.spare with
    | none => Except.error s
    | some size =>
      s.put { Key := req.Key, SData := req.SData, Size := size, source := some req.peer,
              req := none } now
  | (ls, some chunk) =>
    let s : netStore := { self with localStore := ls }
    if chunk.SData = none then
      if self.hashfunc (bytesOf req.SData) ≠ req.Key then Except.ok s
      else
        match sizeOf8 req.SData req.spare with
        | none => Except.error (s.store { chunk with SData := req.SData })
        | some size =>
          s.put { chunk with SData := req.SData, Size := size, source := some req.peer } now
    else Except.ok s

/-- The method `get`: retrieve logic common for local and network chunk retrieval.  The
chunk returned is the record held in memStore. -/
def netStore.get (self : netStore) (key : Key) : netStore × Chunk :=
  let found := self.localStore.Get key
  let s0 : netStore := { self with localStore := found.1 }
  let blank : Chunk := { Key := key, SData := none, Size := 0, source := none, req := none }
  let s1 : netStore := if found.2 = none then s0.store blank else s0
  let chunk : Chunk := found.2.getD blank
  match chunk.req with
  | some _ => (s1, chunk)
  | none =>
    let c : Chunk := { chunk with req := some (newRequestStatus s1.nextC) }
    ({ s1.store c with nextC := s1.nextC + 1 }, c)

/-- The map update `rs.requesters[req.Id] = append(list, req)` on the list of pairs. -/
def appendRequester (req : retrieveRequestMsgData) :
    List (Nat × List retrieveRequestMsgData) → List (Nat × List retrieveRequestMsgData)
  | [] => [(req.Id, [req])]
  | (id, list) :: rest =>
    if id = req.Id then (id, list ++ [req]) :: rest else (id, list) :: appendRequester req rest

/-- The method `addRequester`: adds a new peer to an existing open request. -/
def addRequester (rs : requestStatus) (req : retrieveRequestMsgData) : requestStatus :=
  { rs with requesters := appendRequester req rs.requesters }

/-- The method `searchTimeout`: decides the timeout promise sent with the immediate peers
response to a retrieve request. -/
def netStore.searchTimeout (req : retrieveRequestMsgData) (now : Nat) : Option Nat :=
  match req.getTimeout with
  | some reqt => if reqt < now + bzz.searchTimeout then some reqt else some (now + bzz.searchTimeout)
  | none => some (now + bzz.searchTimeout)

/-- The method `strategyUpdateRequest`: adds the requesting peer to the request and decides
the timeout if still searching.  The request appended is the pointer whose timeout is set
afterwards, so the table holds the request with the timeout decided. -/
def netStore.strategyUpdateRequest (rs : Option requestStatus) (origReq : retrieveRequestMsgData)
    (now : Nat) : Option requestStatus × retrieveRequestMsgData :=
  match rs with
  | none => (none, origReq)
  | some r =>
    let req : retrieveRequestMsgData :=
      if r.status = reqSearching then origReq.setTimeout (netStore.searchTimeout origReq now)
      else origReq
    (some (addRequester r req), req)

/-- Whether some recorded requester, under any id, has the address of `p`. -/
def isRequester (p : peer) (requesters : List (Nat × List retrieveRequestMsgData)) : Bool :=
  requesters.any (fun e => e.2.any (fun recipient => decide (recipient.peer.addr = p.addr)))

/-- The loop of `startSearch` over the peers given by the hive: the log after it. -/
def startSearchLoop (swapAdd : List Event → peer → Int → Bool)
    (requesters : List (Nat × List retrieveRequestMsgData)) (req : retrieveRequestMsgData) :
    List Event → List peer → List Event
  | log, [] => log
  | log, p :: rest =>
    if isRequester p requesters then startSearchLoop swapAdd requesters req log rest
    else if swapAdd log p (-1) then log ++ [Event.swapAdd p (-1), Event.retrieve p req]
    else startSearchLoop swapAdd requesters req (log ++ [Event.swapAdd p (-1)]) rest

/-- The method `startSearch`: propagates the retrieve request to a peer given by the hive.
The chunk is the record held in memStore; one without request status is a nil
dereference. -/
def netStore.startSearch (self : netStore) (req : retrieveRequestMsgData) (chunk : Chunk) :
    Except netStore (netStore × Chunk) :=
  match chunk.req with
  | none => Except.error self
  | some rs =>
    let c : Chunk := { chunk with req := some { rs with status := reqSearching } }
    let s : netStore := self.store c
    Except.ok
      ({ s with
         log := startSearchLoop s.swapAdd rs.requesters req s.log (s.hive.getPeers c.Key 0) }, c)

/-- The method `peers`: the immediate response to a retrieve request, the peers the hive
gives for the key, sent to the requester. -/
def netStore.peers (self : netStore) (req : retrieveRequestMsgData) (now : Nat) : netStore :=
  if req.MaxPeers ≥ 0 then
    if alive now req then
      let key : Key := if isZeroKey req.Key then req.peer.addr else req.Key
      let outKey : Key := if isZeroKey req.Key then [] else req.Key
      self.emit
        [Event.peers req.peer
          { Peers := (self.hive.getPeers key req.MaxPeers).map peer.remoteAddr,
            Key := outKey, Id := req.Id, timeout := req.timeout }]
    else self
  else self

/-- The method `addRetrieveRequest`: entry point for network retrieve requests. -/
def netStore.addRetrieveRequest (self : netStore) (req : retrieveRequestMsgData) (now : Nat) :
    Except netStore netStore :=
  if !req.isLookup then
    let got := self.get req.Key
    let s0 := got.1
    match got.2.req with
    | none => Except.error s0
    | some rs0 =>
      let rs1 : requestStatus :=
        if got.2.SData ≠ none then { rs0 with status := reqFound } else rs0
      let upd := netStore.strategyUpdateRequest (some rs1) req now
      let req1 := upd.2
      let chunk : Chunk := { got.2 with req := upd.1 }
      let s1 : netStore := (s0.store chunk).emit [Event.swapAdd req1.peer 1]
      if !(s0.swapAdd s0.log req1.peer 1) then Except.ok s1
      else
        if (upd.1.map requestStatus.status = some reqFound) ∧
            (req1.MaxSize = 0 ∨ toInt64 req1.MaxSize ≥ chunk.Size) then
          Except.ok
            (s1.emit
              [Event.addRequest req1.peer
                (syncRequest.store
                  { Key := req1.Key, Id := req1.Id, SData := chunk.SData,
                    requestTimeout := req1.timeout, peer := default })
                syncKind.DeliverReq])
        else
          match s1.startSearch req1 chunk with
          | Except.error e => Except.error e
          | Except.ok r => Except.ok (r.1.peers req1 now)
  else Except.ok (self.peers req now)

/-- The method `Get`: entry point for local retrieve requests, up to the point where it
returns at once or starts waiting.  It answers the state, the chunk as it stands then, and
whether the caller goes on to wait for the completion channel or the timer; `id` is the
number `generateId` drew. -/
def netStore.Get (self : netStore) (key : Key) (now : Nat) (id : Nat) :
    Except netStore (netStore × Chunk × Bool) :=
  let got := self.get key
  if got.2.SData = none then
    let req : retrieveRequestMsgData :=
      { Key := got.2.Key, Id := id, MaxSize := 0, MaxPeers := 0,
        timeout := some (now + bzz.searchTimeout), peer := default }
    match got.1.startSearch req got.2 with
    | Except.error e => Except.error e
    | Except.ok r => Except.ok (r.1, r.2, true)
  else Except.ok (got.1, got.2, false)

/-- The `addRequest` call `deliver` makes for requester `req` under request id `id`. -/
def deliveryTo (chunk : Chunk) (id : Nat) (req : retrieveRequestMsgData) : Event :=
  Event.addRequest req.peer (syncRequest.store (deliverMsg chunk id)) syncKind.DeliverReq

/-- Whether an event is a Deliver enqueue of a store request carrying request id `id`. -/
def isDeliveryFor (id : Nat) : Event → Bool
  | Event.addRequest _ (syncRequest.store msg) syncKind.DeliverReq => msg.Id == id
  | _ => false

/-- The `addRequest` call `propagate` makes on peer `p`. -/
def propagationTo (chunk : Chunk) (p : peer) : Event :=
  Event.addRequest p (syncRequest.chunk chunk) syncKind.PropagateReq

/-- A hash function for examples: one byte, the sum of the data modulo 256. -/
def testHash (data : List Nat) : Key := [data.sum % 256]

/-- Peers for examples. -/
def testPeer (n : Nat) : peer := { id := n, addr := [n], remoteAddr := [n, n] }

/-- A netStore for examples: empty local store, a hive answering peers 1, 2 and 3 for every
key, every swap charge accepted. -/
def testStore : netStore :=
  { hashfunc := testHash
    localStore := localStore.empty
    hive := { getPeers := fun _ _ => [testPeer 1, testPeer 2, testPeer 3] }
    swapAdd := fun _ _ _ => true
    log := []
    nextC := 0 }

/-- A retrieve request for examples, from peer `p` under id `id`, with timeout `t`. -/
def testRequest (p id : Nat) (t : Option Nat) : retrieveRequestMsgData :=
  { Key := [9], Id := id, MaxSize := 0, MaxPeers := 0, timeout := t, peer := testPeer p }

/-- A placeholder for key `[9]`, searching, with the given request table. -/
def testPlaceholder (requesters : List (Nat × List retrieveRequestMsgData)) : Chunk :=
  { Key := [9], SData := none, Size := 0, source := none,
    req := some { key := [], status := reqSearching, requesters := requesters,
                  C := { id := 0, closed := false } } }

/-- What is observed of a chunk handed back by `Get`: its key, its data, and whether the
caller still has to wait. -/
def observeGet (r : Except netStore (netStore × Chunk × Bool)) :
    Option (Key × Option (List Nat) × Bool) :=
  match r with
  | Except.ok (_, c, waits) => some (c.Key, c.SData, waits)
  | Except.error _ => none

/-- The memStore is keyed by chunk key: the chunk recorded under a key carries that key. -/
def netStore.keyed (self : netStore) : Prop :=
  ∀ k c, self.localStore.memStore k = some c → c.Key = k

/-- A run of consecutive `get` calls, one per key of the list: the netStore after it. -/
def netStore.getAll (self : netStore) : List Key → netStore
  | [] => self
  | k :: ks => netStore.getAll (self.get k).1 ks

/-- The `retrieve` calls among a list of events, in order. -/
def retrieves (es : List Event) : List (peer × retrieveRequestMsgData) :=
  es.filterMap (fun e =>
    match e with
    | Event.retrieve p req => some (p, req)
    | _ => none)

/-- The request `Get` builds for its search: the key, the id drawn, the deadline
`now + searchTimeout`, and no peer. -/
def localRequest (key : Key) (now id : Nat) : retrieveRequestMsgData :=
  { Key := key, Id := id, MaxSize := 0, MaxPeers := 0,
    timeout := some (now + searchTimeout), peer := default }

/-- The status of the request recorded for a key in memStore, if any. -/
def netStore.statusOf (self : netStore) (key : Key) : Option Nat :=
  match self.localStore.memStore key with
  | some c => c.req.map requestStatus.status
  | none => none

/-- The requesters recorded for a key under a request id, in the order they were added. -/
def netStore.requestersOf (self : netStore) (key : Key) (id : Nat) :
    List retrieveRequestMsgData :=
  match self.localStore.memStore key with
  | some c =>
    match c.req with
    | some rs => (rs.requesters.lookup id).getD []
    | none => []
  | none => []

/-- A chunk for examples: key `[9]`, sixteen bytes of data whose first eight encode the size
8, held with the given request status. -/
def testChunk (req : Option requestStatus) : Chunk :=
  { Key := [9], SData := some [8, 0, 0, 0, 0, 0, 0, 0, 1, 0, 0, 0, 0, 0, 0, 0], Size := 8,
    source := none, req := req }

/-- A request status for examples: found, its channel closed, no requester recorded. -/
def testFound : requestStatus :=
  { key := [], status := reqFound, requesters := [], C := { id := 0, closed := true } }

/-- What is observed of a netStore after an operation: the event log, or `none` after a
panic. -/
def observeLog (r : Except netStore netStore) : Option (List Event) :=
  match r with
  | Except.ok s => some s.log
  | Except.error _ => none

/-- The netStore an operation reaches, whether it returns or panics. -/
def reached (r : Except netStore netStore) : netStore :=
  match r with
  | Except.ok s => s
  | Except.error s => s

/-- What is observed of the record memStore holds under a key: its data, its size and its
source. -/
def observeStored (self : netStore) (key : Key) :
    Option (Option (List Nat) × Int × Option peer) :=
  (self.localStore.memStore key).map (fun c => (c.SData, c.Size, c.source))

/-- The placeholder `get` opens for a key without local record: no data, and a fresh
request status whose channel is numbered `c`. -/
def placeholder (key : Key) (c : Nat) : Chunk :=
  { Key := key, SData := none, Size := 0, source := none, req := some (newRequestStatus c) }

/-- A run of consecutive local `Get` calls, each given as (key, instant, id drawn), none of
which is answered in between: the netStore after it, or the state at the first panic. -/
def netStore.Gets (self : netStore) : List (Key × Nat × Nat) → Except netStore netStore
  | [] => Except.ok self
  | (key, now, id) :: rest =>
    match self.Get key now id with
    | Except.error e => Except.error e
    | Except.ok r => netStore.Gets r.1 rest

/-- What is observed of the request status of a key after an operation, or `none` after a
panic. -/
def observeStatus (key : Key) (r : Except netStore netStore) : Option Nat :=
  match r with
  | Except.ok s => s.statusOf key
  | Except.error _ => none

/-- The debits `startSearch` attempts on a list of peers it passes over without sending:
one `swap.Add(-1)` for each peer that is not a recorded requester, in order. -/
def debitsOf (requesters : List (Nat × List retrieveRequestMsgData)) (peers : List peer) :
    List Event :=
  (peers.filter (fun q => !isRequester q requesters)).map (fun q => Event.swapAdd q (-1))

/-- The peers messages among a list of events, in order. -/
def peersReplies (es : List Event) : List (peer × peersMsgData) :=
  es.filterMap (fun e =>
    match e with
    | Event.peers p msg => some (p, msg)
    | _ => none)

/-- The syncer enqueues (`addRequest` calls) among a list of events, in order. -/
def enqueues (es : List Event) : List Event :=
  es.filter (fun e =>
    match e with
    | Event.addRequest _ _ _ => true
    | _ => false)

/-- The store request `addRetrieveRequest` enqueues to the requester when it serves the
request from the local store. -/
def servedMsg (req : retrieveRequestMsgData) (chunk : Chunk) : storeRequestMsgData :=
  { Key := req.Key, Id := req.Id, SData := chunk.SData, requestTimeout := req.timeout,
    peer := default }

/-- The timeout the clamp of `strategyUpdateRequest` gives a request arriving at `now`: the
earlier of its own timeout and `now + searchTimeout`. -/
def clampedTimeout (req : retrieveRequestMsgData) (now : Nat) : Nat :=
  match req.timeout with
  | some t => min t (now + searchTimeout)
  | none => now + searchTimeout

end bzz

namespace storage

/-- Key is the content hash of a chunk, a byte string. -/
abbrev Key := List Nat

/-- Modelled from the spec: the RequestStatus of section 3 as `storage` declares it
(outside the embedded file); `NetStore` reads its key and its completion channel only. -/
structure RequestStatus where
  Key : Key
  C : bzz.chan
  deriving DecidableEq, Repr

/-- Modelled from the spec: the Chunk of section 3 as `storage` declares it (outside the
embedded file). -/
structure Chunk where
  Key : Key
  SData : Option (List Nat)
  Size : Int
  Req : Option RequestStatus
  deriving DecidableEq, Repr

/-- One call made by the `NetStore` on its cloud back end (`CloudStore`), or one `close` of a
completion channel. -/
inductive CloudCall where
  | Store (c : Chunk)
  | Deliver (c : Chunk)
  | Retrieve (c : Chunk)
  | close (C : Nat)
  deriving DecidableEq, Repr

/-- Modelled from the spec: the LocalStore of section 4.1 as `storage` declares it: a memory
map from key to chunk and a persistent map from key to bytes, without capacity bound. -/
structure LocalStore where
  memStore : Key → Option Chunk
  dbStore : Key → Option (List Nat)

/-- The record `NetStore`: `cloud` is the log of calls made on the cloud back end, oldest
first; `nextC` numbers the channels made by `newRequestStatus`. -/
structure NetStore where
  hashfunc : List Nat → Key
  localStore : LocalStore
  cloud : List CloudCall
  nextC : Nat

/-- Modelled from the spec: `memStore.Put` inserts the chunk under its key. -/
def LocalStore.memPut (ls : LocalStore) (chunk : Chunk) : LocalStore :=
  { ls with memStore := Function.update ls.memStore chunk.Key (some chunk) }

/-- Modelled from the spec: `localStore.Get`, memStore first; on a miss a chunk read from
dbStore is promoted into memStore; `none` on a total miss. -/
def LocalStore.Get (ls : LocalStore) (key : Key) : LocalStore × Option Chunk :=
  match ls.memStore key with
  | some c => (ls, some c)
  | none =>
    match ls.dbStore key with
    | some data =>
      let c : Chunk :=
        { Key := key, SData := some data, Size := bzz.toInt64 (bzz.leUint64 (data.take 8)),
          Req := none }
      (ls.memPut c, some c)
    | none => (ls, none)

/-- Modelled from the spec: the chunk as `localStore.Put` leaves it, which is the record
memStore holds under its key afterwards: a memStore placeholder (entry without data) is
updated in place, keeping its request status, so the chunk put over it carries that
status. -/
def LocalStore.putEntry (ls : LocalStore) (chunk : Chunk) : Chunk :=
  match ls.memStore chunk.Key with
  | some e => if e.SData = none then { chunk with Req := e.Req } else chunk
  | none => chunk

/-- Modelled from the spec: `localStore.Put` inserts into memStore and persists the data
when present; a memStore placeholder (entry without data) is updated in place, keeping its
request status. -/
def LocalStore.Put (ls : LocalStore) (chunk : Chunk) : LocalStore :=
  { memStore := Function.update ls.memStore chunk.Key (some (ls.putEntry chunk))
    dbStore :=
      match chunk.SData with
      | some data => Function.update ls.dbStore chunk.Key (some data)
      | none => ls.dbStore }

/-- Modelled from the spec: `newRequestStatus(key)`, with the identity given to its fresh
channel. -/
def newRequestStatus (key : Key) (c : Nat) : RequestStatus :=
  { Key := key, C := { id := c, closed := false } }

/-- Modelled from the spec: `NewChunk(key, rs)`, a chunk without data carrying the request
status. -/
def NewChunk (key : Key) (rs : RequestStatus) : Chunk :=
  { Key := key, SData := none, Size := 0, Req := some rs }

/-- The method `Put`: store logic common to local and network chunk store requests.  The
request status is read after `localStore.Put(entry)`, from the chunk as that call leaves
it.  The chunk handed in is the record memStore holds afterwards, so the close of its
channel is written through; closing a closed channel panics; `go cloud.Store` runs where it
is started. -/
def NetStore.Put (self : NetStore) (entry : Chunk) : Except NetStore NetStore :=
  let s1 : NetStore := { self with localStore := self.localStore.Put entry }
  let entry : Chunk := self.localStore.putEntry entry
  match entry.Req with
  | some rs =>
    if rs.C.closed then Except.error s1
    else
      let closed : Chunk := { entry with Req := some { rs with C := { rs.C with closed := true } } }
      Except.ok
        { s1 with
          localStore := s1.localStore.memPut closed
          cloud := s1.cloud ++ [CloudCall.close rs.C.id, CloudCall.Deliver closed] }
  | none => Except.ok { s1 with cloud := s1.cloud ++ [CloudCall.Store entry] }

/-- The method `Get`: retrieve logic common for local and network chunk retrieval requests;
the error it returns is always nil; `go cloud.Retrieve` runs where it is started. -/
def NetStore.Get (self : NetStore) (key : Key) : NetStore × Chunk :=
  match self.localStore.Get key with
  | (ls, some chunk) => ({ self with localStore := ls }, chunk)
  | (ls, none) =>
    let chunk := NewChunk key (newRequestStatus key self.nextC)
    ({ self with
       localStore := ls.memPut chunk
       cloud := self.cloud ++ [CloudCall.Retrieve chunk]
       nextC := self.nextC + 1 }, chunk)

/-- A `NetStore` for examples: empty local store, no call made yet. -/
def testNetStore : NetStore :=
  { hashfunc := bzz.testHash
    localStore := { memStore := fun _ => none, dbStore := fun _ => none }
    cloud := []
    nextC := 0 }

/-- What is observed of a `Put`: the calls logged on the cloud back end, or `none` after a
panic. -/
def observeCloud (r : Except NetStore NetStore) : Option (List CloudCall) :=
  match r with
  | Except.ok s => some s.cloud
  | Except.error _ => none

end storage


namespace swap

/-- An integer within the 64-bit range is its own machine value. -/
theorem wrapInt_of_range (x : Int) (h1 : -2 ^ 63 ≤ x) (h2 : x < 2 ^ 63) : wrapInt x = x := by
  unfold wrapInt
  omega

/-- The machine value of an `int` expression lies within the 64-bit range. -/
theorem wrapInt_range (x : Int) : -2 ^ 63 ≤ wrapInt x ∧ wrapInt x < 2 ^ 63 := by
  unfold wrapInt
  omega

/-- The conversion `int(u)` keeps a `uint` below `2 ^ 63`. -/
theorem intOfUint_low (u : Nat) (h : u < 2 ^ 63) : intOfUint u = (u : Int) := by
  unfold intOfUint
  exact wrapInt_of_range _ (by omega) (by omega)

/-- The conversion `int(u)` takes a `uint` from `2 ^ 63` on to the negative `u - 2 ^ 64`. -/
theorem intOfUint_high (u : Nat) (h1 : 2 ^ 63 ≤ u) (h2 : u < 2 ^ 64) :
    intOfUint u = (u : Int) - 2 ^ 64 := by
  unfold intOfUint wrapInt
  omega

/-- The pay level `-int(u)` is `-u` for a `uint` up to `2 ^ 63`. -/
theorem payLevel_low (u : Nat) (h : u ≤ 2 ^ 63) : wrapInt (-(intOfUint u)) = -(u : Int) := by
  unfold intOfUint wrapInt
  omega

/-- The dropping branch of `Add`, unfolded: with the local profile present and the new
balance at or above `int(local.DropAt)`, `Add` calls `proto.Drop` and nothing else. -/
theorem Swap.Add_eq_drop (s : Swap) (n : Int) (l : Params) (lp : Profile)
    (hl : s.local_ = some l) (hlp : l.Profile = some lp)
    (hdrop : intOfUint lp.DropAt ≤ wrapInt (s.balance + n)) :
    s.Add n = Except.ok
      { s with balance := wrapInt (s.balance + n), calls := s.calls ++ [Call.Drop] } := by
  simp [Swap.Add, Swap.call, hl, hlp, hdrop]

/-- Add in the paying branch, unfolded: with both profiles present, the new balance below
`int(local.DropAt)` and at or below `-int(remote.PayAt)`, `Add` is `send` on the updated
state. -/
theorem Swap.Add_eq_send (s : Swap) (n : Int) (l : Params) (lp r : Profile)
    (hl : s.local_ = some l) (hlp : l.Profile = some lp) (hr : s.remote = some r)
    (hdrop : wrapInt (s.balance + n) < intOfUint lp.DropAt)
    (hpay : wrapInt (s.balance + n) ≤ wrapInt (-(intOfUint r.PayAt))) :
    s.Add n = Swap.send { s with balance := wrapInt (s.balance + n) } := by
  simp [Swap.Add, hl, hlp, hr, not_le.mpr hdrop, hpay]

/-- The quiet branch of `Add`, unfolded: with both profiles present and the new balance
below `int(local.DropAt)` and above `-int(remote.PayAt)`, `Add` only moves the balance. -/
theorem Swap.Add_eq_quiet (s : Swap) (n : Int) (l : Params) (lp r : Profile)
    (hl : s.local_ = some l) (hlp : l.Profile = some lp) (hr : s.remote = some r)
    (hdrop : wrapInt (s.balance + n) < intOfUint lp.DropAt)
    (hpay : wrapInt (-(intOfUint r.PayAt)) < wrapInt (s.balance + n)) :
    s.Add n = Except.ok { s with balance := wrapInt (s.balance + n) } := by
  simp only [Swap.Add, hl, hlp, hr, ge_iff_le, if_neg (not_le.mpr hdrop),
    if_neg (not_le.mpr hpay)]

/-- Within the range of `int` (thresholds up to `2 ^ 63`, the new balance
`b = balance + n` above `-2 ^ 63`), C6 holds of the code: when `b` is below the local drop
threshold, at or below minus the remote pay threshold, negative, `local.BuyAt` is not nil
and `out.Issue` succeeds on `(-b) * remote.SellAt`, `Add n` calls `out.Issue` once with that
amount, then `proto.Pay` once with `-b` units and the promise issued, and leaves the balance
at 0. -/
theorem Swap.Add_pays_inrange (s : Swap) (n : Int) (l : Params) (lp r : Profile) (sell : Int)
    (p : Promise)
    (hl : s.local_ = some l) (hlp : l.Profile = some lp) (hr : s.remote = some r)
    (hsell : r.SellAt = some sell) (hbuy : lp.BuyAt ≠ none)
    (hD : lp.DropAt < 2 ^ 63) (hP : r.PayAt ≤ 2 ^ 63) (hlow : -2 ^ 63 < s.balance + n)
    (hdrop : s.balance + n < (lp.DropAt : Int)) (hpay : s.balance + n ≤ -(r.PayAt : Int))
    (hneg : s.balance + n < 0)
    (hissue : s.out.Issue s.calls (-(s.balance + n) * sell) = some p) :
    s.Add n = Except.ok
      { s with
        balance := 0
        calls := s.calls ++
          [Call.Issue (-(s.balance + n) * sell), Call.Pay (-(s.balance + n)) p] } := by
  have hb : wrapInt (s.balance + n) = s.balance + n :=
    wrapInt_of_range _ (le_of_lt hlow) (by omega)
  have hnb : wrapInt (-(s.balance + n)) = -(s.balance + n) :=
    wrapInt_of_range _ (by omega) (by omega)
  rw [Swap.Add_eq_send s n l lp r hl hlp hr (by rw [hb, intOfUint_low _ hD]; exact hdrop)
    (by rw [hb, payLevel_low _ hP]; exact hpay), hb]
  have hc : lp.BuyAt ≠ none ∧ s.balance + n < 0 := ⟨hbuy, hneg⟩
  simp only [Swap.send, Swap.call, hl, hlp, hr, hsell, hnb, hissue, if_pos hc,
    List.append_assoc, List.cons_append, List.nil_append]

/-- C6 fails on the code for a drop threshold from `2 ^ 63` on: `int(local.DropAt)` is then
the negative `DropAt - 2 ^ 64`, and an `Add n` whose new balance `b = balance + n` is
negative and at or above that value calls `proto.Drop`, although `b` is below
`local.DropAt`: whatever the pay threshold, `local.BuyAt` and the answer of `out.Issue`,
no `out.Issue` and no `proto.Pay` is made and the balance is left at `b`, not at 0. -/
theorem Swap.Add_pays_wraps (s : Swap) (n : Int) (l : Params) (lp : Profile)
    (hl : s.local_ = some l) (hlp : l.Profile = some lp)
    (hD1 : 2 ^ 63 ≤ lp.DropAt) (hD2 : lp.DropAt < 2 ^ 64)
    (hb : (lp.DropAt : Int) - 2 ^ 64 ≤ s.balance + n) (hneg : s.balance + n < 0) :
    s.balance + n < (lp.DropAt : Int) ∧
    ∃ s', s.Add n = Except.ok s' ∧ s'.calls = s.calls ++ [Call.Drop] ∧
      s'.balance = s.balance + n ∧ s'.balance ≠ 0 := by
  have hw : wrapInt (s.balance + n) = s.balance + n :=
    wrapInt_of_range _ (by omega) (by omega)
  refine ⟨by omega, _, Swap.Add_eq_drop s n l lp hl hlp
    (by rw [hw, intOfUint_high _ hD1 hD2]; exact hb), rfl, hw, ?_⟩
  show wrapInt (s.balance + n) ≠ 0
  rw [hw]
  omega

/-- The failing input of C6: the S7 scenario (pay threshold 10, sale prices 7, balance -10,
`out.Issue` succeeding) with the local drop threshold at `2 ^ 63`: the new balance -10 of
`Add 0` is below the drop threshold, at the pay threshold and negative, and `Add 0` calls
`proto.Drop` and leaves the balance at -10. -/
theorem Swap.Add_pays_wraps_witness :
    ((-10 : Int) + 0 < ((2 ^ 63 : Nat) : Int) ∧ (-10 : Int) + 0 ≤ -((10 : Nat) : Int) ∧
      (testSwap (-10) { testProfile with DropAt := 2 ^ 63 } testProfile).out.Issue [] 70 =
        some 70) ∧
    ∃ s', (testSwap (-10) { testProfile with DropAt := 2 ^ 63 } testProfile).Add 0 =
        Except.ok s' ∧
      s'.calls = [] ++ [Call.Drop] ∧ s'.balance = -10 + 0 ∧ s'.balance ≠ 0 :=
  ⟨⟨by decide, by decide, rfl⟩,
   (Swap.Add_pays_wraps (testSwap (-10) { testProfile with DropAt := 2 ^ 63 } testProfile) 0
    ⟨some { testProfile with DropAt := 2 ^ 63 }, none⟩ { testProfile with DropAt := 2 ^ 63 }
    rfl rfl (by decide) (by decide) (by decide) (by decide)).2⟩

/-- The calls that `send` adds are an `Issue`, possibly followed by a `Pay`, or none; it
never calls `Drop`, and it keeps the balance unless it pays. -/
theorem Swap.send_calls (s s' : Swap) (h : s.send = Except.ok s' ∨ s.send = Except.error s') :
    ∃ cs, s'.calls = s.calls ++ cs ∧ Call.Drop ∉ cs ∧
      ((∀ u p, Call.Pay u p ∉ cs) → s'.balance = s.balance) := by
  unfold Swap.send at h
  split at h
  · rcases h with h | h <;> cases h
    exact ⟨[], by simp⟩
  · split at h
    · rcases h with h | h <;> cases h
      exact ⟨[], by simp⟩
    · split at h
      · split at h
        · rcases h with h | h <;> cases h
          exact ⟨[], by simp⟩
        · split at h
          · rcases h with h | h <;> cases h
            exact ⟨[], by simp⟩
          · simp only at h
            split at h
            · rcases h with h | h <;> cases h
              exact ⟨_, rfl, by simp, fun _ => rfl⟩
            · rename_i promise _
              rcases h with h | h <;> cases h
              refine ⟨_, List.append_assoc _ _ _, by simp, ?_⟩
              intro hno
              exact absurd (by simp) (hno (wrapInt (-s.balance)) promise)
      · rcases h with h | h <;> cases h
        exact ⟨[], by simp⟩

/-- Within the range of `int` (drop threshold below `2 ^ 63`, the new balance
`b = balance + n` an `int`), C7 holds of the code: `Add n` sets the balance to `b`; at or
above `local.DropAt` it calls `proto.Drop` exactly once, calls neither `out.Issue` nor
`proto.Pay`, and leaves the balance at `b`; below `local.DropAt` it does not call
`proto.Drop`, and the balance stays at `b` unless a payment is made. -/
theorem Swap.Add_drop_inrange (s : Swap) (n : Int) (l : Params) (lp : Profile)
    (hl : s.local_ = some l) (hlp : l.Profile = some lp) (hD : lp.DropAt < 2 ^ 63)
    (hlow : -2 ^ 63 ≤ s.balance + n) (hup : s.balance + n < 2 ^ 63) :
    ((lp.DropAt : Int) ≤ s.balance + n →
      s.Add n = Except.ok
        { s with balance := s.balance + n, calls := s.calls ++ [Call.Drop] }) ∧
    (s.balance + n < (lp.DropAt : Int) →
      ∀ s', s.Add n = Except.ok s' ∨ s.Add n = Except.error s' →
        ∃ cs, s'.calls = s.calls ++ cs ∧ Call.Drop ∉ cs ∧
          ((∀ u p, Call.Pay u p ∉ cs) → s'.balance = s.balance + n)) := by
  have hb : wrapInt (s.balance + n) = s.balance + n := wrapInt_of_range _ hlow hup
  constructor
  · intro h
    rw [Swap.Add_eq_drop s n l lp hl hlp (by rw [hb, intOfUint_low _ hD]; exact h), hb]
  · intro h s' hs
    have hd : wrapInt (s.balance + n) < intOfUint lp.DropAt := by
      rw [hb, intOfUint_low _ hD]
      exact h
    rcases Option.eq_none_or_eq_some s.remote with hr | ⟨r, hr⟩
    · simp only [Swap.Add, hl, hlp, hr, ge_iff_le, if_neg (not_le.mpr hd)] at hs
      rcases hs with hs | hs <;> cases hs
      exact ⟨[], by simp, by simp, fun _ => hb⟩
    · by_cases hp : wrapInt (s.balance + n) ≤ wrapInt (-(intOfUint r.PayAt))
      · rw [Swap.Add_eq_send s n l lp r hl hlp hr hd hp] at hs
        obtain ⟨cs, h1, h2, h3⟩ := Swap.send_calls _ s' hs
        exact ⟨cs, h1, h2, fun hno => (h3 hno).trans hb⟩
      · rw [Swap.Add_eq_quiet s n l lp r hl hlp hr hd (not_le.mp hp)] at hs
        rcases hs with hs | hs <;> cases hs
        exact ⟨[], by simp, by simp, fun _ => hb⟩

/-- C7 fails on the code for a drop threshold from `2 ^ 63` on: `int(local.DropAt)` is then
the negative `DropAt - 2 ^ 64`, and every `Add n` whose new balance `b = balance + n` is at
or above that value calls `proto.Drop`, although `b` is below `local.DropAt`. -/
theorem Swap.Add_drop_wraps (s : Swap) (n : Int) (l : Params) (lp : Profile)
    (hl : s.local_ = some l) (hlp : l.Profile = some lp)
    (hD1 : 2 ^ 63 ≤ lp.DropAt) (hD2 : lp.DropAt < 2 ^ 64)
    (hb : (lp.DropAt : Int) - 2 ^ 64 ≤ s.balance + n) (hup : s.balance + n < 2 ^ 63) :
    s.balance + n < (lp.DropAt : Int) ∧
    s.Add n = Except.ok
      { s with balance := s.balance + n, calls := s.calls ++ [Call.Drop] } := by
  have hw : wrapInt (s.balance + n) = s.balance + n :=
    wrapInt_of_range _ (by omega) hup
  refine ⟨by omega, ?_⟩
  rw [Swap.Add_eq_drop s n l lp hl hlp (by rw [hw, intOfUint_high _ hD1 hD2]; exact hb), hw]

/-- The failing input of C7: drop threshold `2 ^ 63`, balance 3; `Add 1` reaches balance 4,
below the threshold, and calls `proto.Drop`. -/
theorem Swap.Add_drop_wraps_witness :
    (3 : Int) + 1 < ((2 ^ 63 : Nat) : Int) ∧
    (testSwap 3 { testProfile with DropAt := 2 ^ 63 } testProfile).Add 1 = Except.ok
      { testSwap 3 { testProfile with DropAt := 2 ^ 63 } testProfile with
        balance := 3 + 1, calls := [] ++ [Call.Drop] } :=
  Swap.Add_drop_wraps (testSwap 3 { testProfile with DropAt := 2 ^ 63 } testProfile) 1
    ⟨some { testProfile with DropAt := 2 ^ 63 }, none⟩ { testProfile with DropAt := 2 ^ 63 }
    rfl rfl (by decide) (by decide) (by decide) (by decide)

/-- C8 as stated fails: with drop threshold 1, `Add 1` from balance 0 calls `proto.Drop`
and leaves the balance at 1; the debit `Add (-1)` that follows returns normally and moves
the balance to 0. -/
theorem Swap.Add_after_drop_counterexample :
    observe ((testSwap 0 { testProfile with DropAt := 1 } testProfile).AddAll [1]) =
        Except.ok (1, [Call.Drop]) ∧
    observe ((testSwap 0 { testProfile with DropAt := 1 } testProfile).AddAll [1, -1]) =
        Except.ok (0, [Call.Drop]) ∧
    (0 : Int) ≠ 1 := by
  refine ⟨by rfl, by rfl, by decide⟩

/-- With both profiles present and the remote sale price set, `send` returns normally. -/
theorem Swap.send_returns (s : Swap) (l : Params) (lp r : Profile) (sell : Int)
    (hl : s.local_ = some l) (hlp : l.Profile = some lp) (hr : s.remote = some r)
    (hsell : r.SellAt = some sell) : ∃ s', s.send = Except.ok s' := by
  by_cases hc : lp.BuyAt ≠ none ∧ s.balance < 0
  · cases hi : s.out.Issue s.calls (wrapInt (-s.balance) * sell) with
    | none =>
      simp only [Swap.send, hl, hlp, hr, hsell, hi, if_pos hc]
      exact ⟨_, rfl⟩
    | some p =>
      simp only [Swap.send, hl, hlp, hr, hsell, hi, if_pos hc]
      exact ⟨_, rfl⟩
  · simp only [Swap.send, hl, hlp, if_neg hc]
    exact ⟨_, rfl⟩

/-- With both profiles present and the remote sale price set, `Add` returns normally. -/
theorem Swap.Add_returns (s : Swap) (n : Int) (l : Params) (lp r : Profile) (sell : Int)
    (hl : s.local_ = some l) (hlp : l.Profile = some lp) (hr : s.remote = some r)
    (hsell : r.SellAt = some sell) : ∃ s', s.Add n = Except.ok s' := by
  by_cases hd : intOfUint lp.DropAt ≤ wrapInt (s.balance + n)
  · exact ⟨_, Swap.Add_eq_drop s n l lp hl hlp hd⟩
  · by_cases hp : wrapInt (s.balance + n) ≤ wrapInt (-(intOfUint r.PayAt))
    · rw [Swap.Add_eq_send s n l lp r hl hlp hr (not_le.mp hd) hp]
      exact Swap.send_returns _ l lp r sell hl hlp hr hsell
    · exact ⟨_, Swap.Add_eq_quiet s n l lp r hl hlp hr (not_le.mp hd) (not_le.mp hp)⟩

/-- C8 amended: a debit `Add n`, `n < 0`, made after some `Add` has called `proto.Drop` is
not refused: `Add` has no failure result.  With both profiles set and the remote sale price
not nil, `Add` returns normally and the `Drop` stays on record; and with the balance an
`int` and `balance + n` above the least `int`, the balance ends at `balance + n`, below the
balance before, or at 0 when this `Add` issues and sends a payment for `-(balance + n)`
units. -/
theorem Swap.Add_after_drop (s : Swap) (n : Int) (l : Params) (lp r : Profile) (sell : Int)
    (hl : s.local_ = some l) (hlp : l.Profile = some lp) (hr : s.remote = some r)
    (hsell : r.SellAt = some sell) (hdropped : Call.Drop ∈ s.calls) (hn : n < 0) :
    ∃ s', s.Add n = Except.ok s' ∧ Call.Drop ∈ s'.calls ∧
      (-2 ^ 63 < s.balance + n → s.balance < 2 ^ 63 →
        ((s'.balance = s.balance + n ∧ s'.balance < s.balance) ∨
          (s'.balance = 0 ∧ ∃ p, s'.calls = s.calls ++
            [Call.Issue (-(s.balance + n) * sell), Call.Pay (-(s.balance + n)) p]))) := by
  by_cases hd : intOfUint lp.DropAt ≤ wrapInt (s.balance + n)
  · refine ⟨_, Swap.Add_eq_drop s n l lp hl hlp hd, List.mem_append_left _ hdropped, ?_⟩
    intro hlow hup
    have hb : wrapInt (s.balance + n) = s.balance + n :=
      wrapInt_of_range _ (le_of_lt hlow) (by omega)
    refine Or.inl ⟨hb, ?_⟩
    show wrapInt (s.balance + n) < s.balance
    rw [hb]
    omega
  · by_cases hp : wrapInt (s.balance + n) ≤ wrapInt (-(intOfUint r.PayAt))
    · rw [Swap.Add_eq_send s n l lp r hl hlp hr (not_le.mp hd) hp]
      by_cases hc : lp.BuyAt ≠ none ∧ wrapInt (s.balance + n) < 0
      · cases hi : s.out.Issue s.calls (wrapInt (-wrapInt (s.balance + n)) * sell) with
        | none =>
          simp only [Swap.send, hl, hlp, hr, hsell, hi, if_pos hc]
          refine ⟨_, rfl, ?_, ?_⟩
          · simp only [Swap.call]
            exact List.mem_append_left _ hdropped
          · intro hlow hup
            have hb : wrapInt (s.balance + n) = s.balance + n :=
              wrapInt_of_range _ (le_of_lt hlow) (by omega)
            refine Or.inl ⟨hb, ?_⟩
            show wrapInt (s.balance + n) < s.balance
            rw [hb]
            omega
        | some p =>
          simp only [Swap.send, hl, hlp, hr, hsell, hi, if_pos hc]
          refine ⟨_, rfl, ?_, ?_⟩
          · simp only [Swap.call, List.append_assoc]
            exact List.mem_append_left _ hdropped
          · intro hlow hup
            have hb : wrapInt (s.balance + n) = s.balance + n :=
              wrapInt_of_range _ (le_of_lt hlow) (by omega)
            have hnb : wrapInt (-(s.balance + n)) = -(s.balance + n) :=
              wrapInt_of_range _ (by omega) (by omega)
            refine Or.inr ⟨rfl, p, ?_⟩
            simp only [Swap.call, hb, hnb, List.append_assoc, List.cons_append,
              List.nil_append]
      · simp only [Swap.send, hl, hlp, if_neg hc]
        refine ⟨_, rfl, hdropped, ?_⟩
        intro hlow hup
        have hb : wrapInt (s.balance + n) = s.balance + n :=
          wrapInt_of_range _ (le_of_lt hlow) (by omega)
        refine Or.inl ⟨hb, ?_⟩
        show wrapInt (s.balance + n) < s.balance
        rw [hb]
        omega
    · refine ⟨_, Swap.Add_eq_quiet s n l lp r hl hlp hr (not_le.mp hd) (not_le.mp hp),
        hdropped, ?_⟩
      intro hlow hup
      have hb : wrapInt (s.balance + n) = s.balance + n :=
        wrapInt_of_range _ (le_of_lt hlow) (by omega)
      refine Or.inl ⟨hb, ?_⟩
      show wrapInt (s.balance + n) < s.balance
      rw [hb]
      omega

/-- An instance of the amended C8: the swap of the counterexample after its drop, debited by
one unit. -/
theorem Swap.Add_after_drop_witness :
    Call.Drop ∈ [Call.Drop] ∧
    ∃ s', Swap.Add { testSwap 1 { testProfile with DropAt := 1 } testProfile with
                     calls := [Call.Drop] } (-1) = Except.ok s' ∧
      Call.Drop ∈ s'.calls ∧
      (-2 ^ 63 < (1 : Int) + -1 → (1 : Int) < 2 ^ 63 →
        ((s'.balance = 1 + -1 ∧ s'.balance < 1) ∨
          (s'.balance = 0 ∧ ∃ p, s'.calls = [Call.Drop] ++
            [Call.Issue (-(1 + -1) * 7), Call.Pay (-(1 + -1)) p]))) :=
  ⟨by decide,
   Swap.Add_after_drop
    { testSwap 1 { testProfile with DropAt := 1 } testProfile with calls := [Call.Drop] } (-1)
    ⟨some { testProfile with DropAt := 1 }, none⟩ { testProfile with DropAt := 1 } testProfile 7
    rfl rfl rfl rfl (by decide) (by decide)⟩

/-- A credit of one unit that keeps a non-negative balance below a drop threshold under
`2 ^ 63` makes no call, whatever the pay threshold. -/
theorem Swap.Add_one_quiet (s : Swap) (l : Params) (lp r : Profile)
    (hl : s.local_ = some l) (hlp : l.Profile = some lp) (hr : s.remote = some r)
    (hD : lp.DropAt < 2 ^ 63) (h0 : 0 ≤ s.balance) (hd : s.balance + 1 < (lp.DropAt : Int)) :
    s.Add 1 = Except.ok { s with balance := s.balance + 1 } := by
  have hb : wrapInt (s.balance + 1) = s.balance + 1 :=
    wrapInt_of_range _ (by omega) (by omega)
  have hd' : wrapInt (s.balance + 1) < intOfUint lp.DropAt := by
    rw [hb, intOfUint_low _ hD]
    exact hd
  by_cases hp : wrapInt (s.balance + 1) ≤ wrapInt (-(intOfUint r.PayAt))
  · rw [Swap.Add_eq_send s 1 l lp r hl hlp hr hd' hp, hb]
    have hc : ¬ (lp.BuyAt ≠ none ∧ s.balance + 1 < 0) := by
      rintro ⟨_, h⟩
      omega
    simp only [Swap.send, hl, hlp, if_neg hc]
  · rw [Swap.Add_eq_quiet s 1 l lp r hl hlp hr hd' (not_le.mp hp), hb]

/-- A run of `k` credits of one unit that stays below a drop threshold under `2 ^ 63` only
moves the balance. -/
theorem Swap.AddAll_quiet (l : Params) (lp r : Profile) (hD : lp.DropAt < 2 ^ 63) (k : Nat) :
    ∀ s : Swap, s.local_ = some l → l.Profile = some lp → s.remote = some r →
      0 ≤ s.balance → s.balance + k < (lp.DropAt : Int) →
      s.AddAll (List.replicate k 1) = Except.ok { s with balance := s.balance + k } := by
  induction k with
  | zero =>
    intro s _ _ _ _ _
    simp [Swap.AddAll]
  | succ k ih =>
    intro s hl hlp hr h0 hd
    have hd1 : s.balance + 1 < (lp.DropAt : Int) := by push_cast at hd; omega
    rw [List.replicate_succ, Swap.AddAll, Swap.Add_one_quiet s l lp r hl hlp hr hD h0 hd1]
    simp only
    rw [ih { s with balance := s.balance + 1 } hl hlp hr (by simp; omega)
      (by push_cast at hd; simp; omega)]
    simp only [Nat.cast_add, Nat.cast_one]
    congr 2
    ring

/-- A run of `Add` calls over a concatenation is the run over the first part followed by
the run over the second. -/
theorem Swap.AddAll_append (xs ys : List Int) :
    ∀ s : Swap, s.AddAll (xs ++ ys) =
      match s.AddAll xs with
      | Except.error e => Except.error e
      | Except.ok s1 => s1.AddAll ys := by
  induction xs with
  | nil => intro s; simp [Swap.AddAll]
  | cons x xs ih =>
    intro s
    simp only [List.cons_append, Swap.AddAll]
    cases s.Add x with
    | error e => rfl
    | ok s1 => exact ih s1

/-- For a drop threshold `d` below `2 ^ 63`, C9 holds of the code: from balance 0, with the
remote profile set and `d ≥ 1`, any run of fewer than `d` calls `Add 1` only moves the
balance and makes no call on `proto` or `out`; the run of `d` calls ends with exactly one
call, the `proto.Drop` of the `d`-th `Add`. -/
theorem Swap.AddAll_drop_once_inrange (s : Swap) (d : Nat) (l : Params) (lp r : Profile)
    (hl : s.local_ = some l) (hlp : l.Profile = some lp) (hr : s.remote = some r)
    (hb : s.balance = 0) (hd : lp.DropAt = d) (h1 : 1 ≤ d) (hD : d < 2 ^ 63) :
    (∀ k, k < d → s.AddAll (List.replicate k 1) = Except.ok { s with balance := k }) ∧
    s.AddAll (List.replicate d 1) =
      Except.ok { s with balance := d, calls := s.calls ++ [Call.Drop] } := by
  have hD' : lp.DropAt < 2 ^ 63 := by rw [hd]; exact hD
  have quiet : ∀ k, k < d →
      s.AddAll (List.replicate k 1) = Except.ok { s with balance := k } := by
    intro k hk
    rw [Swap.AddAll_quiet l lp r hD' k s hl hlp hr (by omega) (by rw [hb, hd]; simp; omega)]
    simp [hb]
  refine ⟨quiet, ?_⟩
  obtain ⟨k, rfl⟩ : ∃ k, d = k + 1 := ⟨d - 1, by omega⟩
  rw [List.replicate_succ', Swap.AddAll_append, quiet k (by omega)]
  simp only [Swap.AddAll]
  rw [(Swap.Add_drop_inrange { s with balance := k } 1 l lp hl hlp hD'
    (by simp; omega) (by simp; omega)).1 (by rw [hd]; simp)]
  simp

/-- From a non-negative balance, with a drop threshold from `2 ^ 63` on, every call of a
run of `k` calls `Add 1` calls `proto.Drop`. -/
theorem Swap.AddAll_all_drop (l : Params) (lp : Profile) (hlp : l.Profile = some lp)
    (hD1 : 2 ^ 63 ≤ lp.DropAt) (hD2 : lp.DropAt < 2 ^ 64) (k : Nat) :
    ∀ s : Swap, s.local_ = some l → 0 ≤ s.balance → s.balance + k < 2 ^ 63 →
      s.AddAll (List.replicate k 1) =
        Except.ok { s with balance := s.balance + k
                           calls := s.calls ++ List.replicate k Call.Drop } := by
  induction k with
  | zero =>
    intro s _ _ _
    simp [Swap.AddAll]
  | succ k ih =>
    intro s hl h0 hup
    have hb : wrapInt (s.balance + 1) = s.balance + 1 :=
      wrapInt_of_range _ (by omega) (by push_cast at hup; omega)
    rw [List.replicate_succ, Swap.AddAll, Swap.Add_eq_drop s 1 l lp hl hlp
      (by rw [hb, intOfUint_high _ hD1 hD2]; omega), hb]
    simp only
    rw [ih { s with balance := s.balance + 1, calls := s.calls ++ [Call.Drop] } hl
      (by simp; omega) (by push_cast at hup; simp; omega)]
    simp only [Nat.cast_add, Nat.cast_one, List.append_assoc, List.singleton_append,
      List.replicate_succ]
    congr 2
    ring

/-- C9 fails on the code for a drop threshold `d` from `2 ^ 63` on: from balance 0 every
call of a run of `k` calls `Add 1` calls `proto.Drop`, the first one included, although the
balance stays below `d` all along. -/
theorem Swap.AddAll_drop_wraps (s : Swap) (d : Nat) (l : Params) (lp : Profile)
    (hl : s.local_ = some l) (hlp : l.Profile = some lp)
    (hb : s.balance = 0) (hd : lp.DropAt = d) (hd1 : 2 ^ 63 ≤ d) (hd2 : d < 2 ^ 64) :
    1 ≤ d ∧
    ∀ k, k < 2 ^ 63 → k < d ∧
      s.AddAll (List.replicate k 1) =
        Except.ok { s with balance := k, calls := s.calls ++ List.replicate k Call.Drop } := by
  refine ⟨by omega, ?_⟩
  intro k hk
  refine ⟨by omega, ?_⟩
  rw [Swap.AddAll_all_drop l lp hlp (by rw [hd]; exact hd1) (by rw [hd]; exact hd2) k s hl
    (by omega) (by rw [hb]; push_cast; omega)]
  simp [hb]

/-- The failing input of C9: drop threshold `2 ^ 63`, balance 0; a run of three calls
`Add 1` calls `proto.Drop` three times. -/
theorem Swap.AddAll_drop_wraps_witness :
    3 < 2 ^ 63 ∧
    (testSwap 0 { testProfile with DropAt := 2 ^ 63 } testProfile).AddAll (List.replicate 3 1) =
      Except.ok { testSwap 0 { testProfile with DropAt := 2 ^ 63 } testProfile with
                  balance := (3 : Nat), calls := [] ++ List.replicate 3 Call.Drop } :=
  ⟨by decide,
   ((Swap.AddAll_drop_wraps (testSwap 0 { testProfile with DropAt := 2 ^ 63 } testProfile)
    (2 ^ 63) ⟨some { testProfile with DropAt := 2 ^ 63 }, none⟩
    { testProfile with DropAt := 2 ^ 63 } rfl rfl rfl rfl (by decide) (by decide)).2 3
    (by decide)).2⟩

/-- C10 (Receive errors): with the local sale price set, `Receive units promise` returns an
error exactly when `units ≤ 0`, or `in.Receive` fails, or the amount `in.Receive` verified
differs from `units * local.SellAt`.  When `units ≤ 0` the state is returned untouched, so
`in.Receive` is not consulted.  Whenever an error is returned the balance is unchanged and
the only call possibly made is the one on `in.Receive`: no `proto.Drop`, `proto.Pay` or
`out.Issue`. -/
theorem Swap.Receive_error (s : Swap) (units : Int) (promise : Promise) (l : Params)
    (lp : Profile) (sell : Int)
    (hl : s.local_ = some l) (hlp : l.Profile = some lp) (hsell : lp.SellAt = some sell) :
    ((∃ s' e, s.Receive units promise = Except.ok (s', some e)) ↔
      (units ≤ 0 ∨ s.in_.Receive s.calls promise = none ∨
        ∃ amount, s.in_.Receive s.calls promise = some amount ∧ amount ≠ units * sell)) ∧
    (units ≤ 0 → s.Receive units promise = Except.ok (s, some ReceiveError.invalidUnits)) ∧
    (∀ s' e, s.Receive units promise = Except.ok (s', some e) →
      s'.balance = s.balance ∧
        (s'.calls = s.calls ∨ s'.calls = s.calls ++ [Call.Receive promise])) := by
  by_cases hu : units ≤ 0
  · simp [Swap.Receive, hu]
  · refine ⟨?_, fun h => absurd h hu, ?_⟩
    · cases hr : s.in_.Receive s.calls promise with
      | none => simp [Swap.Receive, hu, hl, hlp, hsell, hr]
      | some amount =>
        by_cases ha : units * sell = amount
        · have ha' : ¬ amount ≠ units * sell := fun h => h ha.symm
          simp only [Swap.Receive, hl, hlp, hsell, hr, if_neg hu, ne_eq, ha, not_true_eq_false,
            if_false]
          cases (s.call (Call.Receive promise)).Add (-units) with
          | error e => simp [hu, ← ha]
          | ok s2 => simp [hu, ← ha]
        · have ha' : amount ≠ units * sell := fun h => ha h.symm
          simp [Swap.Receive, hu, hl, hlp, hsell, hr, ha, ha']
    · intro s' e h
      simp only [Swap.Receive, hl, hlp, hsell, if_neg hu] at h
      split at h
      · cases h
        exact ⟨rfl, Or.inr rfl⟩
      · split at h
        · cases h
          exact ⟨rfl, Or.inr rfl⟩
        · split at h <;> cases h

/-- Instances of C10 on the example swap (sale price 7): zero units are rejected without
consulting `in.Receive`; a promise verified to 8 for one unit is rejected with the balance
unchanged. -/
theorem Swap.Receive_error_witness :
    (testSwap 3 testProfile testProfile).Receive 0 70 =
      Except.ok (testSwap 3 testProfile testProfile, some ReceiveError.invalidUnits) ∧
    ((∃ s' e, (testSwap 3 testProfile testProfile).Receive 1 8 = Except.ok (s', some e)) ↔
      ((1 : Int) ≤ 0 ∨ (testSwap 3 testProfile testProfile).in_.Receive [] 8 = none ∨
        ∃ amount, (testSwap 3 testProfile testProfile).in_.Receive [] 8 = some amount ∧
          amount ≠ 1 * 7)) :=
  ⟨(Swap.Receive_error (testSwap 3 testProfile testProfile) 0 70 ⟨some testProfile, none⟩
      testProfile 7 rfl rfl rfl).2.1 (by decide),
   (Swap.Receive_error (testSwap 3 testProfile testProfile) 1 8 ⟨some testProfile, none⟩
      testProfile 7 rfl rfl rfl).1⟩

end swap

namespace bzz

/-- Over a key memStore does not hold, `localStore.Put` leaves the chunk as handed in. -/
theorem localStore.putEntry_none (ls : localStore) (chunk : Chunk)
    (h : ls.memStore chunk.Key = none) : ls.putEntry chunk = chunk := by
  simp [localStore.putEntry, h]

/-- Over a memStore record with data, `localStore.Put` leaves the chunk as handed in. -/
theorem localStore.putEntry_data (ls : localStore) (chunk e : Chunk)
    (h : ls.memStore chunk.Key = some e) (hd : e.SData ≠ none) : ls.putEntry chunk = chunk := by
  simp [localStore.putEntry, h, hd]

/-- Over a memStore placeholder, `localStore.Put` leaves the chunk with the request status
of the placeholder. -/
theorem localStore.putEntry_placeholder (ls : localStore) (chunk e : Chunk)
    (h : ls.memStore chunk.Key = some e) (hd : e.SData = none) :
    ls.putEntry chunk = { chunk with req := e.req } := by
  simp [localStore.putEntry, h, hd]

/-- The chunk as `localStore.Put` leaves it has the key, data, size and source handed in. -/
theorem localStore.putEntry_fields (ls : localStore) (chunk : Chunk) :
    (ls.putEntry chunk).Key = chunk.Key ∧ (ls.putEntry chunk).SData = chunk.SData ∧
      (ls.putEntry chunk).Size = chunk.Size ∧ (ls.putEntry chunk).source = chunk.source := by
  unfold localStore.putEntry
  split
  · split <;> exact ⟨rfl, rfl, rfl, rfl⟩
  · exact ⟨rfl, rfl, rfl, rfl⟩

/-- The inner delivery loop serves the first `counter` live requesters, in order. -/
theorem deliverTo_eq (chunk : Chunk) (id : Nat) (now : Nat) (l : List retrieveRequestMsgData) :
    ∀ counter : Int, 1 ≤ counter →
      deliverTo (deliverMsg chunk id) now counter l =
        ((l.filter (alive now)).take counter.toNat).map (deliveryTo chunk id) := by
  induction l with
  | nil => intro counter _; simp [deliverTo]
  | cons req rest ih =>
    intro counter hc
    obtain ⟨k, hk⟩ : ∃ k : Nat, counter.toNat = k + 1 := ⟨counter.toNat - 1, by omega⟩
    by_cases ha : alive now req = true
    · by_cases h1 : counter - 1 ≤ 0
      · have hk0 : k = 0 := by omega
        simp [deliverTo, ha, h1, hk, hk0, deliveryTo]
      · have hk1 : (counter - 1).toNat = k := by omega
        simp [deliverTo, ha, h1, hk, deliveryTo, ih (counter - 1) (by omega), hk1]
    · simp [deliverTo, ha, ih counter hc]

/-- The deliveries made under one id carry that id only. -/
theorem filter_deliveryTo (chunk : Chunk) (id id' : Nat) (l : List retrieveRequestMsgData) :
    (l.map (deliveryTo chunk id')).filter (isDeliveryFor id) =
      if id' = id then l.map (deliveryTo chunk id') else [] := by
  by_cases h : id' = id
  · simp [h, deliveryTo, isDeliveryFor, deliverMsg]
  · simp [h, deliveryTo, isDeliveryFor, deliverMsg]

/-- An id absent from the request table receives no delivery. -/
theorem filter_deliverAll_absent (chunk : Chunk) (now id : Nat) :
    ∀ table : List (Nat × List retrieveRequestMsgData), id ∉ table.map Prod.fst →
      (deliverAll chunk now table).filter (isDeliveryFor id) = [] := by
  intro table
  induction table with
  | nil => intro _; simp [deliverAll]
  | cons e rest ih =>
    intro h
    obtain ⟨id', l⟩ := e
    simp only [List.map_cons, List.mem_cons, not_or] at h
    have hne : ¬ id' = id := fun hh => h.1 hh.symm
    rw [deliverAll, List.filter_append, ih h.2, deliverTo_eq chunk id' now l requesterCount
      (by decide), filter_deliveryTo, if_neg hne]
    rfl

/-- Under every id at most three deliveries are made, over the whole table. -/
theorem filter_deliverAll_le (chunk : Chunk) (now id : Nat) :
    ∀ table : List (Nat × List retrieveRequestMsgData), (table.map Prod.fst).Nodup →
      ((deliverAll chunk now table).filter (isDeliveryFor id)).length ≤ 3 := by
  intro table
  induction table with
  | nil => intro _; simp [deliverAll]
  | cons e rest ih =>
    intro h
    obtain ⟨id', l⟩ := e
    simp only [List.map_cons, List.nodup_cons] at h
    rw [deliverAll, List.filter_append, deliverTo_eq chunk id' now l requesterCount (by decide),
      filter_deliveryTo, List.length_append]
    by_cases hid : id' = id
    · subst hid
      rw [if_pos rfl, filter_deliverAll_absent chunk now id' rest h.1]
      simp only [List.length_map, List.length_take, List.length_nil, add_zero]
      exact le_trans (min_le_left _ _) (by decide)
    · rw [if_neg hid]
      simpa using ih h.2

/-- C3 (delivery cap): for a chunk with a request table (a map: its ids are distinct), one run
of `deliver` returns, and among the events it adds there are, for each request id, at most
`requesterCount = 3` Deliver enqueues carrying that id. -/
theorem netStore.deliver_cap (self : netStore) (chunk : Chunk) (now : Nat) (rs : requestStatus)
    (hreq : chunk.req = some rs) (hmap : (rs.requesters.map Prod.fst).Nodup) :
    ∃ es, self.deliver chunk now = Except.ok (self.emit es) ∧
      ∀ id, ((es.filter (isDeliveryFor id)).length : Int) ≤ requesterCount := by
  refine ⟨deliverAll chunk now rs.requesters, by simp [netStore.deliver, hreq], ?_⟩
  intro id
  have h := filter_deliverAll_le chunk now id rs.requesters hmap
  simp only [requesterCount]
  exact_mod_cast h

/-- An instance of C3: a table with five requesters under id 1 and one under id 2. -/
theorem netStore.deliver_cap_witness :
    ∃ es, testStore.deliver
        (testPlaceholder
          [(1, [testRequest 1 1 none, testRequest 2 1 none, testRequest 3 1 (some 9),
                testRequest 4 1 none, testRequest 5 1 none]),
           (2, [testRequest 6 2 none])]) 5 = Except.ok (testStore.emit es) ∧
      ∀ id, ((es.filter (isDeliveryFor id)).length : Int) ≤ requesterCount :=
  netStore.deliver_cap testStore _ 5 _ rfl (by decide)

/-- A requester is live at `now` exactly when its timeout is nil or strictly after `now`. -/
theorem alive_iff (now : Nat) (req : retrieveRequestMsgData) :
    alive now req = true ↔ (req.timeout = none ∨ ∃ t, req.timeout = some t ∧ now < t) := by
  unfold alive
  cases req.timeout with
  | none => simp
  | some t => simp

/-- Requesters that are not live can be removed from a list without changing what the inner
delivery loop does. -/
theorem deliverTo_filter (msg : storeRequestMsgData) (now : Nat)
    (l : List retrieveRequestMsgData) :
    ∀ counter : Int, deliverTo msg now counter (l.filter (alive now)) =
      deliverTo msg now counter l := by
  induction l with
  | nil => intro _; rfl
  | cons req rest ih =>
    intro counter
    by_cases ha : alive now req = true
    · simp [List.filter_cons, ha, deliverTo, ih]
    · simp [List.filter_cons, ha, deliverTo, ih]

/-- Every delivery of the outer loop goes to a live requester recorded in the table. -/
theorem mem_deliverAll (chunk : Chunk) (now : Nat) (e : Event) :
    ∀ table : List (Nat × List retrieveRequestMsgData), e ∈ deliverAll chunk now table →
      ∃ id l req, (id, l) ∈ table ∧ req ∈ l ∧ alive now req = true ∧
        e = deliveryTo chunk id req := by
  intro table
  induction table with
  | nil => intro h; simp [deliverAll] at h
  | cons p rest ih =>
    obtain ⟨id, l⟩ := p
    intro h
    rw [deliverAll, List.mem_append] at h
    rcases h with h | h
    · rw [deliverTo_eq chunk id now l requesterCount (by decide), List.mem_map] at h
      obtain ⟨req, hreq, rfl⟩ := h
      have hmem := List.mem_filter.mp (List.mem_of_mem_take hreq)
      exact ⟨id, l, req, List.mem_cons_self _ _, hmem.1, hmem.2, rfl⟩
    · obtain ⟨id', l', req, hin, hreq, ha, he⟩ := ih h
      exact ⟨id', l', req, List.mem_cons_of_mem _ hin, hreq, ha, he⟩

/-- Removing the requesters that are not live from every list of the table does not change
what the outer delivery loop does. -/
theorem deliverAll_filter (chunk : Chunk) (now : Nat) :
    ∀ table : List (Nat × List retrieveRequestMsgData),
      deliverAll chunk now (table.map (fun p => (p.1, p.2.filter (alive now)))) =
        deliverAll chunk now table := by
  intro table
  induction table with
  | nil => rfl
  | cons p rest ih =>
    obtain ⟨id, l⟩ := p
    simp only [List.map_cons, deliverAll, deliverTo_filter, ih]

/-- The outer delivery loop reads the key and the data of the chunk only. -/
theorem deliverAll_congr (c1 c2 : Chunk) (now : Nat) (hk : c1.Key = c2.Key)
    (hd : c1.SData = c2.SData) :
    ∀ table : List (Nat × List retrieveRequestMsgData),
      deliverAll c1 now table = deliverAll c2 now table := by
  intro table
  induction table with
  | nil => rfl
  | cons p rest ih =>
    obtain ⟨id, l⟩ := p
    simp only [deliverAll, deliverMsg, hk, hd, ih]

/-- C4 (non-expired delivery): one run of `deliver` at instant `now` returns; every event it
adds is a Deliver enqueue to a recorded requester whose timeout is nil or strictly after
`now`, so a requester whose timeout is at or before `now` receives none; and the run adds
the same events as on the table with those expired requesters removed, so they do not
count towards the cap. -/
theorem netStore.deliver_live_only (self : netStore) (chunk : Chunk) (now : Nat)
    (rs : requestStatus) (hreq : chunk.req = some rs) :
    ∃ es, self.deliver chunk now = Except.ok (self.emit es) ∧
      (∀ e ∈ es, ∃ id l req, (id, l) ∈ rs.requesters ∧ req ∈ l ∧
        (req.timeout = none ∨ ∃ t, req.timeout = some t ∧ now < t) ∧
        e = Event.addRequest req.peer
          (syncRequest.store
            { Key := chunk.Key, SData := chunk.SData, Id := id, requestTimeout := none,
              peer := default })
          syncKind.DeliverReq) ∧
      self.deliver
        { chunk with
          req := some
            { rs with
              requesters := rs.requesters.map (fun p =>
                (p.1, p.2.filter (fun req =>
                  decide (req.timeout = none ∨ ∃ t, req.timeout = some t ∧ now < t)))) } }
        now = Except.ok (self.emit es) := by
  refine ⟨deliverAll chunk now rs.requesters, by simp [netStore.deliver, hreq], ?_, ?_⟩
  · intro e he
    obtain ⟨id, l, req, hin, hmem, ha, rfl⟩ := mem_deliverAll chunk now e rs.requesters he
    exact ⟨id, l, req, hin, hmem, (alive_iff now req).mp ha, rfl⟩
  · have hf : (fun req : retrieveRequestMsgData =>
        decide (req.timeout = none ∨ ∃ t, req.timeout = some t ∧ now < t)) = alive now := by
      funext req
      rw [Bool.eq_iff_iff]
      simp only [decide_eq_true_eq]
      exact (alive_iff now req).symm
    simp only [netStore.deliver, hf]
    rw [← deliverAll_filter chunk now rs.requesters]
    exact congrArg (fun es => Except.ok (self.emit es))
      (deliverAll_congr
        { chunk with
          req := some
            { rs with
              requesters := rs.requesters.map (fun p => (p.1, p.2.filter (alive now))) } }
        chunk now rfl rfl _)

/-- An instance of C4 at instant 5: under id 1 the requesters of peers 1 and 2 are live,
the one of peer 3 expired at instant 5. -/
theorem netStore.deliver_live_only_witness :
    ∃ es, testStore.deliver
        (testPlaceholder
          [(1, [testRequest 1 1 none, testRequest 3 1 (some 5), testRequest 2 1 (some 6)])])
        5 = Except.ok (testStore.emit es) ∧
      (∀ e ∈ es, ∃ id l req,
        (id, l) ∈ [(1, [testRequest 1 1 none, testRequest 3 1 (some 5),
                        testRequest 2 1 (some 6)])] ∧ req ∈ l ∧
        (req.timeout = none ∨ ∃ t, req.timeout = some t ∧ 5 < t) ∧
        e = Event.addRequest req.peer
          (syncRequest.store
            { Key := [9], SData := none, Id := id, requestTimeout := none, peer := default })
          syncKind.DeliverReq) ∧
      testStore.deliver
        { testPlaceholder
            [(1, [testRequest 1 1 none, testRequest 3 1 (some 5), testRequest 2 1 (some 6)])] with
          req := some
            { key := [], status := reqSearching, C := { id := 0, closed := false }
              requesters :=
                [(1, [testRequest 1 1 none, testRequest 3 1 (some 5),
                      testRequest 2 1 (some 6)])].map (fun p =>
                  (p.1, p.2.filter (fun req =>
                    decide (req.timeout = none ∨ ∃ t, req.timeout = some t ∧ 5 < t)))) } }
        5 = Except.ok (testStore.emit es) :=
  netStore.deliver_live_only testStore
    (testPlaceholder
      [(1, [testRequest 1 1 none, testRequest 3 1 (some 5), testRequest 2 1 (some 6)])])
    5 _ rfl

/-- The loop of `propagate` enqueues to the peers that pass its test, in order. -/
theorem propagateTo_eq (chunk : Chunk) (peers : List peer) :
    propagateTo chunk peers =
      (peers.filter (fun p =>
        decide (chunk.source = none ∨ some p.addr ≠ chunk.source.map peer.addr))).map
        (propagationTo chunk) := by
  induction peers with
  | nil => rfl
  | cons p rest ih =>
    by_cases h : chunk.source = none ∨ some p.addr ≠ chunk.source.map peer.addr
    · simp only [propagateTo, if_pos h, ih, List.filter_cons, decide_eq_true h, if_true,
        List.map_cons, propagationTo]
    · simp only [propagateTo, if_neg h, ih, List.filter_cons, decide_eq_false h]
      rfl

/-- C5 (source suppression): for a chunk whose source is peer `src`, `propagate` enqueues a
Propagate request, in hive order, to exactly those peers the hive returns for the chunk's
key whose address differs from the address of `src`, and to none whose address equals it;
for a chunk without source it enqueues one to every peer the hive returns. -/
theorem netStore.propagate_source_suppression (self : netStore) (chunk : Chunk) (src : peer) :
    netStore.propagate self { chunk with source := some src } =
      self.emit
        (((self.hive.getPeers chunk.Key 0).filter (fun p => decide (p.addr ≠ src.addr))).map
          (fun p => Event.addRequest p (syncRequest.chunk { chunk with source := some src })
            syncKind.PropagateReq)) ∧
    netStore.propagate self { chunk with source := none } =
      self.emit
        ((self.hive.getPeers chunk.Key 0).map
          (fun p => Event.addRequest p (syncRequest.chunk { chunk with source := none })
            syncKind.PropagateReq)) := by
  constructor
  · simp only [netStore.propagate, propagateTo_eq]
    congr 2
    simp
  · simp only [netStore.propagate, propagateTo_eq]
    congr 1
    simp
    intro a _
    rfl

/-- C2 (hash-validated store on a placeholder): when the key of a store request maps, in
memStore, to a chunk without data and the data of the request does not hash to its key,
`addStoreRequest` returns with the netStore unchanged: the placeholder (data, size, source,
request status, completion channel) is as before and no event (deliver or propagate
enqueue, close) is added. -/
theorem netStore.addStoreRequest_invalid (self : netStore) (req : storeRequestMsgData)
    (now : Nat) (chunk : Chunk)
    (hmem : self.localStore.memStore req.Key = some chunk) (hnil : chunk.SData = none)
    (hbad : self.hashfunc (bytesOf req.SData) ≠ req.Key) :
    self.addStoreRequest req now = Except.ok self := by
  simp [netStore.addStoreRequest, localStore.Get, hmem, hnil, hbad]

/-- An instance of C2: a searching placeholder for key `[9]` with one requester, and a store
request for `[9]` whose data hashes to `[6]`. -/
theorem netStore.addStoreRequest_invalid_witness :
    testHash (bytesOf (some [1, 0, 0, 0, 0, 0, 0, 0, 5])) ≠ [9] ∧
    (testStore.store (testPlaceholder [(1, [testRequest 1 1 none])])).addStoreRequest
        { Key := [9], Id := 1, SData := some [1, 0, 0, 0, 0, 0, 0, 0, 5],
          requestTimeout := none, peer := testPeer 2 } 5 =
      Except.ok (testStore.store (testPlaceholder [(1, [testRequest 1 1 none])])) :=
  ⟨by decide,
   netStore.addStoreRequest_invalid
    (testStore.store (testPlaceholder [(1, [testRequest 1 1 none])]))
    { Key := [9], Id := 1, SData := some [1, 0, 0, 0, 0, 0, 0, 0, 5],
      requestTimeout := none, peer := testPeer 2 } 5
    (testPlaceholder [(1, [testRequest 1 1 none])])
    (by simp [netStore.store, localStore.memPut, testPlaceholder]) rfl (by decide)⟩

/-- C1 fails on the code: when the key of a store request has no local record (neither in
memStore nor in dbStore) and its data has at least 8 bytes, `addStoreRequest` stores the
data under the key without hashing it, and a `Get` of that key then returns at once (no
wait) a chunk with that key and that data, also when the data does not hash to the key. -/
theorem netStore.addStoreRequest_unvalidated (self : netStore) (req : storeRequestMsgData)
    (now now' id : Nat) (data : List Nat)
    (hmem : self.localStore.memStore req.Key = none)
    (hdb : self.localStore.dbStore req.Key = none)
    (hdata : req.SData = some data) (hlen : 8 ≤ data.length)
    (hbad : self.hashfunc data ≠ req.Key) :
    ∃ s1, self.addStoreRequest req now = Except.ok s1 ∧
      observeGet (s1.Get req.Key now' id) = some (req.Key, some data, false) ∧
      s1.hashfunc data ≠ req.Key := by
  have hsize : sizeOf8 req.SData req.spare = some (toInt64 (leUint64 (data.take 8))) := by
    have hcap : 8 ≤ data.length + req.spare.length := Nat.le_add_right_of_le hlen
    simp [sizeOf8, hdata, hcap, List.take_append_of_le_length hlen]
  have h1 : self.addStoreRequest req now = Except.ok
      (netStore.propagate
        { self with
          localStore := self.localStore.Put
            { Key := req.Key, SData := req.SData, Size := toInt64 (leUint64 (data.take 8)),
              source := some req.peer, req := none } }
        { Key := req.Key, SData := req.SData, Size := toInt64 (leUint64 (data.take 8)),
          source := some req.peer, req := none }) := by
    simp [netStore.addStoreRequest, localStore.Get, hmem, hdb, hsize, netStore.put,
      localStore.putEntry]
  refine ⟨_, h1, ?_, ?_⟩
  · simp [observeGet, netStore.Get, netStore.get, localStore.Get, localStore.Put,
      localStore.putEntry,
      netStore.propagate, netStore.emit, hmem, hdata]
  · simpa [netStore.propagate, netStore.emit] using hbad

/-- The failing input of C1 on the example store: a store request for key `[9]` whose eight
data bytes hash to `[1]`; the `Get` of `[9]` that follows returns that data at once. -/
theorem netStore.addStoreRequest_unvalidated_witness :
    testHash [1, 0, 0, 0, 0, 0, 0, 0] ≠ [9] ∧
    ∃ s1, testStore.addStoreRequest
        { Key := [9], Id := 1, SData := some [1, 0, 0, 0, 0, 0, 0, 0], requestTimeout := none,
          peer := testPeer 2 } 5 = Except.ok s1 ∧
      observeGet (s1.Get [9] 6 7) = some ([9], some [1, 0, 0, 0, 0, 0, 0, 0], false) ∧
      s1.hashfunc [1, 0, 0, 0, 0, 0, 0, 0] ≠ [9] :=
  ⟨by decide,
   netStore.addStoreRequest_unvalidated testStore
    { Key := [9], Id := 1, SData := some [1, 0, 0, 0, 0, 0, 0, 0], requestTimeout := none,
      peer := testPeer 2 } 5 6 7 [1, 0, 0, 0, 0, 0, 0, 0] rfl rfl rfl (by decide) (by decide)⟩

end bzz

namespace swap

/-- The effect of `send` does not depend on the call log, as long as `out.Issue` answers
the same. -/
theorem Swap.send_effect_congr (s : Swap) (calls : List Call)
    (hout : s.out.Issue calls = s.out.Issue s.calls) :
    effect calls (Swap.send { s with calls := calls }) = effect s.calls s.send := by
  rcases Option.eq_none_or_eq_some (s.local_) with hl | ⟨l, hl⟩
  · simp [Swap.send, effect, hl]
  rcases Option.eq_none_or_eq_some (l.Profile) with hlp | ⟨lp, hlp⟩
  · simp [Swap.send, effect, hl, hlp]
  by_cases hc : lp.BuyAt ≠ none ∧ s.balance < 0
  · rcases Option.eq_none_or_eq_some (s.remote) with hr | ⟨r, hr⟩
    · simp [Swap.send, effect, hl, hlp, hr, hc]
    rcases Option.eq_none_or_eq_some (r.SellAt) with hs | ⟨sell, hs⟩
    · simp [Swap.send, effect, hl, hlp, hr, hs, hc]
    rcases Option.eq_none_or_eq_some (s.out.Issue s.calls (wrapInt (-s.balance) * sell))
      with hi | ⟨p, hi⟩
    · have hi2 : s.out.Issue calls (wrapInt (-s.balance) * sell) = none := by rw [hout, hi]
      simp only [Swap.send, hl, hlp, hr, hs, hi, hi2, if_pos hc]
      simp [effect, Swap.call]
    · have hi2 : s.out.Issue calls (wrapInt (-s.balance) * sell) = some p := by rw [hout, hi]
      simp only [Swap.send, hl, hlp, hr, hs, hi, hi2, if_pos hc]
      simp [effect, Swap.call]
  · simp only [Swap.send, hl, hlp, if_neg hc]
    simp [effect]

/-- The effect of `Add` does not depend on the call log, as long as `out.Issue` answers the
same. -/
theorem Swap.Add_effect_congr (s : Swap) (n : Int) (calls : List Call)
    (hout : s.out.Issue calls = s.out.Issue s.calls) :
    effect calls (Swap.Add { s with calls := calls } n) = effect s.calls (s.Add n) := by
  rcases Option.eq_none_or_eq_some (s.local_) with hl | ⟨l, hl⟩
  · simp [Swap.Add, effect, hl]
  rcases Option.eq_none_or_eq_some (l.Profile) with hlp | ⟨lp, hlp⟩
  · simp [Swap.Add, effect, hl, hlp]
  by_cases hd : intOfUint lp.DropAt ≤ wrapInt (s.balance + n)
  · simp [Swap.Add, effect, Swap.call, hl, hlp, hd]
  rcases Option.eq_none_or_eq_some (s.remote) with hr | ⟨r, hr⟩
  · simp [Swap.Add, effect, hl, hlp, hr, hd]
  by_cases hp : wrapInt (s.balance + n) ≤ wrapInt (-(intOfUint r.PayAt))
  · rw [Swap.Add_eq_send s n l lp r hl hlp hr (not_le.mp hd) hp,
      Swap.Add_eq_send { s with calls := calls } n l lp r hl hlp hr (not_le.mp hd) hp]
    exact Swap.send_effect_congr { s with balance := wrapInt (s.balance + n) } calls hout
  · simp only [Swap.Add, hl, hlp, hr, ge_iff_le, if_neg hd, if_neg hp]
    simp [effect]

/-- For `units > 0` and a promise that `in.Receive` verifies to exactly
`units * local.SellAt`, `Receive` is `Add (-units)` run once `in.Receive` has been called,
with the nil error. -/
theorem Swap.Receive_eq_Add (s : Swap) (units : Int) (promise : Promise) (l : Params)
    (lp : Profile) (sell : Int)
    (hl : s.local_ = some l) (hlp : l.Profile = some lp) (hsell : lp.SellAt = some sell)
    (hu : 0 < units) (hv : s.in_.Receive s.calls promise = some (units * sell)) :
    s.Receive units promise =
      Except.map (fun s2 => (s2, none)) ((s.call (Call.Receive promise)).Add (-units)) := by
  simp only [Swap.Receive, hl, hlp, hsell, hv, if_neg (not_le.mpr hu), ne_eq,
    not_true_eq_false, if_false]
  cases (s.call (Call.Receive promise)).Add (-units) <;> rfl

/-- Within the range of `int` (thresholds up to `2 ^ 63`, the new balance an `int`), C11
holds of the code: for `units > 0` and a promise that `in.Receive` verifies to exactly
`units * local.SellAt`, `Receive` is `Add (-units)` run once `in.Receive` has been called,
with the nil error.  With the remote profile and its sale price set that `Add` returns, so
`Receive` returns no error.  The balance reached and the `Drop`, `Issue` and `Pay` calls
made are those of `Add (-units)` on the state `Receive` started from (the answers of
`out.Issue` not depending on the call to `in.Receive`).  When the new balance stays strictly
between `-remote.PayAt` and `local.DropAt`, the balance decreases by exactly `units` and the
only call made is the one on `in.Receive`. -/
theorem Swap.Receive_credits_inrange (s : Swap) (units : Int) (promise : Promise)
    (l : Params) (lp r : Profile) (sell rsell : Int)
    (hl : s.local_ = some l) (hlp : l.Profile = some lp) (hsell : lp.SellAt = some sell)
    (hr : s.remote = some r) (hrsell : r.SellAt = some rsell)
    (hu : 0 < units) (hv : s.in_.Receive s.calls promise = some (units * sell)) :
    s.Receive units promise =
        Except.map (fun s2 => (s2, none)) ((s.call (Call.Receive promise)).Add (-units)) ∧
    (∃ s2, (s.call (Call.Receive promise)).Add (-units) = Except.ok s2 ∧
      s.Receive units promise = Except.ok (s2, none)) ∧
    (s.out.Issue (s.calls ++ [Call.Receive promise]) = s.out.Issue s.calls →
      effect (s.calls ++ [Call.Receive promise])
          ((s.call (Call.Receive promise)).Add (-units)) =
        effect s.calls (s.Add (-units))) ∧
    (lp.DropAt < 2 ^ 63 → r.PayAt ≤ 2 ^ 63 → -2 ^ 63 ≤ s.balance - units →
      -(r.PayAt : Int) < s.balance - units → s.balance - units < (lp.DropAt : Int) →
      s.Receive units promise = Except.ok
        ({ s with balance := s.balance - units, calls := s.calls ++ [Call.Receive promise] },
          none)) := by
  have heq := Swap.Receive_eq_Add s units promise l lp sell hl hlp hsell hu hv
  refine ⟨heq, ?_, ?_, ?_⟩
  · obtain ⟨s2, h2⟩ := Swap.Add_returns (s.call (Call.Receive promise)) (-units) l lp r
      rsell hl hlp hr hrsell
    exact ⟨s2, h2, by rw [heq, h2]; rfl⟩
  · intro hout
    exact Swap.Add_effect_congr s (-units) (s.calls ++ [Call.Receive promise]) hout
  · intro hD hP hlow h1 h2
    rw [heq]
    have hb : wrapInt (s.balance + -units) = s.balance - units :=
      wrapInt_of_range _ (by omega) (by omega)
    rw [Swap.Add_eq_quiet (s.call (Call.Receive promise)) (-units) l lp r hl hlp hr
      (by show wrapInt (s.balance + -units) < _; rw [hb, intOfUint_low _ hD]; exact h2)
      (by show _ < wrapInt (s.balance + -units); rw [hb, payLevel_low _ hP]; exact h1)]
    show Except.ok (_, none) = _
    simp only [Swap.call, hb]

/-- C11 fails on the code for a drop threshold from `2 ^ 63` on: for `units > 0` and a
promise that `in.Receive` verifies to exactly `units * local.SellAt`, when the new balance
`balance - units` is at or above `int(local.DropAt) = DropAt - 2 ^ 64`, `Receive` returns no
error but calls `proto.Drop` after `in.Receive`, although the new balance is below
`local.DropAt`. -/
theorem Swap.Receive_credits_wraps (s : Swap) (units : Int) (promise : Promise)
    (l : Params) (lp : Profile) (sell : Int)
    (hl : s.local_ = some l) (hlp : l.Profile = some lp) (hsell : lp.SellAt = some sell)
    (hu : 0 < units) (hv : s.in_.Receive s.calls promise = some (units * sell))
    (hD1 : 2 ^ 63 ≤ lp.DropAt) (hD2 : lp.DropAt < 2 ^ 64)
    (hb : (lp.DropAt : Int) - 2 ^ 64 ≤ s.balance - units) (hup : s.balance - units < 2 ^ 63) :
    s.balance - units < (lp.DropAt : Int) ∧
    s.Receive units promise = Except.ok
      ({ s with balance := s.balance - units
                calls := s.calls ++ [Call.Receive promise, Call.Drop] }, none) := by
  have hw : wrapInt (s.balance + -units) = s.balance - units :=
    wrapInt_of_range _ (by omega) (by omega)
  refine ⟨by omega, ?_⟩
  rw [Swap.Receive_eq_Add s units promise l lp sell hl hlp hsell hu hv,
    Swap.Add_eq_drop (s.call (Call.Receive promise)) (-units) l lp hl hlp
      (by show _ ≤ wrapInt (s.balance + -units); rw [hw, intOfUint_high _ hD1 hD2]; exact hb)]
  show Except.ok (_, none) = _
  simp only [Swap.call, hw, List.append_assoc, List.singleton_append]

/-- The failing input of C11: the example swap (sale price 7, pay threshold 10) at balance 3
with the local drop threshold at `2 ^ 63`; a promise of 14 for 2 units is accepted, the new
balance 1 lies strictly between -10 and the drop threshold, and `proto.Drop` is called. -/
theorem Swap.Receive_credits_wraps_witness :
    (-((10 : Nat) : Int) < 3 - 2 ∧ (3 : Int) - 2 < ((2 ^ 63 : Nat) : Int)) ∧
    (testSwap 3 { testProfile with DropAt := 2 ^ 63 } testProfile).Receive 2 14 = Except.ok
      ({ testSwap 3 { testProfile with DropAt := 2 ^ 63 } testProfile with
         balance := 3 - 2, calls := [] ++ [Call.Receive 14, Call.Drop] }, none) :=
  ⟨⟨by decide, by decide⟩,
   (Swap.Receive_credits_wraps (testSwap 3 { testProfile with DropAt := 2 ^ 63 } testProfile)
    2 14 ⟨some { testProfile with DropAt := 2 ^ 63 }, none⟩
    { testProfile with DropAt := 2 ^ 63 } 7 rfl rfl rfl (by decide) rfl (by decide)
    (by decide) (by decide) (by decide)).2⟩

/-- Within the range of `int` (thresholds up to `2 ^ 63`, balances above `-2 ^ 63`), C12
holds of the code: with `local.BuyAt` set and a negative balance, if `out.Issue` fails then
`send` only records the `Issue` call: `proto.Pay` is not called and the balance keeps its
value; an `Add` after it that still reaches the pay threshold with a negative balance calls
`out.Issue` again, for the balance of that moment.  If `local.BuyAt` is nil or the balance
is not negative, `send` returns the state unchanged: no `Issue`, no `Pay`. -/
theorem Swap.send_issue_fails_inrange (s : Swap) (l : Params) (lp : Profile)
    (hl : s.local_ = some l) (hlp : l.Profile = some lp) :
    (∀ r sell, s.remote = some r → r.SellAt = some sell → lp.BuyAt ≠ none → s.balance < 0 →
      s.out.Issue s.calls (wrapInt (-s.balance) * sell) = none →
      s.send = Except.ok
        { s with calls := s.calls ++ [Call.Issue (wrapInt (-s.balance) * sell)] } ∧
      (-2 ^ 63 < s.balance → wrapInt (-s.balance) = -s.balance) ∧
      ∀ m, lp.DropAt < 2 ^ 63 → r.PayAt ≤ 2 ^ 63 → -2 ^ 63 < s.balance + m →
        s.balance + m ≤ -(r.PayAt : Int) → s.balance + m < 0 →
        ∃ s2 cs,
          Swap.Add { s with calls := s.calls ++ [Call.Issue (wrapInt (-s.balance) * sell)] } m =
            Except.ok s2 ∧
          s2.calls = (s.calls ++ [Call.Issue (wrapInt (-s.balance) * sell)]) ++
            Call.Issue (-(s.balance + m) * sell) :: cs ∧
          (cs = [] ∨ ∃ p, cs = [Call.Pay (-(s.balance + m)) p])) ∧
    (lp.BuyAt = none ∨ 0 ≤ s.balance → s.send = Except.ok s) := by
  constructor
  · intro r sell hr hsell hbuy hneg hissue
    have hc : lp.BuyAt ≠ none ∧ s.balance < 0 := ⟨hbuy, hneg⟩
    refine ⟨by simp only [Swap.send, Swap.call, hl, hlp, hr, hsell, hissue, if_pos hc],
      fun h => wrapInt_of_range _ (by omega) (by omega), ?_⟩
    intro m hD hP hlow hp hm
    have hb : wrapInt (s.balance + m) = s.balance + m :=
      wrapInt_of_range _ (le_of_lt hlow) (by omega)
    have hnb : wrapInt (-(s.balance + m)) = -(s.balance + m) :=
      wrapInt_of_range _ (by omega) (by omega)
    have hd : s.balance + m < (lp.DropAt : Int) := by
      have : (0 : Int) ≤ (lp.DropAt : Int) := Int.ofNat_nonneg _
      omega
    rw [Swap.Add_eq_send
      { s with calls := s.calls ++ [Call.Issue (wrapInt (-s.balance) * sell)] } m l lp r
      hl hlp hr (by show wrapInt (s.balance + m) < _; rw [hb, intOfUint_low _ hD]; exact hd)
      (by show wrapInt (s.balance + m) ≤ _; rw [hb, payLevel_low _ hP]; exact hp)]
    have hc2 : lp.BuyAt ≠ none ∧ s.balance + m < 0 := ⟨hbuy, hm⟩
    rcases Option.eq_none_or_eq_some
      (s.out.Issue (s.calls ++ [Call.Issue (wrapInt (-s.balance) * sell)])
        (-(s.balance + m) * sell))
      with hi | ⟨p, hi⟩
    · simp only [Swap.send, hl, hlp, hr, hsell, hb, hnb, hi, if_pos hc2]
      exact ⟨_, [], rfl, rfl, Or.inl rfl⟩
    · simp only [Swap.send, hl, hlp, hr, hsell, hb, hnb, hi, if_pos hc2]
      exact ⟨_, [Call.Pay (-(s.balance + m)) p], rfl, by simp [Swap.call], Or.inr ⟨p, rfl⟩⟩
  · intro h
    have hc : ¬ (lp.BuyAt ≠ none ∧ s.balance < 0) := by
      rintro ⟨h1, h2⟩
      rcases h with h | h
      · exact h1 h
      · omega
    simp only [Swap.send, hl, hlp, if_neg hc]

/-- C12 fails on the code for a drop threshold from `2 ^ 63` on: with `local.BuyAt` set and
a negative balance, a failing `out.Issue` leaves the balance as it is and `proto.Pay`
uncalled, but an `Add m` after it whose new balance `balance + m` still is at or below
`-remote.PayAt` does not attempt `out.Issue` again when that balance is at or above
`int(local.DropAt) = DropAt - 2 ^ 64`: it calls `proto.Drop`. -/
theorem Swap.send_issue_fails_wraps (s : Swap) (l : Params) (lp r : Profile) (sell : Int)
    (hl : s.local_ = some l) (hlp : l.Profile = some lp) (hr : s.remote = some r)
    (hsell : r.SellAt = some sell) (hbuy : lp.BuyAt ≠ none) (hneg : s.balance < 0)
    (hissue : s.out.Issue s.calls (wrapInt (-s.balance) * sell) = none)
    (hD1 : 2 ^ 63 ≤ lp.DropAt) (hD2 : lp.DropAt < 2 ^ 64) :
    s.send = Except.ok
      { s with calls := s.calls ++ [Call.Issue (wrapInt (-s.balance) * sell)] } ∧
    ∀ m, s.balance + m ≤ -(r.PayAt : Int) → (lp.DropAt : Int) - 2 ^ 64 ≤ s.balance + m →
      Swap.Add { s with calls := s.calls ++ [Call.Issue (wrapInt (-s.balance) * sell)] } m =
        Except.ok
          { s with balance := s.balance + m
                   calls := s.calls ++ [Call.Issue (wrapInt (-s.balance) * sell), Call.Drop] } := by
  have hc : lp.BuyAt ≠ none ∧ s.balance < 0 := ⟨hbuy, hneg⟩
  refine ⟨by simp only [Swap.send, Swap.call, hl, hlp, hr, hsell, hissue, if_pos hc], ?_⟩
  intro m hp hb
  have hP : (0 : Int) ≤ (r.PayAt : Int) := Int.ofNat_nonneg _
  have hw : wrapInt (s.balance + m) = s.balance + m :=
    wrapInt_of_range _ (by omega) (by omega)
  rw [Swap.Add_eq_drop
    { s with calls := s.calls ++ [Call.Issue (wrapInt (-s.balance) * sell)] } m l lp hl hlp
    (by show _ ≤ wrapInt (s.balance + m); rw [hw, intOfUint_high _ hD1 hD2]; exact hb)]
  simp only [hw, List.append_assoc, List.singleton_append]

/-- The failing input of C12: prices 7, pay threshold 3, local drop threshold `2 ^ 64 - 5`,
an `out.Issue` that always fails, balance -7.  `Add 0` reaches `send`, whose `Issue` of 49
fails and keeps the balance at -7; the `Add 3` that follows brings the balance to -4, still
at or below -3, and calls `proto.Drop` instead of `out.Issue`. -/
theorem Swap.send_issue_fails_wraps_witness :
    observe (Swap.AddAll
      { testSwap (-7) { testProfile with DropAt := 2 ^ 64 - 5 }
          { testProfile with PayAt := 3 } with out := ⟨fun _ _ => none⟩ } [0]) =
      Except.ok (-7, [Call.Issue 49]) ∧
    ((-7 : Int) + 3 ≤ -((3 : Nat) : Int) ∧
      Swap.Add
        { testSwap (-7) { testProfile with DropAt := 2 ^ 64 - 5 }
            { testProfile with PayAt := 3 } with
          out := ⟨fun _ _ => none⟩
          calls := [] ++ [Call.Issue (wrapInt (-(-7)) * 7)] } 3 =
        Except.ok
          { testSwap (-7) { testProfile with DropAt := 2 ^ 64 - 5 }
              { testProfile with PayAt := 3 } with
            out := ⟨fun _ _ => none⟩
            balance := -7 + 3
            calls := [] ++ [Call.Issue (wrapInt (-(-7)) * 7), Call.Drop] }) :=
  ⟨by rfl, by decide,
   (Swap.send_issue_fails_wraps
    { testSwap (-7) { testProfile with DropAt := 2 ^ 64 - 5 }
        { testProfile with PayAt := 3 } with out := ⟨fun _ _ => none⟩ }
    ⟨some { testProfile with DropAt := 2 ^ 64 - 5 }, none⟩
    { testProfile with DropAt := 2 ^ 64 - 5 } { testProfile with PayAt := 3 } 7
    rfl rfl rfl rfl (by decide) (by decide) rfl (by decide) (by decide)).2 3
    (by decide) (by decide)⟩

end swap

namespace bzz

/-- When memStore holds a chunk with a request status under the key, `get` answers that
chunk and leaves the netStore as it is. -/
theorem netStore.get_of_req (self : netStore) (key : Key) (c : Chunk) (rs : requestStatus)
    (hmem : self.localStore.memStore key = some c) (hreq : c.req = some rs) :
    self.get key = (self, c) := by
  simp [netStore.get, localStore.Get, hmem, hreq]

/-- What `get` establishes: the chunk answered carries the key and a request status and is
the record memStore holds under the key; the records under other keys that were in
memStore stay, and the log, the hive and the swap environment are untouched. -/
theorem netStore.get_spec (self : netStore) (key : Key)
    (hk : ∀ c, self.localStore.memStore key = some c → c.Key = key) :
    (self.get key).2.Key = key ∧ (∃ rs, (self.get key).2.req = some rs) ∧
    (self.get key).1.localStore.memStore key = some (self.get key).2 ∧
    (∀ k, k ≠ key → (self.get key).1.localStore.memStore k = self.localStore.memStore k) ∧
    (self.get key).1.log = self.log ∧ (self.get key).1.hive = self.hive ∧
    (self.get key).1.swapAdd = self.swapAdd ∧ (self.get key).1.hashfunc = self.hashfunc := by
  rcases Option.eq_none_or_eq_some (self.localStore.memStore key) with hmem | ⟨c, hmem⟩
  · rcases Option.eq_none_or_eq_some (self.localStore.dbStore key) with hdb | ⟨data, hdb⟩
    · simp [netStore.get, localStore.Get, hmem, hdb, netStore.store, localStore.memPut]
      intro k hne
      simp [Function.update_noteq hne, Function.update_noteq hne]
    · simp [netStore.get, localStore.Get, hmem, hdb, netStore.store, localStore.memPut]
      intro k hne
      simp [Function.update_noteq hne]
  · have hc := hk c hmem
    rcases Option.eq_none_or_eq_some c.req with hreq | ⟨rs, hreq⟩
    · simp [netStore.get, localStore.Get, hmem, hreq, netStore.store, localStore.memPut, hc]
      intro k hne
      simp [Function.update_noteq hne]
    · rw [netStore.get_of_req self key c rs hmem hreq]
      simp [hc, hreq, hmem]

/-- The method `get` keeps memStore keyed by chunk key. -/
theorem netStore.get_keyed (self : netStore) (key : Key) (hkeyed : self.keyed) :
    (self.get key).1.keyed := by
  obtain ⟨h1, _, h3, h4, _⟩ := netStore.get_spec self key (fun c hc => hkeyed key c hc)
  intro k c hc
  by_cases hk : k = key
  · subst hk
    rw [h3] at hc
    cases hc
    exact h1
  · rw [h4 k hk] at hc
    exact hkeyed k c hc

/-- A record with a request status held in memStore is not changed by a `get`, whatever key
is asked for. -/
theorem netStore.get_frame (self : netStore) (key k : Key) (c : Chunk) (rs : requestStatus)
    (hkeyed : self.keyed) (hmem : self.localStore.memStore key = some c)
    (hreq : c.req = some rs) :
    (self.get k).1.localStore.memStore key = some c := by
  by_cases hk : k = key
  · subst hk
    rw [netStore.get_of_req self k c rs hmem hreq]
    exact hmem
  · obtain ⟨_, _, _, h4, _⟩ := netStore.get_spec self k (fun c hc => hkeyed k c hc)
    rw [h4 key (fun h => hk h.symm)]
    exact hmem

/-- A record with a request status held in memStore is not changed by a run of `get`
calls, and memStore stays keyed. -/
theorem netStore.getAll_frame (key : Key) (c : Chunk) (rs : requestStatus)
    (hreq : c.req = some rs) (ks : List Key) :
    ∀ s : netStore, s.keyed → s.localStore.memStore key = some c →
      (s.getAll ks).keyed ∧ (s.getAll ks).localStore.memStore key = some c := by
  induction ks with
  | nil => intro s hkeyed hmem; exact ⟨hkeyed, hmem⟩
  | cons k ks ih =>
    intro s hkeyed hmem
    exact ih (s.get k).1 (netStore.get_keyed s k hkeyed)
      (netStore.get_frame s key k c rs hkeyed hmem hreq)

/-- C13 (at most one request status per key): on a memStore keyed by chunk key, `get key`
answers a chunk carrying a request status, and that chunk is the record memStore holds
under the key afterwards; a record that memStore held under the key with a request status
is answered as it is, not replaced, and the netStore is left unchanged; a second `get key`
answers the same chunk (so the same request status and the same completion channel) and
changes nothing; and after any further run of `get` calls, on any keys, memStore still
holds that same chunk under the key and `get key` still answers it. -/
theorem netStore.get_at_most_one (self : netStore) (key : Key) (hkeyed : self.keyed) :
    (∃ rs, (self.get key).2.req = some rs) ∧
    (self.get key).1.localStore.memStore key = some (self.get key).2 ∧
    (∀ c rs, self.localStore.memStore key = some c → c.req = some rs →
      self.get key = (self, c)) ∧
    (self.get key).1.get key = self.get key ∧
    ∀ ks : List Key,
      ((self.get key).1.getAll ks).localStore.memStore key = some (self.get key).2 ∧
      (((self.get key).1.getAll ks).get key).2 = (self.get key).2 := by
  obtain ⟨_, ⟨rs, hrs⟩, h3, _⟩ := netStore.get_spec self key (fun c hc => hkeyed key c hc)
  refine ⟨⟨rs, hrs⟩, h3, ?_, ?_, ?_⟩
  · intro c rs' hmem hreq
    exact netStore.get_of_req self key c rs' hmem hreq
  · rw [netStore.get_of_req (self.get key).1 key (self.get key).2 rs h3 hrs]
  · intro ks
    obtain ⟨_, hm⟩ := netStore.getAll_frame key (self.get key).2 rs hrs ks (self.get key).1
      (netStore.get_keyed self key hkeyed) h3
    refine ⟨hm, ?_⟩
    rw [netStore.get_of_req _ key (self.get key).2 rs hm hrs]

/-- An instance of C13 on the example store holding the searching example placeholder under
key [9]: `get` answers that placeholder, with its request status and channel 0, and leaves
the store as it is, also after a run of `get` calls on other keys. -/
theorem netStore.get_at_most_one_witness :
    (testStore.store (testPlaceholder [])).get [9] =
      (testStore.store (testPlaceholder []), testPlaceholder []) ∧
    (((testStore.store (testPlaceholder [])).get [9]).1.getAll [[7], [9], [8]]).localStore.memStore
        [9] = some ((testStore.store (testPlaceholder [])).get [9]).2 :=
  ⟨(netStore.get_at_most_one (testStore.store (testPlaceholder [])) [9]
      (fun k c h => by
        by_cases hk : k = [9]
        · subst hk
          simp [netStore.store, localStore.memPut, testPlaceholder] at h
          rw [← h]
        · simp [netStore.store, localStore.memPut, testPlaceholder, testStore, localStore.empty,
            Function.update_noteq hk] at h)).2.2.1 (testPlaceholder []) _
      (by simp [netStore.store, localStore.memPut, testPlaceholder]) rfl,
   ((netStore.get_at_most_one (testStore.store (testPlaceholder [])) [9]
      (fun k c h => by
        by_cases hk : k = [9]
        · subst hk
          simp [netStore.store, localStore.memPut, testPlaceholder] at h
          rw [← h]
        · simp [netStore.store, localStore.memPut, testPlaceholder, testStore, localStore.empty,
            Function.update_noteq hk] at h)).2.2.2.2 [[7], [9], [8]]).1⟩

/-- For a key without local record `get` opens a placeholder with a fresh request status. -/
theorem netStore.get_absent (self : netStore) (key : Key)
    (hmem : self.localStore.memStore key = none) (hdb : self.localStore.dbStore key = none) :
    self.get key =
      ({ self with
         localStore := self.localStore.memPut (placeholder key self.nextC)
         nextC := self.nextC + 1 }, placeholder key self.nextC) := by
  simp [netStore.get, localStore.Get, hmem, hdb, netStore.store, localStore.memPut, placeholder]

/-- A local `Get` of a key held as a placeholder, when the first peer of the hive is not a
recorded requester and accepts the debit: the status is (again) set to Searching, that peer
is debited and sent the retrieve request, and the caller waits. -/
theorem netStore.Get_search (self : netStore) (key : Key) (now id : Nat) (c : Chunk)
    (rs : requestStatus) (p : peer) (ps : List peer)
    (hmem : self.localStore.memStore key = some c) (hkey : c.Key = key)
    (hreq : c.req = some rs) (hnil : c.SData = none)
    (hhive : self.hive.getPeers key 0 = p :: ps)
    (hp : isRequester p rs.requesters = false) (hswap : self.swapAdd self.log p (-1) = true) :
    self.Get key now id = Except.ok
      ({ self with
         localStore := self.localStore.memPut
           { c with req := some { rs with status := reqSearching } }
         log := self.log ++ [Event.swapAdd p (-1), Event.retrieve p (localRequest key now id)] },
       { c with req := some { rs with status := reqSearching } }, true) := by
  simp [netStore.Get, netStore.get_of_req self key c rs hmem hreq, hnil, netStore.startSearch,
    hreq, netStore.store, hkey, hhive, startSearchLoop, hp, hswap, localRequest]

/-- A local `Get` of a key without local record, when the first peer of the hive accepts
the debit: a placeholder is opened, that peer is debited and sent the retrieve request, and
the caller waits. -/
theorem netStore.Get_absent (self : netStore) (key : Key) (now id : Nat) (p : peer)
    (ps : List peer)
    (hmem : self.localStore.memStore key = none) (hdb : self.localStore.dbStore key = none)
    (hhive : self.hive.getPeers key 0 = p :: ps) (hswap : self.swapAdd self.log p (-1) = true) :
    self.Get key now id = Except.ok
      ({ self with
         localStore := self.localStore.memPut (placeholder key self.nextC)
         nextC := self.nextC + 1
         log := self.log ++ [Event.swapAdd p (-1), Event.retrieve p (localRequest key now id)] },
       placeholder key self.nextC, true) := by
  have hs : ({ self with
      localStore := self.localStore.memPut (placeholder key self.nextC)
      nextC := self.nextC + 1 } : netStore).localStore.memStore key =
      some (placeholder key self.nextC) := by
    simp [localStore.memPut, placeholder]
  have h := netStore.Get_search
    { self with
      localStore := self.localStore.memPut (placeholder key self.nextC)
      nextC := self.nextC + 1 } key now id (placeholder key self.nextC)
    (newRequestStatus self.nextC) p ps hs rfl rfl rfl hhive rfl hswap
  rw [netStore.Get, netStore.get_absent self key hmem hdb]
  rw [netStore.Get, netStore.get_of_req _ key _ _ hs rfl] at h
  rw [h]
  simp [localStore.memPut, placeholder, newRequestStatus, reqSearching]

/-- C14 amended (no coalescing of forwards): for a key without local record, a hive whose
peer list for the key starts with `p`, and every debit accepted, two local `Get` calls in a
row both wait on the same placeholder, with the same request status and completion channel,
and each of them debits `p` and sends it a retrieve request: two retrieve requests in
total, one per `Get`. -/
theorem netStore.Get_twice (self : netStore) (key : Key) (now1 id1 now2 id2 : Nat) (p : peer)
    (ps : List peer)
    (hmem : self.localStore.memStore key = none) (hdb : self.localStore.dbStore key = none)
    (hhive : self.hive.getPeers key 0 = p :: ps)
    (hswap : ∀ log q, self.swapAdd log q (-1) = true) :
    ∃ s1 s2, self.Get key now1 id1 = Except.ok (s1, placeholder key self.nextC, true) ∧
      s1.Get key now2 id2 = Except.ok (s2, placeholder key self.nextC, true) ∧
      s2.log = self.log ++
        [Event.swapAdd p (-1), Event.retrieve p (localRequest key now1 id1),
         Event.swapAdd p (-1), Event.retrieve p (localRequest key now2 id2)] := by
  have h1 := netStore.Get_absent self key now1 id1 p ps hmem hdb hhive (hswap _ _)
  have h2 := netStore.Get_search
    { self with
      localStore := self.localStore.memPut (placeholder key self.nextC)
      nextC := self.nextC + 1
      log := self.log ++
        [Event.swapAdd p (-1), Event.retrieve p (localRequest key now1 id1)] }
    key now2 id2 (placeholder key self.nextC) (newRequestStatus self.nextC) p ps
    (by simp [localStore.memPut, placeholder]) rfl rfl rfl hhive rfl (hswap _ _)
  have hc : ({ placeholder key self.nextC with
      req := some { newRequestStatus self.nextC with status := reqSearching } } : Chunk) =
      placeholder key self.nextC := rfl
  rw [hc] at h2
  exact ⟨_, _, h1, h2, by simp⟩

/-- An instance of the amended C14 on the example store, whose hive answers peers 1, 2, 3. -/
theorem netStore.Get_twice_witness :
    ∃ s1 s2, testStore.Get [9] 5 1 = Except.ok (s1, placeholder [9] testStore.nextC, true) ∧
      s1.Get [9] 6 2 = Except.ok (s2, placeholder [9] testStore.nextC, true) ∧
      s2.log = testStore.log ++
        [Event.swapAdd (testPeer 1) (-1), Event.retrieve (testPeer 1) (localRequest [9] 5 1),
         Event.swapAdd (testPeer 1) (-1), Event.retrieve (testPeer 1) (localRequest [9] 6 2)] :=
  netStore.Get_twice testStore [9] 5 1 6 2 (testPeer 1) [testPeer 2, testPeer 3] rfl rfl rfl
    (fun _ _ => rfl)

/-- C14 as stated fails: on the example store, two local `Get` calls for key `[9]` send
two retrieve requests, both to peer 1. -/
theorem netStore.Get_twice_counterexample :
    (observeLog (testStore.Gets [([9], 5, 1), ([9], 6, 2)])).map retrieves =
      some [(testPeer 1, localRequest [9] 5 1), (testPeer 1, localRequest [9] 6 2)] := by
  rfl

/-- C15 as stated fails: on the example store, `put` of a chunk with data whose request
status is already Found adds no event, although the hive has peers that `propagate` would
enqueue to. -/
theorem netStore.put_paths_counterexample :
    observeLog (testStore.put (testChunk (some testFound)) 5) = some [] ∧
    (propagateTo (testChunk (some testFound))
      (testStore.hive.getPeers (testChunk (some testFound)).Key 0)).length = 3 := by
  constructor <;> rfl

/-- C15 amended (common store path): `put` reads the request status of the chunk after
`localStore.Put`, which leaves on the chunk the request status of a placeholder that
memStore held under its key, and the chunk as handed in otherwise.  Then `put` does one of
three things.  For a chunk whose request status is then Searching, with its completion
channel still open: the status becomes Found, the channel is closed once and `deliver`
runs; `propagate` does not.  For a chunk then without request status: `propagate` runs.
For a chunk whose request status is then not Searching (already Found): nothing more,
neither `deliver` nor `propagate`.  On a Searching status whose channel is already closed
the close panics. -/
theorem netStore.put_paths (self : netStore) (entry : Chunk) (now : Nat) :
    ((∀ p, self.localStore.memStore entry.Key = some p → p.SData = none →
        self.localStore.putEntry entry = { entry with req := p.req }) ∧
      (self.localStore.memStore entry.Key = none → self.localStore.putEntry entry = entry) ∧
      (∀ p, self.localStore.memStore entry.Key = some p → p.SData ≠ none →
        self.localStore.putEntry entry = entry)) ∧
    (∀ rs, (self.localStore.putEntry entry).req = some rs → rs.status = reqSearching →
      rs.C.closed = false →
      self.put entry now = Except.ok
        ((netStore.store { self with localStore := self.localStore.Put entry }
            { self.localStore.putEntry entry with
              req := some { rs with status := reqFound, C := { rs.C with closed := true } } }).emit
          (Event.close rs.C.id ::
            deliverAll
              { self.localStore.putEntry entry with
                req := some { rs with status := reqFound, C := { rs.C with closed := true } } }
              now rs.requesters))) ∧
    ((self.localStore.putEntry entry).req = none →
      self.put entry now = Except.ok
        (netStore.propagate { self with localStore := self.localStore.Put entry }
          (self.localStore.putEntry entry))) ∧
    (∀ rs, (self.localStore.putEntry entry).req = some rs → rs.status ≠ reqSearching →
      self.put entry now = Except.ok { self with localStore := self.localStore.Put entry }) ∧
    (∀ rs, (self.localStore.putEntry entry).req = some rs → rs.status = reqSearching →
      rs.C.closed = true → ∃ e, self.put entry now = Except.error e) := by
  refine ⟨⟨?_, ?_, ?_⟩, ?_, ?_, ?_, ?_⟩
  · intro p hmem hnil
    exact localStore.putEntry_placeholder _ entry p hmem hnil
  · intro hmem
    exact localStore.putEntry_none _ entry hmem
  · intro p hmem hd
    exact localStore.putEntry_data _ entry p hmem hd
  · intro rs hreq hs hc
    simp [netStore.put, hreq, hs, hc, netStore.deliver, netStore.emit, netStore.store]
  · intro hreq
    simp [netStore.put, hreq]
  · intro rs hreq hs
    simp [netStore.put, hreq, hs]
  · intro rs hreq hs hc
    simp [netStore.put, hreq, hs, hc]

/-- An instance of the amended C15: the example store holds the searching example
placeholder, with one live requester under id 1, under key [9]; `put` of the example chunk,
handed in without request status, closes channel 0 and delivers to that requester, and does
not propagate. -/
theorem netStore.put_paths_witness :
    (testChunk none).req = none ∧
    observeLog
      ((testStore.store (testPlaceholder [(1, [testRequest 1 1 none])])).put (testChunk none)
        5) =
      some [Event.close 0,
        Event.addRequest (testPeer 1)
          (syncRequest.store
            { Key := [9], Id := 1,
              SData := some [8, 0, 0, 0, 0, 0, 0, 0, 1, 0, 0, 0, 0, 0, 0, 0],
              requestTimeout := none, peer := default })
          syncKind.DeliverReq] := by
  refine ⟨rfl, ?_⟩
  rw [(netStore.put_paths (testStore.store (testPlaceholder [(1, [testRequest 1 1 none])]))
    (testChunk none) 5).2.1
    { key := [], status := reqSearching, requesters := [(1, [testRequest 1 1 none])],
      C := { id := 0, closed := false } }
    (by
      rw [localStore.putEntry_placeholder _ (testChunk none)
        (testPlaceholder [(1, [testRequest 1 1 none])])
        (by simp [netStore.store, localStore.memPut, testPlaceholder, testChunk]) rfl]
      rfl)
    rfl rfl]
  rfl

/-- The method `peers` leaves the local store as it is. -/
theorem netStore.peers_localStore (self : netStore) (req : retrieveRequestMsgData) (now : Nat) :
    (self.peers req now).localStore = self.localStore := by
  unfold netStore.peers
  split
  · split <;> rfl
  · rfl

/-- C16 fails on the code: for a key held in memStore with data, a retrieve request that is
not a lookup, whose charge is accepted and whose non-zero `MaxSize` is below the size of
the chunk, makes `addRetrieveRequest` set the status to Found and then run `startSearch`,
which sets it back to Searching: the operation returns with the status of the key at
Searching, whatever it was before (Found included). -/
theorem netStore.addRetrieveRequest_regress (self : netStore) (req : retrieveRequestMsgData)
    (now : Nat) (c : Chunk) (rs : requestStatus) (data : List Nat)
    (hmem : self.localStore.memStore req.Key = some c) (hkey : c.Key = req.Key)
    (hdata : c.SData = some data) (hreq : c.req = some rs)
    (hlookup : req.isLookup = false) (hswap : self.swapAdd self.log req.peer 1 = true)
    (hmax : req.MaxSize ≠ 0) (hsize : toInt64 req.MaxSize < c.Size) :
    observeStatus req.Key (self.addRetrieveRequest req now) = some reqSearching := by
  have hcond : ¬ (req.MaxSize = 0 ∨ c.Size ≤ toInt64 req.MaxSize) := by
    rintro (h | h)
    · exact hmax h
    · omega
  simp [netStore.addRetrieveRequest, hlookup, netStore.get_of_req self req.Key c rs hmem hreq,
    hreq, hdata, netStore.strategyUpdateRequest, reqFound, reqSearching, hswap, hcond,
    netStore.startSearch, netStore.store, netStore.emit, addRequester, observeStatus,
    netStore.statusOf, netStore.peers_localStore, localStore.memPut, hkey]

/-- The failing input of C16: the example store holding the example chunk (size 8) with
status Found, and a retrieve request from peer 1 with `MaxSize` 1. -/
theorem netStore.addRetrieveRequest_regress_witness :
    (testStore.store (testChunk (some testFound))).statusOf [9] = some reqFound ∧
    observeStatus [9]
      ((testStore.store (testChunk (some testFound))).addRetrieveRequest
        { testRequest 1 1 none with MaxSize := 1 } 5) = some reqSearching :=
  ⟨rfl, netStore.addRetrieveRequest_regress (testStore.store (testChunk (some testFound)))
    { testRequest 1 1 none with MaxSize := 1 } 5 (testChunk (some testFound)) testFound
    [8, 0, 0, 0, 0, 0, 0, 0, 1, 0, 0, 0, 0, 0, 0, 0]
    (by simp [netStore.store, localStore.memPut, testChunk, testRequest]) rfl rfl rfl rfl rfl
    (by decide) (by decide)⟩

/-- What the loop of `startSearch` does.  Either the peer list splits as `pre ++ p :: post`
where `p` is the first peer that is not a recorded requester and whose debit is accepted
(every peer of `pre` that is not a requester had its debit refused): then the log grows by
the refused debits on `pre`, the debit on `p` and the retrieve sent to `p`, and nothing
else.  Or no peer qualifies: then the log grows by the refused debits only. -/
theorem startSearchLoop_spec (swapAdd : List Event → peer → Int → Bool)
    (requesters : List (Nat × List retrieveRequestMsgData)) (req : retrieveRequestMsgData) :
    ∀ (peers : List peer) (log : List Event),
      (∃ pre p post, peers = pre ++ p :: post ∧ isRequester p requesters = false ∧
        swapAdd (log ++ debitsOf requesters pre) p (-1) = true ∧
        (∀ pre1 q pre2, pre = pre1 ++ q :: pre2 → isRequester q requesters = false →
          swapAdd (log ++ debitsOf requesters pre1) q (-1) = false) ∧
        startSearchLoop swapAdd requesters req log peers =
          log ++ debitsOf requesters pre ++ [Event.swapAdd p (-1), Event.retrieve p req]) ∨
      ((∀ pre1 q pre2, peers = pre1 ++ q :: pre2 → isRequester q requesters = false →
          swapAdd (log ++ debitsOf requesters pre1) q (-1) = false) ∧
        startSearchLoop swapAdd requesters req log peers = log ++ debitsOf requesters peers) := by
  intro peers
  induction peers with
  | nil =>
    intro log
    right
    refine ⟨?_, by simp [startSearchLoop, debitsOf]⟩
    intro pre1 q pre2 h
    simp at h
  | cons p rest ih =>
    intro log
    by_cases hr : isRequester p requesters = true
    · have hd : ∀ l, debitsOf requesters (p :: l) = debitsOf requesters l := by
        intro l
        simp [debitsOf, List.filter_cons, hr]
      have hfail' : ∀ pre : List peer,
          (∀ pre1 q pre2, pre = pre1 ++ q :: pre2 → isRequester q requesters = false →
            swapAdd (log ++ debitsOf requesters pre1) q (-1) = false) →
          ∀ pre1 q pre2, p :: pre = pre1 ++ q :: pre2 → isRequester q requesters = false →
            swapAdd (log ++ debitsOf requesters pre1) q (-1) = false := by
        intro pre hfail pre1 x pre2 hsp hx
        cases pre1 with
        | nil =>
          simp only [List.nil_append, List.cons.injEq] at hsp
          rw [← hsp.1, hr] at hx
          cases hx
        | cons y pre1 =>
          simp only [List.cons_append, List.cons.injEq] at hsp
          rw [← hsp.1, hd]
          exact hfail pre1 x pre2 hsp.2 hx
      rcases ih log with ⟨pre, q, post, hsplit, hq, hok, hfail, hres⟩ | ⟨hfail, hres⟩
      · left
        refine ⟨p :: pre, q, post, by simp [hsplit], hq, by rw [hd]; exact hok,
          hfail' pre hfail, ?_⟩
        simp only [startSearchLoop, hr, if_true, hres, hd]
      · right
        refine ⟨hfail' rest hfail, ?_⟩
        simp only [startSearchLoop, hr, if_true, hres, hd]
    · have hr' : isRequester p requesters = false := by simpa using hr
      by_cases hs : swapAdd log p (-1) = true
      · left
        refine ⟨[], p, rest, rfl, hr', by simpa [debitsOf] using hs, ?_, ?_⟩
        · intro pre1 q pre2 h
          simp at h
        · simp [startSearchLoop, hr', hs, debitsOf]
      · have hs' : swapAdd log p (-1) = false := by simpa using hs
        have hd : ∀ l, log ++ debitsOf requesters (p :: l) =
            log ++ [Event.swapAdd p (-1)] ++ debitsOf requesters l := by
          intro l
          simp [debitsOf, List.filter_cons, hr']
        have hfail' : ∀ pre : List peer,
            (∀ pre1 q pre2, pre = pre1 ++ q :: pre2 → isRequester q requesters = false →
              swapAdd (log ++ [Event.swapAdd p (-1)] ++ debitsOf requesters pre1) q (-1) =
                false) →
            ∀ pre1 q pre2, p :: pre = pre1 ++ q :: pre2 → isRequester q requesters = false →
              swapAdd (log ++ debitsOf requesters pre1) q (-1) = false := by
          intro pre hfail pre1 x pre2 hsp hx
          cases pre1 with
          | nil =>
            simp only [List.nil_append, List.cons.injEq] at hsp
            rw [← hsp.1]
            simpa [debitsOf] using hs'
          | cons y pre1 =>
            simp only [List.cons_append, List.cons.injEq] at hsp
            rw [← hsp.1, hd]
            exact hfail pre1 x pre2 hsp.2 hx
        rcases ih (log ++ [Event.swapAdd p (-1)]) with
          ⟨pre, q, post, hsplit, hq, hok, hfail, hres⟩ | ⟨hfail, hres⟩
        · left
          refine ⟨p :: pre, q, post, by simp [hsplit], hq, by rw [hd]; exact hok,
            hfail' pre hfail, ?_⟩
          simp only [startSearchLoop, hr', hs', hres, hd]
          simp
        · right
          refine ⟨hfail' rest hfail, ?_⟩
          simp only [startSearchLoop, hr', hs', hres, hd]
          simp

/-- C17 (startSearch forwards to the first eligible peer): for a chunk with a request
status, `startSearch` returns with the status set to Searching and the log `log'`
described as follows, `peers` being the list the hive gives for the key of the chunk.
Either `peers = pre ++ p :: post`, `p` is not a recorded requester (under any id), its debit
`swap.Add(-1)` is accepted, and every peer of `pre` that is not a recorded requester had
its debit refused: then `log'` is the old log, the refused debits on `pre`, the debit on
`p` and then the retrieve sent to `p`; no peer of `post` is debited or contacted, and no
recorded requester is.  Or no peer qualifies: then `log'` is the old log and the refused
debits, and nothing is sent. -/
theorem netStore.startSearch_first_eligible (self : netStore) (req : retrieveRequestMsgData)
    (chunk : Chunk) (rs : requestStatus) (hreq : chunk.req = some rs) :
    ∃ log', self.startSearch req chunk = Except.ok
        ({ self.store { chunk with req := some { rs with status := reqSearching } } with
           log := log' },
         { chunk with req := some { rs with status := reqSearching } }) ∧
      ((∃ pre p post, self.hive.getPeers chunk.Key 0 = pre ++ p :: post ∧
          isRequester p rs.requesters = false ∧
          self.swapAdd (self.log ++ debitsOf rs.requesters pre) p (-1) = true ∧
          (∀ pre1 q pre2, pre = pre1 ++ q :: pre2 → isRequester q rs.requesters = false →
            self.swapAdd (self.log ++ debitsOf rs.requesters pre1) q (-1) = false) ∧
          log' = self.log ++ debitsOf rs.requesters pre ++
            [Event.swapAdd p (-1), Event.retrieve p req]) ∨
        ((∀ pre1 q pre2, self.hive.getPeers chunk.Key 0 = pre1 ++ q :: pre2 →
            isRequester q rs.requesters = false →
            self.swapAdd (self.log ++ debitsOf rs.requesters pre1) q (-1) = false) ∧
          log' = self.log ++ debitsOf rs.requesters (self.hive.getPeers chunk.Key 0))) := by
  refine ⟨startSearchLoop self.swapAdd rs.requesters req self.log
    (self.hive.getPeers chunk.Key 0), ?_, ?_⟩
  · simp [netStore.startSearch, hreq, netStore.store]
  · exact startSearchLoop_spec self.swapAdd rs.requesters req
      (self.hive.getPeers chunk.Key 0) self.log

/-- An instance of C17: the hive answers peers 1, 2, 3; peer 1 refuses the debit, peer 2 is a
recorded requester, peer 3 accepts.  Peer 1 is debited in vain, peer 2 is passed over, peer
3 is debited and sent the request. -/
theorem netStore.startSearch_first_eligible_witness :
    ∃ log', netStore.startSearch
        { testStore with swapAdd := fun _ p _ => p.id != 1 } (localRequest [9] 5 7)
        (testPlaceholder [(1, [testRequest 2 1 none])]) = Except.ok
        ({ netStore.store { testStore with swapAdd := fun _ p _ => p.id != 1 }
             { testPlaceholder [(1, [testRequest 2 1 none])] with
               req := some
                 { key := [], status := reqSearching, requesters := [(1, [testRequest 2 1 none])],
                   C := { id := 0, closed := false } } } with
           log := log' },
         { testPlaceholder [(1, [testRequest 2 1 none])] with
           req := some
             { key := [], status := reqSearching, requesters := [(1, [testRequest 2 1 none])],
               C := { id := 0, closed := false } } }) ∧
      log' = [Event.swapAdd (testPeer 1) (-1), Event.swapAdd (testPeer 3) (-1),
              Event.retrieve (testPeer 3) (localRequest [9] 5 7)] := by
  obtain ⟨log', h, hlog⟩ := netStore.startSearch_first_eligible
    { testStore with swapAdd := fun _ p _ => p.id != 1 } (localRequest [9] 5 7)
    (testPlaceholder [(1, [testRequest 2 1 none])]) _ rfl
  refine ⟨log', h, ?_⟩
  have h2 : netStore.startSearch
      { testStore with swapAdd := fun _ p _ => p.id != 1 } (localRequest [9] 5 7)
      (testPlaceholder [(1, [testRequest 2 1 none])]) = Except.ok
      ({ netStore.store { testStore with swapAdd := fun _ p _ => p.id != 1 }
           (testPlaceholder [(1, [testRequest 2 1 none])]) with
         log := [Event.swapAdd (testPeer 1) (-1), Event.swapAdd (testPeer 3) (-1),
                 Event.retrieve (testPeer 3) (localRequest [9] 5 7)] },
       testPlaceholder [(1, [testRequest 2 1 none])]) := rfl
  rw [h2] at h
  have h3 := congrArg (fun r => observeLog (r.map Prod.fst)) h
  simpa [observeLog, Except.map] using h3.symm

/-- A retrieve request for a key that `localStore.Get` finds with data, not a lookup, its
charge accepted and its `MaxSize` zero or (as `int64`) at least the size of the chunk: the
events added are the charge and one Deliver enqueue of a store request to the requester,
with the key and id of the request, the data of the chunk and the timeout of the request
as it came. -/
theorem netStore.addRetrieveRequest_served (self : netStore) (req : retrieveRequestMsgData)
    (now : Nat) (c : Chunk) (data : List Nat)
    (hget : (self.localStore.Get req.Key).2 = some c) (hdata : c.SData = some data)
    (hlookup : req.isLookup = false) (hswap : self.swapAdd self.log req.peer 1 = true)
    (hsize : req.MaxSize = 0 ∨ c.Size ≤ toInt64 req.MaxSize) :
    observeLog (self.addRetrieveRequest req now) =
      some (self.log ++
        [Event.swapAdd req.peer 1,
         Event.addRequest req.peer (syncRequest.store (servedMsg req c)) syncKind.DeliverReq]) := by
  rcases Option.eq_none_or_eq_some c.req with hreq | ⟨rs, hreq⟩
  · simp [netStore.addRetrieveRequest, hlookup, netStore.get, hget, hreq, hdata,
      netStore.strategyUpdateRequest, reqFound, reqSearching, hswap, hsize, netStore.store,
      netStore.emit, observeLog, servedMsg, newRequestStatus, addRequester]
  · simp [netStore.addRetrieveRequest, hlookup, netStore.get, hget, hreq, hdata,
      netStore.strategyUpdateRequest, reqFound, reqSearching, hswap, hsize, netStore.store,
      netStore.emit, observeLog, servedMsg, addRequester]

/-- The method `get` always answers a chunk with a request status, and leaves the log, the
hive and the swap environment untouched. -/
theorem netStore.get_env (self : netStore) (key : Key) :
    (∃ rs, (self.get key).2.req = some rs) ∧ (self.get key).1.log = self.log ∧
    (self.get key).1.hive = self.hive ∧ (self.get key).1.swapAdd = self.swapAdd := by
  rcases Option.eq_none_or_eq_some (self.localStore.memStore key) with hmem | ⟨c, hmem⟩
  · rcases Option.eq_none_or_eq_some (self.localStore.dbStore key) with hdb | ⟨data, hdb⟩
    · simp [netStore.get, localStore.Get, hmem, hdb, netStore.store]
    · simp [netStore.get, localStore.Get, hmem, hdb, netStore.store]
  · rcases Option.eq_none_or_eq_some c.req with hreq | ⟨rs, hreq⟩
    · simp [netStore.get, localStore.Get, hmem, hreq, netStore.store]
    · rw [netStore.get_of_req self key c rs hmem hreq]
      simp [hreq]

/-- The request `strategyUpdateRequest` hands back has the peer of the one handed in. -/
theorem strategyUpdateRequest_peer (r : requestStatus) (req : retrieveRequestMsgData)
    (now : Nat) : (netStore.strategyUpdateRequest (some r) req now).2.peer = req.peer := by
  by_cases h : r.status = reqSearching
  · simp [netStore.strategyUpdateRequest, h, retrieveRequestMsgData.setTimeout]
  · simp [netStore.strategyUpdateRequest, h]

/-- Setting the timeout that `searchTimeout` decides gives the request the earlier of its own
timeout and `now + searchTimeout`, and `now + searchTimeout` when it had none. -/
theorem setTimeout_searchTimeout (req : retrieveRequestMsgData) (now : Nat) :
    req.setTimeout (netStore.searchTimeout req now) =
      { req with timeout := some (clampedTimeout req now) } := by
  simp only [retrieveRequestMsgData.setTimeout, netStore.searchTimeout,
    retrieveRequestMsgData.getTimeout, clampedTimeout]
  cases req.timeout with
  | none => rfl
  | some t =>
    by_cases h : t < now + searchTimeout
    · simp [h, min_eq_left (le_of_lt h)]
    · simp [h, min_eq_right (not_lt.mp h)]

/-- A retrieve request that is not a lookup and whose charge is refused: the only event
added is the charge. -/
theorem netStore.addRetrieveRequest_refused (self : netStore) (req : retrieveRequestMsgData)
    (now : Nat) (hlookup : req.isLookup = false)
    (hswap : self.swapAdd self.log req.peer 1 = false) :
    observeLog (self.addRetrieveRequest req now) =
      some (self.log ++ [Event.swapAdd req.peer 1]) := by
  obtain ⟨⟨rs, hrs⟩, hlog, _, hsw⟩ := netStore.get_env self req.Key
  simp only [netStore.addRetrieveRequest, hlookup, hrs, hlog, hsw, strategyUpdateRequest_peer,
    hswap]
  simp [observeLog, netStore.emit, netStore.store, hlog, strategyUpdateRequest_peer]

/-- A retrieve request that is not a lookup, whose charge is accepted, for a key whose chunk
(as `get` answers it) has no data and a Searching status: the timeout of the request is
clamped, a search is started with it, and `peers` is run on it last. -/
theorem netStore.addRetrieveRequest_searching (self : netStore) (req : retrieveRequestMsgData)
    (now : Nat) (rs : requestStatus) (hlookup : req.isLookup = false)
    (hswap : self.swapAdd self.log req.peer 1 = true)
    (hnil : (self.get req.Key).2.SData = none) (hrs : (self.get req.Key).2.req = some rs)
    (hstatus : rs.status = reqSearching) :
    ∃ s, self.addRetrieveRequest req now =
      Except.ok (netStore.peers s { req with timeout := some (clampedTimeout req now) } now) := by
  obtain ⟨_, hlog, _, hsw⟩ := netStore.get_env self req.Key
  have hnf : ¬ reqSearching = reqFound := by decide
  simp only [netStore.addRetrieveRequest, hlookup, hrs, hnil, hlog, hsw,
    netStore.strategyUpdateRequest, hstatus, setTimeout_searchTimeout, hswap,
    netStore.startSearch, addRequester, ne_eq, not_true_eq_false, if_false, if_true,
    Bool.not_true, Bool.not_false, Option.map_some', Option.some.injEq, hnf, false_and,
    Bool.false_eq_true]
  exact ⟨_, rfl⟩

/-- A retrieve request for a key that `localStore.Get` finds with data, not a lookup, its
charge accepted, whose non-zero `MaxSize` is (as `int64`) below the size of the chunk: no
store request is enqueued; a search is started and `peers` is run on the request last. -/
theorem netStore.addRetrieveRequest_oversize (self : netStore) (req : retrieveRequestMsgData)
    (now : Nat) (c : Chunk) (data : List Nat)
    (hget : (self.localStore.Get req.Key).2 = some c) (hdata : c.SData = some data)
    (hlookup : req.isLookup = false) (hswap : self.swapAdd self.log req.peer 1 = true)
    (hmax : req.MaxSize ≠ 0) (hsize : toInt64 req.MaxSize < c.Size) :
    ∃ s, self.addRetrieveRequest req now = Except.ok (netStore.peers s req now) := by
  have hcond : ¬ (req.MaxSize = 0 ∨ c.Size ≤ toInt64 req.MaxSize) := by
    rintro (h | h)
    · exact hmax h
    · omega
  obtain ⟨⟨rs, hrs⟩, hlog, _, hsw⟩ := netStore.get_env self req.Key
  have hgd : (self.get req.Key).2.SData = some data := by
    rcases Option.eq_none_or_eq_some c.req with hreq | ⟨rs', hreq⟩
    · simp [netStore.get, hget, hreq, hdata]
    · simp [netStore.get, hget, hreq, hdata]
  have hgs : (self.get req.Key).2.Size = c.Size := by
    rcases Option.eq_none_or_eq_some c.req with hreq | ⟨rs', hreq⟩
    · simp [netStore.get, hget, hreq]
    · simp [netStore.get, hget, hreq]
  have hnf : ¬ reqFound = reqSearching := by decide
  simp only [netStore.addRetrieveRequest, hlookup, hrs, hgd, hgs, hlog, hsw,
    netStore.strategyUpdateRequest, hswap, netStore.startSearch, addRequester, ne_eq,
    not_false_eq_true, if_true, if_false, hnf, hcond, and_false,
    Bool.not_true, Bool.not_false, Bool.false_eq_true, reduceCtorEq]
  exact ⟨_, rfl⟩

/-- Appending a requester to the table appends it to the list read under its id. -/
theorem lookup_appendRequester (req : retrieveRequestMsgData) :
    ∀ l : List (Nat × List retrieveRequestMsgData),
      ((appendRequester req l).lookup req.Id).getD [] = (l.lookup req.Id).getD [] ++ [req] := by
  intro l
  induction l with
  | nil => simp [appendRequester, List.lookup]
  | cons e rest ih =>
    obtain ⟨id, list⟩ := e
    by_cases h : id = req.Id
    · simp [appendRequester, h, List.lookup]
    · have h' : (req.Id == id) = false := by
        simp only [beq_eq_false_iff_ne, ne_eq]
        exact fun hh => h hh.symm
      simp [appendRequester, h, List.lookup, h', ih]

/-- Whatever path `addRetrieveRequest` takes for a request that is not a lookup, on a key
held in memStore with a request status, it returns, and the request table of the key has
gained under the id of the request exactly the request `strategyUpdateRequest` handed
back. -/
theorem netStore.addRetrieveRequest_records (self : netStore) (req : retrieveRequestMsgData)
    (now : Nat) (c : Chunk) (rs : requestStatus)
    (hmem : self.localStore.memStore req.Key = some c) (hkey : c.Key = req.Key)
    (hreq : c.req = some rs) (hlookup : req.isLookup = false) :
    ∃ s, self.addRetrieveRequest req now = Except.ok s ∧
      s.requestersOf req.Key req.Id = self.requestersOf req.Key req.Id ++
        [(netStore.strategyUpdateRequest
          (some (if c.SData ≠ none then { rs with status := reqFound } else rs)) req now).2] := by
  have hid : ∀ r : requestStatus, (netStore.strategyUpdateRequest (some r) req now).2.Id =
      req.Id := by
    intro r
    by_cases h : r.status = reqSearching
    · simp [netStore.strategyUpdateRequest, h, retrieveRequestMsgData.setTimeout]
    · simp [netStore.strategyUpdateRequest, h]
  have hold : self.requestersOf req.Key req.Id = (rs.requesters.lookup req.Id).getD [] := by
    simp [netStore.requestersOf, hmem, hreq]
  have hrec : ∀ r : requestStatus, r.requesters = rs.requesters →
      ((appendRequester (netStore.strategyUpdateRequest (some r) req now).2
          r.requesters).lookup req.Id).getD [] =
        self.requestersOf req.Key req.Id ++
          [(netStore.strategyUpdateRequest (some r) req now).2] := by
    intro r hr
    have h := lookup_appendRequester (netStore.strategyUpdateRequest (some r) req now).2
      r.requesters
    rw [hid r] at h
    rw [h, hold, hr]
  have hupd : ∀ r : requestStatus, (netStore.strategyUpdateRequest (some r) req now).1 =
      some { r with requesters :=
        appendRequester (netStore.strategyUpdateRequest (some r) req now).2 r.requesters } := by
    intro r
    simp [netStore.strategyUpdateRequest, addRequester]
  have hrs1 : (if c.SData ≠ none then { rs with status := reqFound } else rs).requesters =
      rs.requesters := by
    split <;> rfl
  simp only [netStore.addRetrieveRequest, hlookup, netStore.get_of_req self req.Key c rs hmem hreq,
    hreq, Bool.not_false, if_true, hupd]
  generalize (if c.SData ≠ none then { rs with status := reqFound } else rs) = r1 at hrs1 ⊢
  by_cases hsw : self.swapAdd self.log
      (netStore.strategyUpdateRequest (some r1) req now).2.peer 1 = true
  · simp only [hsw, Bool.not_true, Bool.false_eq_true, if_false]
    split
    · refine ⟨_, rfl, ?_⟩
      simp only [netStore.requestersOf, netStore.emit, netStore.store, localStore.memPut, hkey,
        Function.update_same]
      exact hrec _ hrs1
    · simp only [netStore.startSearch]
      refine ⟨_, rfl, ?_⟩
      simp only [netStore.requestersOf, netStore.peers_localStore, netStore.emit, netStore.store,
        localStore.memPut, hkey, Function.update_same]
      exact hrec _ hrs1
  · have hsw' : self.swapAdd self.log
        (netStore.strategyUpdateRequest (some r1) req now).2.peer 1 = false := by
      simpa using hsw
    simp only [hsw', Bool.not_false, if_true]
    refine ⟨_, rfl, ?_⟩
    simp only [netStore.requestersOf, netStore.emit, netStore.store, localStore.memPut, hkey,
      Function.update_same]
    exact hrec _ hrs1

/-- C18 as stated fails: on the example store holding the example chunk, a retrieve
request from peer 1 with no timeout and `MaxSize` 0 is served from the local store (charge,
then one Deliver enqueue) and no peers message is sent to the requester. -/
theorem netStore.addRetrieveRequest_peers_counterexample :
    observeLog ((testStore.store (testChunk none)).addRetrieveRequest (testRequest 1 1 none) 5) =
      some [Event.swapAdd (testPeer 1) 1,
        Event.addRequest (testPeer 1)
          (syncRequest.store (servedMsg (testRequest 1 1 none) (testChunk none)))
          syncKind.DeliverReq] ∧
    peersReplies [Event.swapAdd (testPeer 1) 1,
        Event.addRequest (testPeer 1)
          (syncRequest.store (servedMsg (testRequest 1 1 none) (testChunk none)))
          syncKind.DeliverReq] = [] := by
  constructor <;> rfl

/-- C18 amended (when peers is run): `addRetrieveRequest` runs `peers` on the request as its
last step for a self-lookup, and for a request that starts a search (on a key without data
and still Searching, with the timeout clamped; or on a key held with data whose size
exceeds the non-zero `MaxSize`).  For a request served from the local store the events
added are the charge and the Deliver enqueue only, and for a request whose charge is
refused the charge only: `peers` is not run. -/
theorem netStore.addRetrieveRequest_peers (self : netStore) (req : retrieveRequestMsgData)
    (now : Nat) :
    (req.isLookup = true → self.addRetrieveRequest req now = Except.ok (self.peers req now)) ∧
    (req.isLookup = false → self.swapAdd self.log req.peer 1 = true →
      ∀ rs, (self.get req.Key).2.SData = none → (self.get req.Key).2.req = some rs →
        rs.status = reqSearching →
        ∃ s, self.addRetrieveRequest req now = Except.ok
          (netStore.peers s { req with timeout := some (clampedTimeout req now) } now)) ∧
    (req.isLookup = false → self.swapAdd self.log req.peer 1 = true →
      ∀ c data, (self.localStore.Get req.Key).2 = some c → c.SData = some data →
        req.MaxSize ≠ 0 → toInt64 req.MaxSize < c.Size →
        ∃ s, self.addRetrieveRequest req now = Except.ok (netStore.peers s req now)) ∧
    (req.isLookup = false → self.swapAdd self.log req.peer 1 = true →
      ∀ c data, (self.localStore.Get req.Key).2 = some c → c.SData = some data →
        (req.MaxSize = 0 ∨ c.Size ≤ toInt64 req.MaxSize) →
        observeLog (self.addRetrieveRequest req now) =
          some (self.log ++
            [Event.swapAdd req.peer 1,
             Event.addRequest req.peer (syncRequest.store (servedMsg req c))
               syncKind.DeliverReq])) ∧
    (req.isLookup = false → self.swapAdd self.log req.peer 1 = false →
      observeLog (self.addRetrieveRequest req now) =
        some (self.log ++ [Event.swapAdd req.peer 1])) := by
  refine ⟨?_, ?_, ?_, ?_, ?_⟩
  · intro h
    simp [netStore.addRetrieveRequest, h]
  · intro hl hs rs hnil hrs hst
    exact netStore.addRetrieveRequest_searching self req now rs hl hs hnil hrs hst
  · intro hl hs c data hget hdata hmax hsize
    exact netStore.addRetrieveRequest_oversize self req now c data hget hdata hl hs hmax hsize
  · intro hl hs c data hget hdata hsize
    exact netStore.addRetrieveRequest_served self req now c data hget hdata hl hs hsize
  · intro hl hs
    exact netStore.addRetrieveRequest_refused self req now hl hs

/-- An instance of the amended C18: a self-lookup (nil key) from peer 1 on the example
store is answered by `peers` alone. -/
theorem netStore.addRetrieveRequest_peers_witness :
    testStore.addRetrieveRequest { testRequest 1 1 none with Key := [] } 5 =
      Except.ok (testStore.peers { testRequest 1 1 none with Key := [] } 5) :=
  (netStore.addRetrieveRequest_peers testStore { testRequest 1 1 none with Key := [] } 5).1 rfl

/-- C19 fails on the code: on the example store holding the example chunk (size 8), a
retrieve request from peer 1 with `MaxSize` 2^64 - 1, which is at least the size of the
chunk, gets no store request enqueued; a search is started instead, the request being
forwarded to peer 2, because the code compares `int64(MaxSize)`, here -1, with the size. -/
theorem netStore.addRetrieveRequest_maxsize_wraps :
    (testChunk none).Size ≤ ((18446744073709551615 : Nat) : Int) ∧
    toInt64 18446744073709551615 = -1 ∧
    (observeLog ((testStore.store (testChunk none)).addRetrieveRequest
      { testRequest 1 1 none with MaxSize := 18446744073709551615 } 5)).map enqueues =
        some [] ∧
    (observeLog ((testStore.store (testChunk none)).addRetrieveRequest
      { testRequest 1 1 none with MaxSize := 18446744073709551615 } 5)).map retrieves =
        some [(testPeer 2, { testRequest 1 1 none with MaxSize := 18446744073709551615 })] := by
  refine ⟨by decide, by decide, ?_, ?_⟩ <;> rfl

/-- C20 as stated fails.  On the example store: a local `Get` of key [9] opens a searching
placeholder; a store request with eight bytes hashing to [9] fills it and sets it Found; a
retrieve request with `MaxSize` 1, below the size 9, sets the status back to Searching.  The
key now is Searching and holds data, and a retrieve request with timeout 4 s arriving at
instant 5 is recorded with its timeout unchanged, later than `5 + 3 s`: the chunk having
data, the status is set to Found before the timeout is decided. -/
theorem netStore.addRetrieveRequest_clamp_counterexample :
    observeStatus [9]
      (((testStore.Get [9] 1 1).bind (fun r =>
        r.1.addStoreRequest
          { Key := [9], Id := 0, SData := some [9, 0, 0, 0, 0, 0, 0, 0], requestTimeout := none,
            peer := testPeer 2 } 2)).bind (fun s =>
        s.addRetrieveRequest { testRequest 1 1 none with MaxSize := 1 } 3)) =
      some reqSearching ∧
    ((((testStore.Get [9] 1 1).bind (fun r =>
        r.1.addStoreRequest
          { Key := [9], Id := 0, SData := some [9, 0, 0, 0, 0, 0, 0, 0], requestTimeout := none,
            peer := testPeer 2 } 2)).bind (fun s =>
        s.addRetrieveRequest { testRequest 1 1 none with MaxSize := 1 } 3)).bind (fun s =>
        s.addRetrieveRequest (testRequest 3 2 (some 4000000000)) 5)).map
      (fun s => s.requestersOf [9] 2) =
      Except.ok [testRequest 3 2 (some 4000000000)] ∧
    ¬ (4000000000 ≤ 5 + bzz.searchTimeout) := by
  refine ⟨by rfl, by rfl, by decide⟩

/-- C20 amended (timeout clamp): `strategyUpdateRequest` on a Searching status hands back
the request with its timeout set to the earlier of its own timeout and `now + searchTimeout`
(3 s, in nanoseconds), and to `now + searchTimeout` when it had none, so never later than
`now + 3 s` nor than the original; on any other status (Found) it hands the request back
unchanged.  In `addRetrieveRequest`, for a request that is not a lookup on a key held in
memStore with a request status, the request recorded in the table is the clamped one when
the chunk has no data and its status is Searching, and the request as it came when the
chunk has data (the status is then set to Found first) or the status is not Searching. -/
theorem netStore.addRetrieveRequest_clamp (self : netStore) (req : retrieveRequestMsgData)
    (now : Nat) (c : Chunk) (rs : requestStatus)
    (hmem : self.localStore.memStore req.Key = some c) (hkey : c.Key = req.Key)
    (hreq : c.req = some rs) (hlookup : req.isLookup = false) :
    (rs.status = reqSearching →
      (netStore.strategyUpdateRequest (some rs) req now).2 =
        { req with timeout := some (clampedTimeout req now) }) ∧
    (rs.status ≠ reqSearching → (netStore.strategyUpdateRequest (some rs) req now).2 = req) ∧
    (∀ t, req.timeout = some t → clampedTimeout req now = min t (now + 3000000000)) ∧
    (req.timeout = none → clampedTimeout req now = now + 3000000000) ∧
    clampedTimeout req now ≤ now + 3000000000 ∧
    (∀ t, req.timeout = some t → clampedTimeout req now ≤ t) ∧
    (c.SData = none → rs.status = reqSearching →
      ∃ s, self.addRetrieveRequest req now = Except.ok s ∧
        s.requestersOf req.Key req.Id = self.requestersOf req.Key req.Id ++
          [{ req with timeout := some (clampedTimeout req now) }]) ∧
    (c.SData ≠ none ∨ rs.status ≠ reqSearching →
      ∃ s, self.addRetrieveRequest req now = Except.ok s ∧
        s.requestersOf req.Key req.Id = self.requestersOf req.Key req.Id ++ [req]) := by
  have hrec := netStore.addRetrieveRequest_records self req now c rs hmem hkey hreq hlookup
  refine ⟨?_, ?_, ?_, ?_, ?_, ?_, ?_, ?_⟩
  · intro hs
    simp [netStore.strategyUpdateRequest, hs, setTimeout_searchTimeout]
  · intro hs
    simp [netStore.strategyUpdateRequest, hs]
  · intro t ht
    simp [clampedTimeout, ht, bzz.searchTimeout]
  · intro ht
    simp [clampedTimeout, ht, bzz.searchTimeout]
  · unfold clampedTimeout
    cases req.timeout with
    | none => simp [bzz.searchTimeout]
    | some t => simp [bzz.searchTimeout]
  · intro t ht
    simp [clampedTimeout, ht]
  · intro hnil hs
    obtain ⟨s, h1, h2⟩ := hrec
    refine ⟨s, h1, ?_⟩
    rw [h2]
    simp [hnil, netStore.strategyUpdateRequest, hs, setTimeout_searchTimeout]
  · intro h
    obtain ⟨s, h1, h2⟩ := hrec
    refine ⟨s, h1, ?_⟩
    rw [h2]
    have hnf : ¬ reqFound = reqSearching := by decide
    rcases h with h | h
    · simp [h, netStore.strategyUpdateRequest, hnf]
    · by_cases hd : c.SData = none
      · simp [hd, netStore.strategyUpdateRequest, h]
      · simp [hd, netStore.strategyUpdateRequest, hnf]

/-- An instance of the amended C20 at instant 5: a request from peer 1 with timeout 4 s on the searching
example placeholder is recorded with timeout 5 ns + 3 s. -/
theorem netStore.addRetrieveRequest_clamp_witness :
    clampedTimeout (testRequest 1 1 (some 4000000000)) 5 = 3000000005 ∧
    ∃ s, (testStore.store (testPlaceholder [])).addRetrieveRequest
        (testRequest 1 1 (some 4000000000)) 5 = Except.ok s ∧
      s.requestersOf [9] 1 = (testStore.store (testPlaceholder [])).requestersOf [9] 1 ++
        [{ testRequest 1 1 (some 4000000000) with
           timeout := some (clampedTimeout (testRequest 1 1 (some 4000000000)) 5) }] :=
  ⟨by decide,
   (netStore.addRetrieveRequest_clamp (testStore.store (testPlaceholder []))
    (testRequest 1 1 (some 4000000000)) 5 (testPlaceholder []) _
    (by simp [netStore.store, localStore.memPut, testPlaceholder, testRequest]) rfl rfl
    rfl).2.2.2.2.2.2.1 rfl rfl⟩

end bzz

namespace swap

/-- C23 as stated fails: on the example swap, `SetRemote` and `SetParams` make no call on
the payment handlers, while the constructor `New` with the same parameters calls
`in.AutoCash` and `out.AutoDeposit`. -/
theorem Swap.SetParams_SetRemote_counterexample :
    observe ((testSwap 0 testProfile testProfile).SetRemote (some testProfile)) =
      Except.ok (0, []) ∧
    ((testSwap 0 testProfile testProfile).SetParams
      (some ⟨some testProfile, some testStrategy⟩)).calls = [] ∧
    observe (New (some ⟨some testProfile, some testStrategy⟩) ⟨fun _ _ => none⟩
        ⟨fun _ _ => none⟩) =
      Except.ok (0, [Call.AutoCash 300 (some 50), Call.AutoDeposit 300 (some 50) (some 100)]) := by
  refine ⟨rfl, rfl, rfl⟩

/-- C23 amended: `SetParams p` replaces the local parameters by `p` and leaves the balance
and the remote profile as they are.  `SetRemote r`, for a non-nil profile `r`, replaces the
remote profile by `r` and changes nothing else: it calls neither `in.AutoCash` nor
`out.AutoDeposit`.  The constructor `New`, given parameters with a strategy, starts from
balance 0 without remote profile and calls `in.AutoCash` with the auto-cash interval and
threshold, then `out.AutoDeposit` with the auto-deposit interval, threshold and buffer. -/
theorem Swap.SetParams_SetRemote (s : Swap) (p : Option Params) (r : Profile) :
    ((s.SetParams p).local_ = p ∧ (s.SetParams p).balance = s.balance ∧
      (s.SetParams p).remote = s.remote) ∧
    s.SetRemote (some r) = Except.ok { s with remote := some r } ∧
    (∀ l st out in_, p = some l → l.Strategy = some st →
      New p out in_ = Except.ok
        { balance := 0, local_ := p, remote := none, out := out, in_ := in_,
          calls := [Call.AutoCash st.AutoCashInterval st.AutoCashThreshold,
            Call.AutoDeposit st.AutoDepositInterval st.AutoDepositThreshold
              st.AutoDepositBuffer] }) := by
  refine ⟨⟨rfl, rfl, rfl⟩, rfl, ?_⟩
  intro l st out in_ hp hst
  subst hp
  simp [New, Swap.setParams, hst, Swap.call]

/-- An instance of the amended C23: `New` with the example profile and strategy. -/
theorem Swap.SetParams_SetRemote_witness :
    New (some ⟨some testProfile, some testStrategy⟩) ⟨fun _ _ => none⟩ ⟨fun _ _ => none⟩ =
      Except.ok
        { balance := 0, local_ := some ⟨some testProfile, some testStrategy⟩, remote := none,
          out := ⟨fun _ _ => none⟩, in_ := ⟨fun _ _ => none⟩,
          calls := [Call.AutoCash testStrategy.AutoCashInterval testStrategy.AutoCashThreshold,
            Call.AutoDeposit testStrategy.AutoDepositInterval testStrategy.AutoDepositThreshold
              testStrategy.AutoDepositBuffer] } :=
  (Swap.SetParams_SetRemote (testSwap 0 testProfile testProfile)
    (some ⟨some testProfile, some testStrategy⟩) testProfile).2.2 _ _ _ _ rfl rfl

/-- C24 as stated fails: on the example swap a second `Stop` calls `out.Stop` and `in.Stop`
again, so two calls of `Stop` leave four calls on the handlers where one leaves two. -/
theorem Swap.Stop_twice_counterexample :
    (testSwap 0 testProfile testProfile).Stop.calls = [Call.OutStop, Call.InStop] ∧
    (testSwap 0 testProfile testProfile).Stop.Stop.calls =
      [Call.OutStop, Call.InStop, Call.OutStop, Call.InStop] := by
  constructor <;> rfl

/-- C24 amended: `Stop` calls `out.Stop` and then `in.Stop`, and changes nothing else:
balance, local parameters and remote profile are as before.  A second `Stop` calls both
handlers once more and again changes nothing else. -/
theorem Swap.Stop_twice (s : Swap) :
    s.Stop = { s with calls := s.calls ++ [Call.OutStop, Call.InStop] } ∧
    s.Stop.Stop =
      { s with calls := s.calls ++ [Call.OutStop, Call.InStop, Call.OutStop, Call.InStop] } := by
  constructor <;> simp [Swap.Stop, Swap.call]

/-- A normal return of `send` leaves the parameters, the profile and the handlers as they
are. -/
theorem Swap.send_frame (s s' : Swap) (h : s.send = Except.ok s') :
    s'.local_ = s.local_ ∧ s'.remote = s.remote ∧ s'.out = s.out ∧ s'.in_ = s.in_ := by
  unfold Swap.send at h
  split at h
  · cases h
  · split at h
    · cases h
    · split at h
      · split at h
        · cases h
        · split at h
          · cases h
          · simp only at h
            split at h <;> cases h <;> exact ⟨rfl, rfl, rfl, rfl⟩
      · cases h
        exact ⟨rfl, rfl, rfl, rfl⟩

/-- A normal return of `Add` leaves the parameters, the profile and the handlers as they
are. -/
theorem Swap.Add_frame (s s' : Swap) (n : Int) (h : s.Add n = Except.ok s') :
    s'.local_ = s.local_ ∧ s'.remote = s.remote ∧ s'.out = s.out ∧ s'.in_ = s.in_ := by
  unfold Swap.Add at h
  simp only at h
  split at h
  · cases h
  · split at h
    · cases h
    · split at h
      · cases h
        exact ⟨rfl, rfl, rfl, rfl⟩
      · split at h
        · cases h
        · split at h
          · exact Swap.send_frame { s with balance := wrapInt (s.balance + n) } s' h
          · cases h
            exact ⟨rfl, rfl, rfl, rfl⟩

/-- With local profile and remote profile set, the drop threshold below `2 ^ 63`,
`local.BuyAt` not nil and `out.Issue` never failing, the balance after a normal return of
`Add` is 0 or above `-remote.PayAt`. -/
theorem Swap.Add_bound (s s' : Swap) (n : Int) (l : Params) (lp r : Profile)
    (hl : s.local_ = some l) (hlp : l.Profile = some lp) (hr : s.remote = some r)
    (hD : lp.DropAt < 2 ^ 63)
    (hbuy : lp.BuyAt ≠ none) (hissue : ∀ log a, s.out.Issue log a ≠ none)
    (h : s.Add n = Except.ok s') :
    s'.balance = 0 ∨ -(r.PayAt : Int) < s'.balance := by
  have hpay : (0 : Int) ≤ (r.PayAt : Int) := Int.ofNat_nonneg _
  have hdrop : (0 : Int) ≤ (lp.DropAt : Int) := Int.ofNat_nonneg _
  have hrange := wrapInt_range (s.balance + n)
  by_cases hd : intOfUint lp.DropAt ≤ wrapInt (s.balance + n)
  · rw [Swap.Add_eq_drop s n l lp hl hlp hd] at h
    cases h
    show wrapInt (s.balance + n) = 0 ∨ -(r.PayAt : Int) < wrapInt (s.balance + n)
    rw [intOfUint_low _ hD] at hd
    omega
  · by_cases hp : wrapInt (s.balance + n) ≤ wrapInt (-(intOfUint r.PayAt))
    · rw [Swap.Add_eq_send s n l lp r hl hlp hr (not_le.mp hd) hp] at h
      by_cases hc : lp.BuyAt ≠ none ∧ wrapInt (s.balance + n) < 0
      · rcases Option.eq_none_or_eq_some r.SellAt with hs | ⟨sell, hs⟩
        · simp only [Swap.send, hl, hlp, hr, hs, if_pos hc] at h
          cases h
        · rcases Option.eq_none_or_eq_some
            (s.out.Issue s.calls (wrapInt (-wrapInt (s.balance + n)) * sell)) with hi | ⟨p, hi⟩
          · exact absurd hi (hissue _ _)
          · simp only [Swap.send, hl, hlp, hr, hs, hi, if_pos hc] at h
            cases h
            exact Or.inl rfl
      · simp only [Swap.send, hl, hlp, if_neg hc] at h
        cases h
        show wrapInt (s.balance + n) = 0 ∨ -(r.PayAt : Int) < wrapInt (s.balance + n)
        have : ¬ wrapInt (s.balance + n) < 0 := fun hneg => hc ⟨hbuy, hneg⟩
        omega
    · rw [Swap.Add_eq_quiet s n l lp r hl hlp hr (not_le.mp hd) (not_le.mp hp)] at h
      cases h
      show wrapInt (s.balance + n) = 0 ∨ -(r.PayAt : Int) < wrapInt (s.balance + n)
      by_cases hP : r.PayAt ≤ 2 ^ 63
      · rw [payLevel_low _ hP] at hp
        omega
      · omega

/-- One step of a run (an `Add` or a successful `Receive`) keeps the parameters, the profile
and the handlers, and ends with the balance at 0 or above `-remote.PayAt`. -/
theorem Swap.step_bound (s s' : Swap) (op : Op) (l : Params) (lp r : Profile)
    (hl : s.local_ = some l) (hlp : l.Profile = some lp) (hr : s.remote = some r)
    (hD : lp.DropAt < 2 ^ 63)
    (hbuy : lp.BuyAt ≠ none) (hissue : ∀ log a, s.out.Issue log a ≠ none)
    (h : s.step op = some s') :
    (s'.local_ = s.local_ ∧ s'.remote = s.remote ∧ s'.out = s.out) ∧
      (s'.balance = 0 ∨ -(r.PayAt : Int) < s'.balance) := by
  cases op with
  | add n =>
    simp only [Swap.step] at h
    split at h
    · rename_i s1 h1
      have hs : s1 = s' := by simpa using h
      rw [← hs]
      obtain ⟨f1, f2, f3, _⟩ := Swap.Add_frame s s1 n h1
      exact ⟨⟨f1, f2, f3⟩, Swap.Add_bound s s1 n l lp r hl hlp hr hD hbuy hissue h1⟩
    · cases h
  | receive units promise =>
    simp only [Swap.step] at h
    split at h
    · rename_i s1 h1
      have hs : s1 = s' := by simpa using h
      rw [← hs]
      by_cases hu : units ≤ 0
      · simp [Swap.Receive, hu] at h1
      · rcases Option.eq_none_or_eq_some lp.SellAt with hsell | ⟨sell, hsell⟩
        · simp [Swap.Receive, hu, hl, hlp, hsell] at h1
        · rcases Option.eq_none_or_eq_some (s.in_.Receive s.calls promise) with hv | ⟨a, hv⟩
          · simp [Swap.Receive, hu, hl, hlp, hsell, hv] at h1
          · by_cases ha : units * sell = a
            · simp only [Swap.Receive, hl, hlp, hsell, hv, if_neg hu, ne_eq, ha,
                not_true_eq_false, if_false] at h1
              rcases hadd : (s.call (Call.Receive promise)).Add (-units) with e | s2
              · rw [hadd] at h1
                cases h1
              · rw [hadd] at h1
                have hs2 : s2 = s1 := by simpa using h1
                rw [hs2] at hadd
                obtain ⟨f1, f2, f3, _⟩ := Swap.Add_frame _ s1 (-units) hadd
                exact ⟨⟨f1, f2, f3⟩,
                  Swap.Add_bound (s.call (Call.Receive promise)) s1 (-units) l lp r hl hlp hr
                    hD hbuy hissue hadd⟩
            · simp [Swap.Receive, hu, hl, hlp, hsell, hv, ha] at h1
    · cases h

/-- A non-empty run of `Add` calls and successful `Receive` calls ends with the balance at 0
or above `-remote.PayAt`. -/
theorem Swap.steps_bound (l : Params) (lp r : Profile) (hlp : l.Profile = some lp)
    (hD : lp.DropAt < 2 ^ 63) (hbuy : lp.BuyAt ≠ none) (ops : List Op) :
    ∀ s s' : Swap, s.local_ = some l → s.remote = some r →
      (∀ log a, s.out.Issue log a ≠ none) → ops ≠ [] → s.steps ops = some s' →
      s'.balance = 0 ∨ -(r.PayAt : Int) < s'.balance := by
  induction ops with
  | nil => intro s s' _ _ _ hne; exact absurd rfl hne
  | cons op rest ih =>
    intro s s' hl hr hissue _ h
    simp only [Swap.steps] at h
    rcases hstep : s.step op with _ | s1
    · rw [hstep] at h
      cases h
    · rw [hstep] at h
      obtain ⟨⟨f1, f2, f3⟩, hb⟩ := Swap.step_bound s s1 op l lp r hl hlp hr hD hbuy hissue hstep
      cases rest with
      | nil =>
        simp only [Swap.steps, Option.some.injEq] at h
        rw [← h]
        exact hb
      | cons op2 rest2 =>
        exact ih s1 s' (f1.trans hl) (f2.trans hr) (by rw [f3]; exact hissue)
          (List.cons_ne_nil _ _) h

/-- With a drop threshold below `2 ^ 63`, C29 holds of the code: with the remote profile
set, `local.BuyAt` not nil and `out.Issue` never failing, the balance `b` after `Add n` is 0
or above `-remote.PayAt`, for every `n`; `Add` does return when the remote sale price is
set; and the bound holds at the end of every non-empty run of `Add` calls and successful
`Receive` calls, hence after each of its steps. -/
theorem Swap.Add_debt_bound_inrange (s : Swap) (l : Params) (lp r : Profile)
    (hl : s.local_ = some l) (hlp : l.Profile = some lp) (hr : s.remote = some r)
    (hD : lp.DropAt < 2 ^ 63)
    (hbuy : lp.BuyAt ≠ none) (hissue : ∀ log a, s.out.Issue log a ≠ none) :
    (∀ n s', s.Add n = Except.ok s' → s'.balance = 0 ∨ -(r.PayAt : Int) < s'.balance) ∧
    (∀ n sell, r.SellAt = some sell →
      ∃ s', s.Add n = Except.ok s' ∧ (s'.balance = 0 ∨ -(r.PayAt : Int) < s'.balance)) ∧
    (∀ ops s', ops ≠ [] → s.steps ops = some s' →
      s'.balance = 0 ∨ -(r.PayAt : Int) < s'.balance) := by
  refine ⟨?_, ?_, ?_⟩
  · intro n s' h
    exact Swap.Add_bound s s' n l lp r hl hlp hr hD hbuy hissue h
  · intro n sell hsell
    obtain ⟨s', h⟩ := Swap.Add_returns s n l lp r sell hl hlp hr hsell
    exact ⟨s', h, Swap.Add_bound s s' n l lp r hl hlp hr hD hbuy hissue h⟩
  · intro ops s' hne h
    exact Swap.steps_bound l lp r hlp hD hbuy ops s s' hl hr hissue hne h

/-- C29 fails on the code for a drop threshold from `2 ^ 63` on: with the remote profile
set, whatever `local.BuyAt` and the answers of `out.Issue`, an `Add n` whose new balance
`b = balance + n` is negative, at or below `-remote.PayAt` and at or above
`int(local.DropAt) = DropAt - 2 ^ 64` calls `proto.Drop` and pays nothing: the balance after
it is `b`, which is neither 0 nor above `-remote.PayAt`. -/
theorem Swap.Add_debt_wraps (s : Swap) (n : Int) (l : Params) (lp r : Profile)
    (hl : s.local_ = some l) (hlp : l.Profile = some lp) (hr : s.remote = some r)
    (hD1 : 2 ^ 63 ≤ lp.DropAt) (hD2 : lp.DropAt < 2 ^ 64)
    (hb : (lp.DropAt : Int) - 2 ^ 64 ≤ s.balance + n) (hneg : s.balance + n < 0)
    (hpay : s.balance + n ≤ -(r.PayAt : Int)) :
    ∃ s', s.Add n = Except.ok s' ∧ s'.remote = some r ∧ s'.calls = s.calls ++ [Call.Drop] ∧
      s'.balance = s.balance + n ∧ ¬ (s'.balance = 0 ∨ -(r.PayAt : Int) < s'.balance) := by
  have hw : wrapInt (s.balance + n) = s.balance + n :=
    wrapInt_of_range _ (by omega) (by omega)
  refine ⟨_, Swap.Add_eq_drop s n l lp hl hlp
    (by rw [hw, intOfUint_high _ hD1 hD2]; exact hb), hr, rfl, hw, ?_⟩
  show ¬ (wrapInt (s.balance + n) = 0 ∨ -(r.PayAt : Int) < wrapInt (s.balance + n))
  rw [hw]
  omega

/-- The failing input of C29: the example swap (pay threshold 10, every cheque issued) at
balance 0 with the local drop threshold at `2 ^ 63`; `Add (-100)` calls `proto.Drop` and
leaves the balance at -100. -/
theorem Swap.Add_debt_wraps_witness :
    ∃ s', (testSwap 0 { testProfile with DropAt := 2 ^ 63 } testProfile).Add (-100) =
        Except.ok s' ∧
      s'.remote = some testProfile ∧ s'.calls = [] ++ [Call.Drop] ∧ s'.balance = 0 + -100 ∧
      ¬ (s'.balance = 0 ∨ -((10 : Nat) : Int) < s'.balance) :=
  Swap.Add_debt_wraps (testSwap 0 { testProfile with DropAt := 2 ^ 63 } testProfile) (-100)
    ⟨some { testProfile with DropAt := 2 ^ 63 }, none⟩ { testProfile with DropAt := 2 ^ 63 }
    testProfile rfl rfl rfl (by decide) (by decide) (by decide) (by decide) (by decide)

/-- C30 as stated fails: a swap built by `New` and given by `SetRemote` a non-nil remote
profile whose sale price is nil (pay threshold 0) panics in `Add (-1)`: the new balance -1
is below the drop threshold and at the pay threshold, `local.BuyAt` is set, and `send`
multiplies by the nil `remote.SellAt`. -/
theorem Swap.Add_nil_profile_counterexample :
    observe
      (match New (some ⟨some testProfile, some testStrategy⟩) ⟨fun _ a => some a.toNat⟩
          ⟨fun _ _ => none⟩ with
       | Except.error e => Except.error e
       | Except.ok s =>
         match s.SetRemote (some { testProfile with SellAt := none, PayAt := 0 }) with
         | Except.error e => Except.error e
         | Except.ok s1 => s1.Add (-1)) =
      Except.error
        (-1, [Call.AutoCash 300 (some 50), Call.AutoDeposit 300 (some 50) (some 100)]) := by
  rfl

/-- C30 amended: a swap built by `New` has balance 0 and no remote profile.  With its local
profile present and `local.DropAt` below `2 ^ 63`, `Add n` on it, for an `int` `n`, returns
normally if and only if `n` reaches `local.DropAt`; below it `Add` reads the nil remote
profile and panics.  Once `SetRemote` has been called with a non-nil profile whose sale
price is set, `Add n` returns normally for every `n`, and so does every `Add` after it. -/
theorem Swap.Add_nil_profile (p : Option Params) (out : OutPayment) (in_ : InPayment)
    (s : Swap) (l : Params) (lp : Profile)
    (hnew : New p out in_ = Except.ok s) (hp : p = some l) (hlp : l.Profile = some lp) :
    (s.balance = 0 ∧ s.remote = none ∧ s.local_ = p) ∧
    (lp.DropAt < 2 ^ 63 → ∀ n : Int, -2 ^ 63 ≤ n → n < 2 ^ 63 →
      ((∃ s', s.Add n = Except.ok s') ↔ (lp.DropAt : Int) ≤ n)) ∧
    (∀ r sell, r.SellAt = some sell →
      ∃ s1, s.SetRemote (some r) = Except.ok s1 ∧
        ∀ ns : List Int, ∃ s', s1.AddAll ns = Except.ok s') := by
  subst hp
  have hs : s.balance = 0 ∧ s.remote = none ∧ s.local_ = some l := by
    rcases Option.eq_none_or_eq_some l.Strategy with hst | ⟨st, hst⟩
    · simp [New, Swap.setParams, hst] at hnew
    · simp only [New, Swap.setParams, hst, Swap.call, Except.ok.injEq] at hnew
      rw [← hnew]
      exact ⟨rfl, rfl, rfl⟩
  obtain ⟨hb, hr, hl⟩ := hs
  refine ⟨⟨hb, hr, hl⟩, ?_, ?_⟩
  · intro hD n hn1 hn2
    have hw : wrapInt (s.balance + n) = n := by
      rw [hb, zero_add]
      exact wrapInt_of_range _ hn1 hn2
    by_cases hd : (lp.DropAt : Int) ≤ n
    · simp [Swap.Add, hl, hlp, hw, intOfUint_low _ hD, hd]
    · simp [Swap.Add, hl, hlp, hw, intOfUint_low _ hD, hd, hr]
  · intro r sell hsell
    refine ⟨{ s with remote := some r }, rfl, ?_⟩
    intro ns
    have hall : ∀ (ns : List Int) (s0 : Swap), s0.local_ = some l → s0.remote = some r →
        ∃ s', s0.AddAll ns = Except.ok s' := by
      intro ns
      induction ns with
      | nil => intro s0 _ _; exact ⟨s0, rfl⟩
      | cons n rest ih =>
        intro s0 h0l h0r
        obtain ⟨s1, h1⟩ := Swap.Add_returns s0 n l lp r sell h0l hlp h0r hsell
        obtain ⟨f1, f2, _, _⟩ := Swap.Add_frame s0 s1 n h1
        simp only [Swap.AddAll, h1]
        exact ih s1 (f1.trans h0l) (f2.trans h0r)
    exact hall ns _ hl rfl

/-- An instance of the amended C30: the swap built by `New` from the example profile (drop
threshold 100) returns from `Add 100`, and once given the example remote profile it returns
from any run of `Add` calls. -/
theorem Swap.Add_nil_profile_witness :
    ((∃ s', Swap.Add
        { balance := 0, local_ := some ⟨some testProfile, some testStrategy⟩, remote := none,
          out := ⟨fun _ _ => none⟩, in_ := ⟨fun _ _ => none⟩,
          calls := [Call.AutoCash 300 (some 50), Call.AutoDeposit 300 (some 50) (some 100)] }
        100 = Except.ok s') ↔ ((testProfile.DropAt : Nat) : Int) ≤ 100) :=
  (Swap.Add_nil_profile (some ⟨some testProfile, some testStrategy⟩) ⟨fun _ _ => none⟩
    ⟨fun _ _ => none⟩ _ ⟨some testProfile, some testStrategy⟩ testProfile rfl rfl
    rfl).2.1 (by decide) 100 (by decide) (by decide)

end swap

namespace bzz

/-- C21 (peers reply): for a request with `MaxPeers >= 0` whose timeout is nil or after
`now`, `peers` adds exactly one event, a peers message to the requesting peer with the id
and the timeout of the request and the addresses of `hive.getPeers k MaxPeers` in hive
order: for a zero key (nil, or 32 zero bytes) `k` is the address of the requester and the
key sent is nil; otherwise `k` and the key sent are the key of the request.  When the
timeout is at or before `now`, `peers` returns the netStore unchanged: nothing is sent. -/
theorem netStore.peers_reply (self : netStore) (req : retrieveRequestMsgData) (now : Nat) :
    (0 ≤ req.MaxPeers → (req.timeout = none ∨ ∃ t, req.timeout = some t ∧ now < t) →
      isZeroKey req.Key = true →
      self.peers req now = self.emit
        [Event.peers req.peer
          { Peers := (self.hive.getPeers req.peer.addr req.MaxPeers).map peer.remoteAddr,
            Key := [], Id := req.Id, timeout := req.timeout }]) ∧
    (0 ≤ req.MaxPeers → (req.timeout = none ∨ ∃ t, req.timeout = some t ∧ now < t) →
      isZeroKey req.Key = false →
      self.peers req now = self.emit
        [Event.peers req.peer
          { Peers := (self.hive.getPeers req.Key req.MaxPeers).map peer.remoteAddr,
            Key := req.Key, Id := req.Id, timeout := req.timeout }]) ∧
    (∀ t, req.timeout = some t → t ≤ now → self.peers req now = self) ∧
    (isZeroKey req.Key = true ↔ (req.Key = [] ∨ req.Key = zeroKey)) := by
  refine ⟨?_, ?_, ?_, ?_⟩
  · intro hm hlive hz
    have ha : alive now req = true := (alive_iff now req).mpr hlive
    simp [netStore.peers, hm, ha, hz]
  · intro hm hlive hz
    have ha : alive now req = true := (alive_iff now req).mpr hlive
    simp [netStore.peers, hm, ha, hz]
  · intro t ht hle
    have ha : alive now req = false := by
      simp [alive, ht, hle]
    simp [netStore.peers, ha]
  · simp [isZeroKey]

/-- An instance of C21 on the example store at instant 5: a self-lookup (nil key) of peer 4
asking for 2 peers, with timeout 9. -/
theorem netStore.peers_reply_witness :
    testStore.peers { testRequest 4 7 (some 9) with Key := [], MaxPeers := 2 } 5 =
      testStore.emit
        [Event.peers (testPeer 4)
          { Peers := (testStore.hive.getPeers (testPeer 4).addr 2).map peer.remoteAddr,
            Key := [], Id := 7, timeout := some 9 }] :=
  (netStore.peers_reply testStore { testRequest 4 7 (some 9) with Key := [], MaxPeers := 2 }
    5).1 (by decide) (Or.inr ⟨9, rfl, by decide⟩) rfl

/-- C22 fails on the code: for a request that is not a lookup, on a key held in memStore
with a request status, whose charge is refused, `addRetrieveRequest` returns having added
the charge as only event (no enqueue, no search, no peers message), but the request table
of the key has gained the request under its id. -/
theorem netStore.addRetrieveRequest_refused_recorded (self : netStore)
    (req : retrieveRequestMsgData) (now : Nat) (c : Chunk) (rs : requestStatus)
    (hmem : self.localStore.memStore req.Key = some c) (hkey : c.Key = req.Key)
    (hreq : c.req = some rs) (hlookup : req.isLookup = false)
    (hswap : self.swapAdd self.log req.peer 1 = false) :
    ∃ s, self.addRetrieveRequest req now = Except.ok s ∧
      s.log = self.log ++ [Event.swapAdd req.peer 1] ∧
      s.requestersOf req.Key req.Id = self.requestersOf req.Key req.Id ++
        [(netStore.strategyUpdateRequest
          (some (if c.SData ≠ none then { rs with status := reqFound } else rs)) req now).2] := by
  obtain ⟨s, h1, h2⟩ := netStore.addRetrieveRequest_records self req now c rs hmem hkey hreq
    hlookup
  have h3 := netStore.addRetrieveRequest_refused self req now hlookup hswap
  rw [h1] at h3
  simp only [observeLog, Option.some.injEq] at h3
  exact ⟨s, h1, h3, h2⟩

/-- The failing input of C22: the example store refusing every charge, holding the
searching example placeholder; a retrieve request from peer 1 under id 1 is recorded
although its charge is refused, and a store request with valid data arriving afterwards
is delivered to peer 1. -/
theorem netStore.addRetrieveRequest_refused_recorded_witness :
    (∃ s, netStore.addRetrieveRequest
        { testStore.store (testPlaceholder []) with swapAdd := fun _ _ _ => false }
        (testRequest 1 1 none) 5 = Except.ok s ∧
      s.log = [] ++ [Event.swapAdd (testPeer 1) 1] ∧
      s.requestersOf [9] 1 =
        netStore.requestersOf
            { testStore.store (testPlaceholder []) with swapAdd := fun _ _ _ => false } [9] 1 ++
          [(netStore.strategyUpdateRequest
            (some (if (testPlaceholder []).SData ≠ none then
                { key := [], status := reqFound, requesters := [],
                  C := { id := 0, closed := false } }
              else
                { key := [], status := reqSearching, requesters := [],
                  C := { id := 0, closed := false } }))
            (testRequest 1 1 none) 5).2]) ∧
    observeLog
      (match netStore.addRetrieveRequest
          { testStore.store (testPlaceholder []) with swapAdd := fun _ _ _ => false }
          (testRequest 1 1 none) 5 with
       | Except.error e => Except.error e
       | Except.ok s =>
         s.addStoreRequest
           { Key := [9], Id := 0, SData := some [9, 0, 0, 0, 0, 0, 0, 0], requestTimeout := none,
             peer := testPeer 2 } 6) =
      some [Event.swapAdd (testPeer 1) 1, Event.close 0,
        Event.addRequest (testPeer 1)
          (syncRequest.store
            { Key := [9], Id := 1, SData := some [9, 0, 0, 0, 0, 0, 0, 0],
              requestTimeout := none, peer := default })
          syncKind.DeliverReq] :=
  ⟨netStore.addRetrieveRequest_refused_recorded
    { testStore.store (testPlaceholder []) with swapAdd := fun _ _ _ => false }
    (testRequest 1 1 none) 5 (testPlaceholder []) _
    (by simp [netStore.store, localStore.memPut, testPlaceholder, testRequest]) rfl rfl rfl rfl,
   by rfl⟩

/-- For an id of the table, a map with distinct ids, the deliveries made under that id are
those to the first three live requesters of its list, in order. -/
theorem filter_deliverAll_mem (chunk : Chunk) (now id : Nat) (l : List retrieveRequestMsgData) :
    ∀ table : List (Nat × List retrieveRequestMsgData), (table.map Prod.fst).Nodup →
      (id, l) ∈ table →
      (deliverAll chunk now table).filter (isDeliveryFor id) =
        ((l.filter (alive now)).take 3).map (deliveryTo chunk id) := by
  intro table
  induction table with
  | nil => intro _ h; cases h
  | cons e rest ih =>
    intro hnd hmem
    obtain ⟨id', l'⟩ := e
    simp only [List.map_cons, List.nodup_cons] at hnd
    rw [deliverAll, List.filter_append, deliverTo_eq chunk id' now l' requesterCount (by decide),
      filter_deliveryTo]
    rcases List.mem_cons.mp hmem with h | h
    · cases h
      rw [if_pos rfl, filter_deliverAll_absent chunk now id rest hnd.1, List.append_nil]
      rfl
    · have hne : ¬ id' = id := by
        intro hh
        apply hnd.1
        rw [hh]
        exact List.mem_map.mpr ⟨(id, l), h, rfl⟩
      rw [if_neg hne, List.nil_append]
      exact ih hnd.2 h

/-- C25 (delivery order): one run of `deliver` at instant `now` returns, and for every id of
the request table (a map: distinct ids) with requester list `l`, the enqueues it makes under
that id are, in order, those to the first `min 3 k` requesters of the sub-list of `l` whose
timeout is nil or after `now`, `k` being the length of that sub-list; each message carries
the key and the data of the chunk and that id. -/
theorem netStore.deliver_order (self : netStore) (chunk : Chunk) (now : Nat)
    (rs : requestStatus) (hreq : chunk.req = some rs)
    (hmap : (rs.requesters.map Prod.fst).Nodup) :
    ∃ es, self.deliver chunk now = Except.ok (self.emit es) ∧
      ∀ id l, (id, l) ∈ rs.requesters →
        es.filter (isDeliveryFor id) =
          ((l.filter (fun req =>
              decide (req.timeout = none ∨ ∃ t, req.timeout = some t ∧ now < t))).take 3).map
            (fun req => Event.addRequest req.peer
              (syncRequest.store
                { Key := chunk.Key, SData := chunk.SData, Id := id, requestTimeout := none,
                  peer := default })
              syncKind.DeliverReq) ∧
        (es.filter (isDeliveryFor id)).length =
          min 3 (l.filter (fun req =>
            decide (req.timeout = none ∨ ∃ t, req.timeout = some t ∧ now < t))).length := by
  have hf : (fun req : retrieveRequestMsgData =>
      decide (req.timeout = none ∨ ∃ t, req.timeout = some t ∧ now < t)) = alive now := by
    funext req
    rw [Bool.eq_iff_iff]
    simp only [decide_eq_true_eq]
    exact (alive_iff now req).symm
  refine ⟨deliverAll chunk now rs.requesters, by simp [netStore.deliver, hreq], ?_⟩
  intro id l hmem
  have h := filter_deliverAll_mem chunk now id l rs.requesters hmap hmem
  rw [hf, h]
  refine ⟨rfl, ?_⟩
  simp [List.length_take]

/-- An instance of C25 at instant 5: under id 1, requesters of peers 1, 2 (expired), 3, 4
and 5 in that order; the deliveries go to peers 1, 3 and 4. -/
theorem netStore.deliver_order_witness :
    ∃ es, testStore.deliver
        (testPlaceholder
          [(1, [testRequest 1 1 none, testRequest 2 1 (some 5), testRequest 3 1 (some 9),
                testRequest 4 1 none, testRequest 5 1 none])]) 5 =
        Except.ok (testStore.emit es) ∧
      es.filter (isDeliveryFor 1) =
        [deliveryTo (testPlaceholder []) 1 (testRequest 1 1 none),
         deliveryTo (testPlaceholder []) 1 (testRequest 3 1 (some 9)),
         deliveryTo (testPlaceholder []) 1 (testRequest 4 1 none)] := by
  obtain ⟨es, h1, h2⟩ := netStore.deliver_order testStore
    (testPlaceholder
      [(1, [testRequest 1 1 none, testRequest 2 1 (some 5), testRequest 3 1 (some 9),
            testRequest 4 1 none, testRequest 5 1 none])]) 5 _ rfl (by decide)
  refine ⟨es, h1, ?_⟩
  rw [(h2 1 _ (List.mem_singleton.mpr rfl)).1]
  rfl

/-- Appending a requester leaves the lists under the other ids as they are. -/
theorem lookup_appendRequester_ne (req : retrieveRequestMsgData) (id : Nat)
    (hne : id ≠ req.Id) :
    ∀ l : List (Nat × List retrieveRequestMsgData),
      (appendRequester req l).lookup id = l.lookup id := by
  intro l
  induction l with
  | nil =>
    have h : (id == req.Id) = false := by simpa using hne
    simp [appendRequester, List.lookup, h]
  | cons e rest ih =>
    obtain ⟨id', list⟩ := e
    by_cases h : id' = req.Id
    · have h' : (id == id') = false := by
        rw [h]
        simpa using hne
      rw [appendRequester, if_pos h]
      simp only [List.lookup, h']
    · rw [appendRequester, if_neg h]
      by_cases h2 : id = id'
      · have h' : (id == id') = true := by simpa using h2
        simp only [List.lookup, h']
      · have h' : (id == id') = false := by simpa using h2
        simp only [List.lookup, h', ih]

/-- C26 fails on the code: `addRequester` appends the request to the list under its id
whatever the length of that list, so the list grows by one also when three requesters are
already recorded; the lists under other ids are left as they are. -/
theorem addRequester_no_cap (rs : requestStatus) (req : retrieveRequestMsgData) :
    ((addRequester rs req).requesters.lookup req.Id).getD [] =
      (rs.requesters.lookup req.Id).getD [] ++ [req] ∧
    (((addRequester rs req).requesters.lookup req.Id).getD []).length =
      ((rs.requesters.lookup req.Id).getD []).length + 1 ∧
    (∀ id, id ≠ req.Id →
      (addRequester rs req).requesters.lookup id = rs.requesters.lookup id) := by
  have h := lookup_appendRequester req rs.requesters
  refine ⟨h, ?_, ?_⟩
  · simp only [addRequester, h, List.length_append, List.length_singleton]
  · intro id hne
    exact lookup_appendRequester_ne req id hne rs.requesters

/-- The failing input of C26: three requesters recorded under id 1, and a fourth request
under id 1 from peer 4; afterwards four are recorded. -/
theorem addRequester_no_cap_witness :
    (((addRequester
        { key := [], status := reqSearching,
          requesters := [(1, [testRequest 1 1 none, testRequest 2 1 none, testRequest 3 1 none])],
          C := { id := 0, closed := false } }
        (testRequest 4 1 none)).requesters.lookup 1).getD []).length = 3 + 1 :=
  (addRequester_no_cap
    { key := [], status := reqSearching,
      requesters := [(1, [testRequest 1 1 none, testRequest 2 1 none, testRequest 3 1 none])],
      C := { id := 0, closed := false } }
    (testRequest 4 1 none)).2.1

end bzz

namespace storage

/-- After a `Get`, the memory store holds the returned chunk under the key. -/
theorem NetStore.Get_memStore (self : NetStore) (key : Key) :
    (self.Get key).1.localStore.memStore key = some (self.Get key).2 := by
  rcases Option.eq_none_or_eq_some (self.localStore.memStore key) with hm | ⟨c, hm⟩
  · rcases Option.eq_none_or_eq_some (self.localStore.dbStore key) with hd | ⟨d, hd⟩
    · simp [NetStore.Get, LocalStore.Get, hm, hd, LocalStore.memPut, NewChunk]
    · simp [NetStore.Get, LocalStore.Get, hm, hd, LocalStore.memPut]
  · simp [NetStore.Get, LocalStore.Get, hm]

/-- A `Get` for a key whose chunk the memory store holds returns that chunk and leaves the
store as it is. -/
theorem NetStore.Get_hit (self : NetStore) (key : Key) (c : Chunk)
    (h : self.localStore.memStore key = some c) : self.Get key = (self, c) := by
  simp [NetStore.Get, LocalStore.Get, h]

/-- C27 (storage.NetStore.Get): when `localStore.Get` finds a chunk, `Get` returns that chunk
and the log of cloud calls is as before; when the key is not found, `Get` returns a new chunk
for the key, without data, with a request status whose channel is fresh and open, the log
gains exactly one `Retrieve` of that chunk, and the channel counter advances; in both cases
the memory store holds the returned chunk under the key afterwards, and a second `Get` for
the key returns the same chunk and leaves the store, the log of cloud calls included, as the
first `Get` left it. -/
theorem NetStore.Get_once (self : NetStore) (key : Key) :
    (self.Get key).2 =
      (match (self.localStore.Get key).2 with
       | some chunk => chunk
       | none =>
         { Key := key, SData := none, Size := 0,
           Req := some { Key := key, C := { id := self.nextC, closed := false } } }) ∧
    (self.Get key).1.cloud =
      (match (self.localStore.Get key).2 with
       | some _ => self.cloud
       | none => self.cloud ++ [CloudCall.Retrieve (self.Get key).2]) ∧
    (self.Get key).1.nextC =
      (match (self.localStore.Get key).2 with
       | some _ => self.nextC
       | none => self.nextC + 1) ∧
    (self.Get key).1.localStore.memStore key = some (self.Get key).2 ∧
    (self.Get key).1.Get key = ((self.Get key).1, (self.Get key).2) := by
  refine ⟨?_, ?_, ?_, NetStore.Get_memStore self key,
    NetStore.Get_hit _ key _ (NetStore.Get_memStore self key)⟩
  · rcases Option.eq_none_or_eq_some (self.localStore.memStore key) with hm | ⟨c, hm⟩
    · rcases Option.eq_none_or_eq_some (self.localStore.dbStore key) with hd | ⟨d, hd⟩
      · simp [NetStore.Get, LocalStore.Get, hm, hd, NewChunk, newRequestStatus]
      · simp [NetStore.Get, LocalStore.Get, hm, hd]
    · simp [NetStore.Get, LocalStore.Get, hm]
  · rcases Option.eq_none_or_eq_some (self.localStore.memStore key) with hm | ⟨c, hm⟩
    · rcases Option.eq_none_or_eq_some (self.localStore.dbStore key) with hd | ⟨d, hd⟩
      · simp [NetStore.Get, LocalStore.Get, hm, hd]
      · simp [NetStore.Get, LocalStore.Get, hm, hd]
    · simp [NetStore.Get, LocalStore.Get, hm]
  · rcases Option.eq_none_or_eq_some (self.localStore.memStore key) with hm | ⟨c, hm⟩
    · rcases Option.eq_none_or_eq_some (self.localStore.dbStore key) with hd | ⟨d, hd⟩
      · simp [NetStore.Get, LocalStore.Get, hm, hd]
      · simp [NetStore.Get, LocalStore.Get, hm, hd]
    · simp [NetStore.Get, LocalStore.Get, hm]

/-- An instance of C27 on the empty example store: the first `Get` of key [9] launches one
`Retrieve`, the second returns the same chunk and launches none. -/
theorem NetStore.Get_once_witness :
    (testNetStore.Get [9]).1.cloud = [CloudCall.Retrieve (testNetStore.Get [9]).2] ∧
    ((testNetStore.Get [9]).1.Get [9]).2 = (testNetStore.Get [9]).2 ∧
    ((testNetStore.Get [9]).1.Get [9]).1.cloud = [CloudCall.Retrieve (testNetStore.Get [9]).2] :=
  ⟨(NetStore.Get_once testNetStore [9]).2.1,
   congrArg Prod.snd (NetStore.Get_once testNetStore [9]).2.2.2.2,
   (congrArg (fun r => r.1.cloud) (NetStore.Get_once testNetStore [9]).2.2.2.2).trans
     (NetStore.Get_once testNetStore [9]).2.1⟩

/-- Over a memStore placeholder, `localStore.Put` leaves the chunk with the request status
of the placeholder; otherwise it leaves the chunk as handed in. -/
theorem LocalStore.putEntry_cases (ls : LocalStore) (chunk : Chunk) :
    (∀ p, ls.memStore chunk.Key = some p → p.SData = none →
      ls.putEntry chunk = { chunk with Req := p.Req }) ∧
    (ls.memStore chunk.Key = none → ls.putEntry chunk = chunk) ∧
    (∀ p, ls.memStore chunk.Key = some p → p.SData ≠ none → ls.putEntry chunk = chunk) := by
  refine ⟨?_, ?_, ?_⟩
  · intro p h hd
    simp [LocalStore.putEntry, h, hd]
  · intro h
    simp [LocalStore.putEntry, h]
  · intro p h hd
    simp [LocalStore.putEntry, h, hd]

/-- C28 as stated fails: on the empty example store, `Put` of the chunk of key [9] with 16
data bytes that carries a request status with open channel 0 closes the channel and calls
`Deliver`; `Store` is not called, so the chunk is not forced to propagate.  The same happens
to a chunk handed in without request status when a `Get` of its key came first: the
placeholder of the `Get` gives it its request status. -/
theorem NetStore.Put_no_store_counterexample :
    observeCloud
      (testNetStore.Put
        { Key := [9], SData := some [8, 0, 0, 0, 0, 0, 0, 0, 1, 0, 0, 0, 0, 0, 0, 0], Size := 8,
          Req := some (newRequestStatus [9] 0) }) =
      some [CloudCall.close 0,
        CloudCall.Deliver
          { Key := [9], SData := some [8, 0, 0, 0, 0, 0, 0, 0, 1, 0, 0, 0, 0, 0, 0, 0],
            Size := 8,
            Req := some { Key := [9], C := { id := 0, closed := true } } }] ∧
    observeCloud
      ((testNetStore.Get [9]).1.Put
        { Key := [9], SData := some [8, 0, 0, 0, 0, 0, 0, 0, 1, 0, 0, 0, 0, 0, 0, 0], Size := 8,
          Req := none }) =
      some [CloudCall.Retrieve (NewChunk [9] (newRequestStatus [9] 0)),
        CloudCall.close 0,
        CloudCall.Deliver
          { Key := [9], SData := some [8, 0, 0, 0, 0, 0, 0, 0, 1, 0, 0, 0, 0, 0, 0, 0],
            Size := 8,
            Req := some { Key := [9], C := { id := 0, closed := true } } }] := by
  constructor <;> decide

/-- C28 amended: `Put` writes the chunk to the local store unconditionally and reads its
request status after that write, which leaves on the chunk the request status of a
placeholder that memStore held under its key, and the chunk as handed in otherwise.  Then
it does exactly one of two things.  For a chunk that then carries a request status, with
its channel open: it closes the channel and calls `Deliver`, and it does not call `Store`.
For a chunk then without request status: the one call made is `Store`, so the promise of
the comment of `Put`, that the chunk is forced to propagate, holds for these chunks only.
When the channel is already closed `Put` panics after the write. -/
theorem NetStore.Put_no_store (self : NetStore) (entry : Chunk) :
    ((∀ p, self.localStore.memStore entry.Key = some p → p.SData = none →
        self.localStore.putEntry entry = { entry with Req := p.Req }) ∧
      (self.localStore.memStore entry.Key = none → self.localStore.putEntry entry = entry) ∧
      (∀ p, self.localStore.memStore entry.Key = some p → p.SData ≠ none →
        self.localStore.putEntry entry = entry)) ∧
    (∀ rs, (self.localStore.putEntry entry).Req = some rs → rs.C.closed = false →
      ∃ s calls, self.Put entry = Except.ok s ∧ s.cloud = self.cloud ++ calls ∧
        calls = [CloudCall.close rs.C.id,
          CloudCall.Deliver
            { self.localStore.putEntry entry with
              Req := some { rs with C := { rs.C with closed := true } } }] ∧
        (∀ c, CloudCall.Store c ∉ calls) ∧
        s.localStore.dbStore =
          (match entry.SData with
           | some data => Function.update self.localStore.dbStore entry.Key (some data)
           | none => self.localStore.dbStore) ∧
        s.localStore.memStore entry.Key =
          some { self.localStore.putEntry entry with
                 Req := some { rs with C := { rs.C with closed := true } } }) ∧
    ((self.localStore.putEntry entry).Req = none →
      ∃ s, self.Put entry = Except.ok s ∧
        s.cloud = self.cloud ++ [CloudCall.Store (self.localStore.putEntry entry)] ∧
        s.localStore = self.localStore.Put entry) ∧
    (∀ rs, (self.localStore.putEntry entry).Req = some rs → rs.C.closed = true →
      self.Put entry =
        Except.error { self with localStore := self.localStore.Put entry }) := by
  have hkey : (self.localStore.putEntry entry).Key = entry.Key := by
    unfold LocalStore.putEntry
    split
    · split <;> rfl
    · rfl
  refine ⟨LocalStore.putEntry_cases self.localStore entry, ?_, ?_, ?_⟩
  · intro rs hreq hopen
    refine ⟨_, _, by simp only [NetStore.Put, hreq, hopen]; rfl, rfl, rfl, ?_, ?_, ?_⟩
    · intro c hc
      simp at hc
    · simp [LocalStore.memPut, LocalStore.Put]
    · simp [LocalStore.memPut, hkey]
  · intro hreq
    refine ⟨{ self with
      localStore := self.localStore.Put entry
      cloud := self.cloud ++ [CloudCall.Store (self.localStore.putEntry entry)] }, ?_, rfl, rfl⟩
    simp only [NetStore.Put, hreq]
  · intro rs hreq hclosed
    simp [NetStore.Put, hreq, hclosed]

/-- An instance of the amended C28: on the empty example store, `Put` of the chunk of key
[9] with 16 data bytes and no request status makes one call, `Store`. -/
theorem NetStore.Put_no_store_witness :
    observeCloud
      (testNetStore.Put
        { Key := [9], SData := some [8, 0, 0, 0, 0, 0, 0, 0, 1, 0, 0, 0, 0, 0, 0, 0], Size := 8,
          Req := none }) =
      some [CloudCall.Store
        { Key := [9], SData := some [8, 0, 0, 0, 0, 0, 0, 0, 1, 0, 0, 0, 0, 0, 0, 0],
          Size := 8, Req := none }] := by
  obtain ⟨s, h1, h2, _⟩ := (NetStore.Put_no_store testNetStore
    { Key := [9], SData := some [8, 0, 0, 0, 0, 0, 0, 0, 1, 0, 0, 0, 0, 0, 0, 0], Size := 8,
      Req := none }).2.2.1 rfl
  rw [h1, observeCloud, h2]
  rfl

end storage

namespace bzz

/-- The value `binary.LittleEndian.Uint64` reads from at most 8 bytes fits 64 bits. -/
theorem leUint64_lt (l : List Nat) : leUint64 l < 256 ^ l.length := by
  induction l with
  | nil => simp [leUint64]
  | cons b bs ih =>
    have hb : b % 256 < 256 := Nat.mod_lt _ (by decide)
    simp only [leUint64, List.length_cons, pow_succ]
    omega

/-- On a value that fits 64 bits, `int64(x)` is `x` below `2 ^ 63` and `x - 2 ^ 64` from
there on. -/
theorem toInt64_of_lt (x : Nat) (h : x < 2 ^ 64) :
    toInt64 x = if x < 2 ^ 63 then (x : Int) else (x : Int) - 2 ^ 64 := by
  simp only [toInt64, Nat.mod_eq_of_lt h]

/-- The size decoded from the first 8 bytes a slice expression reaches. -/
theorem sizeOf8_eq (req : storeRequestMsgData) :
    sizeOf8 req.SData req.spare =
      if 8 ≤ req.capSData then
        some (if leUint64 ((bytesOf req.SData ++ req.spare).take 8) < 2 ^ 63 then
            (leUint64 ((bytesOf req.SData ++ req.spare).take 8) : Int)
          else (leUint64 ((bytesOf req.SData ++ req.spare).take 8) : Int) - 2 ^ 64)
      else none := by
  rcases Option.eq_none_or_eq_some req.SData with h | ⟨data, h⟩
  · simp [sizeOf8, storeRequestMsgData.capSData, h]
  · have hlt : leUint64 ((data ++ req.spare).take 8) < 2 ^ 64 := by
      have h1 := leUint64_lt ((data ++ req.spare).take 8)
      have h2 : ((data ++ req.spare).take 8).length ≤ 8 := by simp
      calc leUint64 ((data ++ req.spare).take 8)
          < 256 ^ ((data ++ req.spare).take 8).length := h1
        _ ≤ 256 ^ 8 := Nat.pow_le_pow_right (by decide) h2
        _ = 2 ^ 64 := by norm_num
    simp only [sizeOf8, storeRequestMsgData.capSData, h, bytesOf, Option.getD_some,
      List.length_append, toInt64_of_lt _ hlt]

/-- C31 as stated fails: on the example store, which has no record of key [9], a store
request whose data slice has 5 bytes and capacity 8 (three more bytes of its backing array
behind it) does not fail: the slice expression `SData[0:8]` is bounded by the capacity, the
call returns, and the chunk stored has the 5 data bytes and the size 9 read from the 8 bytes
of the backing array.  The same data in a slice of capacity 5 makes the call panic. -/
theorem netStore.addStoreRequest_size_counterexample :
    (bytesOf (some [9, 0, 0, 0, 0])).length = 5 ∧
    (∃ s, testStore.addStoreRequest
        { Key := [9], Id := 1, SData := some [9, 0, 0, 0, 0], requestTimeout := none,
          peer := testPeer 2, spare := [0, 0, 0] } 5 = Except.ok s ∧
      observeStored s [9] = some (some [9, 0, 0, 0, 0], 9, some (testPeer 2))) ∧
    testStore.addStoreRequest
        { Key := [9], Id := 1, SData := some [9, 0, 0, 0, 0], requestTimeout := none,
          peer := testPeer 2, spare := [] } 5 = Except.error testStore := by
  refine ⟨rfl, ⟨_, rfl, ?_⟩, rfl⟩
  decide

/-- C31 amended: `addStoreRequest` decodes the size from `SData[0:8]` without a check, and
the slice expression is in range exactly when the capacity of the data slice is at least 8
(for a slice whose capacity is its length: when the data has at least 8 bytes).  For a key
with no local record the call returns if and only if the capacity is at least 8, and with
a smaller capacity it panics leaving the netStore untouched.  For a key held in memStore as
a chunk without data, with data hashing to the key, the call returns if and only if the
capacity is at least 8 and the chunk is not searching on a closed channel (the close of a
closed channel being the one other failure); with a smaller capacity it panics after the
data was written to the chunk.  In both cases, with capacity at least 8, the chunk held
under the key afterwards has the data of the request, the requesting peer as source, and as
size the little-endian value `v` of the first 8 bytes of the backing array, read as an
int64: `v` below `2 ^ 63`, `v - 2 ^ 64` from there on. -/
theorem netStore.addStoreRequest_size (self : netStore) (req : storeRequestMsgData)
    (now : Nat) :
    (self.localStore.memStore req.Key = none → self.localStore.dbStore req.Key = none →
      ((∃ s, self.addStoreRequest req now = Except.ok s) ↔ 8 ≤ req.capSData) ∧
      (8 ≤ req.capSData →
        observeStored (reached (self.addStoreRequest req now)) req.Key =
          some (req.SData,
            (if leUint64 ((bytesOf req.SData ++ req.spare).take 8) < 2 ^ 63 then
              (leUint64 ((bytesOf req.SData ++ req.spare).take 8) : Int)
            else (leUint64 ((bytesOf req.SData ++ req.spare).take 8) : Int) - 2 ^ 64),
            some req.peer)) ∧
      (¬ 8 ≤ req.capSData → self.addStoreRequest req now = Except.error self)) ∧
    (∀ chunk, self.localStore.memStore req.Key = some chunk → chunk.Key = req.Key →
      chunk.SData = none → self.hashfunc (bytesOf req.SData) = req.Key →
      ((∃ s, self.addStoreRequest req now = Except.ok s) ↔
        (8 ≤ req.capSData ∧
          ¬ ∃ rs, chunk.req = some rs ∧ rs.status = reqSearching ∧ rs.C.closed = true)) ∧
      (8 ≤ req.capSData →
        observeStored (reached (self.addStoreRequest req now)) req.Key =
          some (req.SData,
            (if leUint64 ((bytesOf req.SData ++ req.spare).take 8) < 2 ^ 63 then
              (leUint64 ((bytesOf req.SData ++ req.spare).take 8) : Int)
            else (leUint64 ((bytesOf req.SData ++ req.spare).take 8) : Int) - 2 ^ 64),
            some req.peer)) ∧
      (¬ 8 ≤ req.capSData →
        self.addStoreRequest req now =
          Except.error (self.store { chunk with SData := req.SData }))) ∧
    (req.spare = [] → req.capSData = (bytesOf req.SData).length) := by
  have hsize := sizeOf8_eq req
  refine ⟨?_, ?_, ?_⟩
  · intro hmem hdb
    by_cases hcap : 8 ≤ req.capSData
    · rw [if_pos hcap] at hsize
      have hop : self.addStoreRequest req now = Except.ok
          (netStore.propagate
            { self with
              localStore := self.localStore.Put
                { Key := req.Key, SData := req.SData,
                  Size := (if leUint64 ((bytesOf req.SData ++ req.spare).take 8) < 2 ^ 63 then
                      (leUint64 ((bytesOf req.SData ++ req.spare).take 8) : Int)
                    else (leUint64 ((bytesOf req.SData ++ req.spare).take 8) : Int) - 2 ^ 64),
                  source := some req.peer, req := none } }
            { Key := req.Key, SData := req.SData,
              Size := (if leUint64 ((bytesOf req.SData ++ req.spare).take 8) < 2 ^ 63 then
                  (leUint64 ((bytesOf req.SData ++ req.spare).take 8) : Int)
                else (leUint64 ((bytesOf req.SData ++ req.spare).take 8) : Int) - 2 ^ 64),
              source := some req.peer, req := none }) := by
        simp only [netStore.addStoreRequest, localStore.Get, hmem, hdb, hsize, netStore.put,
          localStore.putEntry]
      refine ⟨⟨fun _ => hcap, fun _ => ⟨_, hop⟩⟩, ?_, fun h => absurd hcap h⟩
      intro _
      rw [hop]
      simp [reached, observeStored, netStore.propagate, netStore.emit, localStore.Put,
        localStore.putEntry, hmem]
    · rw [if_neg hcap] at hsize
      have hop : self.addStoreRequest req now = Except.error self := by
        simp only [netStore.addStoreRequest, localStore.Get, hmem, hdb, hsize]
      refine ⟨⟨fun ⟨s, hs⟩ => ?_, fun h => absurd h hcap⟩, fun h => absurd h hcap, fun _ => hop⟩
      rw [hop] at hs
      cases hs
  · intro chunk hmem hkey hnil hhash
    by_cases hcap : 8 ≤ req.capSData
    · rw [if_pos hcap] at hsize
      have hop : self.addStoreRequest req now =
          netStore.put self
            { chunk with
              SData := req.SData
              Size := (if leUint64 ((bytesOf req.SData ++ req.spare).take 8) < 2 ^ 63 then
                  (leUint64 ((bytesOf req.SData ++ req.spare).take 8) : Int)
                else (leUint64 ((bytesOf req.SData ++ req.spare).take 8) : Int) - 2 ^ 64)
              source := some req.peer } now := by
        simp only [netStore.addStoreRequest, localStore.Get, hmem, hnil, hhash, hsize,
          ne_eq, not_true_eq_false, if_true, if_false]
      rw [hop]
      have hpe : self.localStore.putEntry
          { chunk with
            SData := req.SData
            Size := (if leUint64 ((bytesOf req.SData ++ req.spare).take 8) < 2 ^ 63 then
                (leUint64 ((bytesOf req.SData ++ req.spare).take 8) : Int)
              else (leUint64 ((bytesOf req.SData ++ req.spare).take 8) : Int) - 2 ^ 64)
            source := some req.peer } =
          { chunk with
            SData := req.SData
            Size := (if leUint64 ((bytesOf req.SData ++ req.spare).take 8) < 2 ^ 63 then
                (leUint64 ((bytesOf req.SData ++ req.spare).take 8) : Int)
              else (leUint64 ((bytesOf req.SData ++ req.spare).take 8) : Int) - 2 ^ 64)
            source := some req.peer } := by
        rw [localStore.putEntry_placeholder _ _ chunk (by rw [hkey]; exact hmem) hnil]
      generalize hE : ({ chunk with
            SData := req.SData
            Size := (if leUint64 ((bytesOf req.SData ++ req.spare).take 8) < 2 ^ 63 then
                (leUint64 ((bytesOf req.SData ++ req.spare).take 8) : Int)
              else (leUint64 ((bytesOf req.SData ++ req.spare).take 8) : Int) - 2 ^ 64)
            source := some req.peer } : Chunk) = entry at hpe ⊢
      have eKey : entry.Key = req.Key := by rw [← hE]; exact hkey
      have eData : entry.SData = req.SData := by rw [← hE]
      have eSize : entry.Size =
          (if leUint64 ((bytesOf req.SData ++ req.spare).take 8) < 2 ^ 63 then
            (leUint64 ((bytesOf req.SData ++ req.spare).take 8) : Int)
          else (leUint64 ((bytesOf req.SData ++ req.spare).take 8) : Int) - 2 ^ 64) := by
        rw [← hE]
      have eSrc : entry.source = some req.peer := by rw [← hE]
      have eReq : entry.req = chunk.req := by rw [← hE]
      rcases Option.eq_none_or_eq_some chunk.req with hreq | ⟨rs, hreq⟩
      · have hreq' : entry.req = none := eReq.trans hreq
        refine ⟨⟨fun _ => ⟨hcap, ?_⟩, fun _ => ?_⟩, fun _ => ?_, fun h => absurd hcap h⟩
        · rintro ⟨rs, h, _⟩
          rw [hreq] at h
          cases h
        · simp only [netStore.put, hpe, hreq']
          exact ⟨_, rfl⟩
        · simp [netStore.put, hpe, hreq', reached, observeStored, netStore.propagate,
            netStore.emit, localStore.Put, eKey, eData, eSize, eSrc]
      · have hreq' : entry.req = some rs := eReq.trans hreq
        by_cases hst : rs.status = reqSearching
        · by_cases hcl : rs.C.closed = true
          · refine ⟨⟨fun ⟨s, hs⟩ => ?_, fun h => ?_⟩, fun _ => ?_, fun h => absurd hcap h⟩
            · simp [netStore.put, hpe, hreq', hst, hcl] at hs
            · exact absurd ⟨rs, hreq, hst, hcl⟩ h.2
            · simp [netStore.put, hpe, hreq', hst, hcl, reached, observeStored, netStore.store,
                localStore.memPut, eKey, eData, eSize, eSrc]
          · refine ⟨⟨fun _ => ⟨hcap, ?_⟩, fun _ => ?_⟩, fun _ => ?_, fun h => absurd hcap h⟩
            · rintro ⟨rs', h, _, hc⟩
              rw [hreq] at h
              cases h
              exact hcl hc
            · simp only [netStore.put, hpe, hreq', hst, hcl, netStore.deliver]
              exact ⟨_, rfl⟩
            · simp [netStore.put, hpe, hreq', hst, hcl, netStore.deliver, reached,
                observeStored, netStore.store, netStore.emit, localStore.memPut, eKey, eData,
                eSize, eSrc]
        · refine ⟨⟨fun _ => ⟨hcap, ?_⟩, fun _ => ?_⟩, fun _ => ?_, fun h => absurd hcap h⟩
          · rintro ⟨rs', h, hs, _⟩
            rw [hreq] at h
            cases h
            exact hst hs
          · simp only [netStore.put, hpe, hreq', hst]
            exact ⟨_, rfl⟩
          · simp [netStore.put, hpe, hreq', hst, reached, observeStored, localStore.Put, eKey,
              eData, eSize, eSrc]
    · rw [if_neg hcap] at hsize
      have hop : self.addStoreRequest req now =
          Except.error (self.store { chunk with SData := req.SData }) := by
        simp only [netStore.addStoreRequest, localStore.Get, hmem, hnil, hhash, hsize,
          ne_eq, not_true_eq_false, if_true, if_false]
      refine ⟨⟨fun ⟨s, hs⟩ => ?_, fun h => absurd h.1 hcap⟩, fun h => absurd h hcap,
        fun _ => hop⟩
      rw [hop] at hs
      cases hs
  · intro hspare
    rcases Option.eq_none_or_eq_some req.SData with h | ⟨data, h⟩
    · simp [storeRequestMsgData.capSData, h, bytesOf]
    · simp [storeRequestMsgData.capSData, h, bytesOf, hspare]

/-- An instance of the amended C31 on the example store holding the searching example
placeholder for key [9]: a store request from peer 2 whose 8 data bytes hash to [9] and
encode the size 9 returns and leaves under [9] a chunk with that data, size 9 and source
peer 2; and on the example store without record, eight bytes 255 are stored with size -1. -/
theorem netStore.addStoreRequest_size_witness :
    ((∃ s, (testStore.store (testPlaceholder [])).addStoreRequest
        { Key := [9], Id := 1, SData := some [9, 0, 0, 0, 0, 0, 0, 0], requestTimeout := none,
          peer := testPeer 2 } 5 = Except.ok s) ∧
      observeStored
        (reached ((testStore.store (testPlaceholder [])).addStoreRequest
          { Key := [9], Id := 1, SData := some [9, 0, 0, 0, 0, 0, 0, 0], requestTimeout := none,
            peer := testPeer 2 } 5)) [9] =
        some (some [9, 0, 0, 0, 0, 0, 0, 0], 9, some (testPeer 2))) ∧
    observeStored
      (reached (testStore.addStoreRequest
        { Key := [7], Id := 1, SData := some [255, 255, 255, 255, 255, 255, 255, 255],
          requestTimeout := none, peer := testPeer 2 } 5)) [7] =
      some (some [255, 255, 255, 255, 255, 255, 255, 255], -1, some (testPeer 2)) := by
  have h1 := (netStore.addStoreRequest_size (testStore.store (testPlaceholder []))
    { Key := [9], Id := 1, SData := some [9, 0, 0, 0, 0, 0, 0, 0], requestTimeout := none,
      peer := testPeer 2 } 5).2.1 (testPlaceholder [])
    (by simp [netStore.store, localStore.memPut, testPlaceholder]) rfl rfl (by decide)
  have h2 := (netStore.addStoreRequest_size testStore
    { Key := [7], Id := 1, SData := some [255, 255, 255, 255, 255, 255, 255, 255],
      requestTimeout := none, peer := testPeer 2 } 5).1 rfl rfl
  refine ⟨⟨h1.1.mpr ⟨by decide, ?_⟩, ?_⟩, ?_⟩
  · rintro ⟨rs, h, _, hc⟩
    simp only [testPlaceholder, Option.some.injEq] at h
    rw [← h] at hc
    cases hc
  · rw [h1.2.1 (by decide)]
    decide
  · rw [h2.2.1 (by decide)]
    decide

end bzz
